import Mathlib

/-!
# Case_Match matchmaking: a shallow embedding of `backend/dist/matchmaking.js`

The definitions below follow the JavaScript source function by function and keep
its names.  Conventions of the embedding:

* arrays are lists; a `Set` of strings is the list of its elements in insertion
  order (first occurrences), which is the order `[...set]` iterates in;
* `while` loops are structural recursions on a fuel argument; every call site
  passes a fuel that the loop provably cannot exhaust (each iteration shrinks
  the working list), see the `*_fuel` lemmas;
* integer scores are `Int`; means are rationals (the floating point quotients of
  the source are exact enough at team sizes for every comparison made on them);
  a value that is `NaN` in the source is `none`; closed instances that compare
  rationals are evaluated by the kernel (`decide!`);
* `console.log` narration and the uuid of a team carry no control flow and are
  left out;
* table lookups (`experienceValues[...]`) model the own keys of the table.
-/

set_option autoImplicit false

namespace Matchmaking

/-! ## Data model -/

/-- Participant record as read by the matcher. -/
structure Participant where
  id : String
  fullName : String
  currentYear : String
  preferredTeamSize : Nat
  experience : String
  availability : String
  casePreferences : List String
  coreStrengths : List String
  preferredRoles : List String
  deriving DecidableEq

/-- The three availability buckets returned by `getAvailabilityLevel`. -/
inductive AvailabilityLevel where
  | High
  | Medium
  | Low
  deriving DecidableEq

/-- Team record built by `createTeamObject` and `createRelaxedTeamObject`
(without the generated id; `skillVector` is always empty). -/
structure Team where
  members : List Participant
  skillVector : List String
  compatibilityScore : ℚ
  teamSize : Nat
  averageExperience : Option ℚ
  commonCaseTypes : List String
  workStyleCompatibility : String
  preferredTeamSizeMatch : ℚ
  deriving DecidableEq

/-- The value `{ teams, unmatched }` returned by the team formers. -/
structure Formed where
  teams : List Team
  unmatched : List Participant
  deriving DecidableEq

/-- The `statistics` object of the result. -/
structure Statistics where
  totalParticipants : Nat
  teamsFormed : Nat
  averageTeamSize : ℚ
  matchingEfficiency : ℚ
  teamSizeDistribution : List (Nat × Nat)
  caseTypeDistribution : List (String × Nat)
  deriving DecidableEq

/-- The value returned by `matchParticipantsToTeams`. -/
structure MatchingResult where
  teams : List Team
  unmatched : List Participant
  statistics : Statistics
  deriving DecidableEq

/-! ## JavaScript library behaviour used by the source -/

/-- Substring test on character lists: `sub` occurs somewhere in `s`. -/
def includesChars : List Char → List Char → Bool
  | [], sub => sub.isEmpty
  | c :: s, sub => sub.isPrefixOf (c :: s) || includesChars s sub

/-- The method `String.prototype.includes`. -/
def includes (s sub : String) : Bool :=
  includesChars s.toList sub.toList

/-- Elements of `new Set(xs)` in iteration order: first occurrences are kept. -/
def jsSet : List String → List String
  | [] => []
  | x :: xs => x :: (jsSet xs).filter (fun y => y != x)

/-- The method `Array.prototype.findIndex`: index of the first element that
satisfies `f`, or `-1`. -/
def findIndex (f : Participant → Bool) (l : List Participant) : Int :=
  if l.findIdx f < l.length then (l.findIdx f : Int) else -1

/-- The array after `splice(start, 1)`: a negative `start` counts from the end
(clamped at 0), so `splice(-1, 1)` removes the last element. -/
def splice1 (l : List Participant) (start : Int) : List Participant :=
  if start < 0 then l.eraseIdx (l.length - start.natAbs) else l.eraseIdx start.toNat

/-- Comparator values: `none` is `NaN`, which `Array.prototype.sort` reads as `+0`. -/
def sortBefore (cmp : Participant → Participant → Option Int) (a b : Participant) : Prop :=
  (cmp a b).getD 0 ≤ 0

instance (cmp : Participant → Participant → Option Int) : DecidableRel (sortBefore cmp) :=
  fun a b => inferInstanceAs (Decidable ((cmp a b).getD 0 ≤ 0))

/-- The method `Array.prototype.sort(cmp)`, which is stable: an element moves in
front of another only when the comparator is positive for the pair in array
order.  (For a comparator that is not a consistent ordering the source's result
is implementation-defined; this model fixes stable insertion.) -/
def jsSort (cmp : Participant → Participant → Option Int) (l : List Participant) :
    List Participant :=
  l.insertionSort (sortBefore cmp)

/-- Index pairs `i < j` of the nested loops of the team-object builders, in loop order. -/
def pairs : List Participant → List (Participant × Participant)
  | [] => []
  | x :: xs => xs.map (fun y => (x, y)) ++ pairs xs

/-! ## Availability model -/

/-- The `switch` of `getAvailabilityLevel` on the raw label. -/
def availabilityLevelOf (availability : String) : AvailabilityLevel :=
  if availability = "Fully Available (10–15 hrs/week)" then .High
  else if availability = "Moderately Available (5–10 hrs/week)" then .Medium
  else if availability = "Lightly Available (1–4 hrs/week)" then .Low
  else if availability = "Not available now, but interested later" then .Low
  else .Medium

/-- Source: `getAvailabilityLevel(participant)`. -/
def getAvailabilityLevel (participant : Participant) : AvailabilityLevel :=
  availabilityLevelOf participant.availability

/-- The table `compatibilityMatrix` of `isAvailabilityCompatible`. -/
def compatibilityMatrix : AvailabilityLevel → List AvailabilityLevel
  | .High => [.High, .Medium]
  | .Medium => [.High, .Medium, .Low]
  | .Low => [.Medium, .Low]

/-- Source: `isAvailabilityCompatible(level1, level2)`. -/
def isAvailabilityCompatible (level1 level2 : AvailabilityLevel) : Bool :=
  (compatibilityMatrix level1).contains level2

/-- Source: `filterByStrictAvailabilityMatch(team, candidates)` (ALL semantics). -/
def filterByStrictAvailabilityMatch (team candidates : List Participant) : List Participant :=
  if team.length = 0 then candidates
  else
    let teamAvailabilityLevels := team.map getAvailabilityLevel
    candidates.filter (fun candidate =>
      let candidateAvailabilityLevel := getAvailabilityLevel candidate
      teamAvailabilityLevels.all (fun teamLevel =>
        isAvailabilityCompatible teamLevel candidateAvailabilityLevel))

/-- Source: `filterByFlexibleAvailabilityMatch(team, candidates)` (ANY semantics). -/
def filterByFlexibleAvailabilityMatch (team candidates : List Participant) : List Participant :=
  if team.length = 0 then candidates
  else
    let teamAvailabilityLevels := team.map getAvailabilityLevel
    candidates.filter (fun candidate =>
      let candidateAvailabilityLevel := getAvailabilityLevel candidate
      teamAvailabilityLevels.any (fun teamLevel =>
        isAvailabilityCompatible teamLevel candidateAvailabilityLevel))

/-! ## Case-topic filters -/

/-- Source: `filterByCaseTypeDiversity(team, candidates)`. -/
def filterByCaseTypeDiversity (team candidates : List Participant) : List Participant :=
  if team.length = 0 then candidates
  else
    let teamCaseTypes := team.flatMap (fun member => member.casePreferences)
    let uniqueTeamCaseTypes := jsSet teamCaseTypes
    if uniqueTeamCaseTypes.length = 0 then candidates
    else
      let candidatesWithDifferentCaseTypes := candidates.filter (fun candidate =>
        candidate.casePreferences.any (fun caseType => !uniqueTeamCaseTypes.contains caseType))
      if candidatesWithDifferentCaseTypes.length > 0 then candidatesWithDifferentCaseTypes
      else candidates

/-- Source: `filterByCaseTypeRelaxed(team, candidates)`. -/
def filterByCaseTypeRelaxed (team candidates : List Participant) : List Participant :=
  if team.length = 0 then candidates
  else
    let teamCaseTypes := team.flatMap (fun member => member.casePreferences)
    let uniqueTeamCaseTypes := jsSet teamCaseTypes
    if uniqueTeamCaseTypes.length = 0 then candidates
    else
      candidates.filter (fun candidate =>
        let hasCommonCaseType :=
          candidate.casePreferences.any (fun caseType => uniqueTeamCaseTypes.contains caseType)
        hasCommonCaseType || decide (team.length < 3))

/-! ## Scoring -/

/-- Source: `calculateAntiBiasScore(team, candidate, targetSize)`. -/
def calculateAntiBiasScore (team : List Participant) (candidate : Participant)
    (_targetSize : Nat) : Int :=
  let score : Int := 0
  let teamExperiences := team.map (fun p => p.experience)
  let score := if !teamExperiences.contains candidate.experience then score + 25 else score
  let teamCaseTypes := jsSet (team.flatMap (fun p => p.casePreferences))
  let candidateCaseTypes := jsSet candidate.casePreferences
  let caseOverlap : Int := (teamCaseTypes.filter (fun type => candidateCaseTypes.contains type)).length
  let score := score + caseOverlap * 15
  let teamSkills := jsSet (team.flatMap (fun p => p.coreStrengths))
  let candidateSkills := jsSet candidate.coreStrengths
  let skillOverlap : Int := (teamSkills.filter (fun skill => candidateSkills.contains skill)).length
  let uniqueSkills : Int := candidate.coreStrengths.length - skillOverlap
  let score := score + uniqueSkills * 10
  let teamAvailabilities := team.map (fun p => p.availability)
  let availabilityMatch := teamAvailabilities.any (fun avail =>
    isAvailabilityCompatible (availabilityLevelOf avail) (getAvailabilityLevel candidate))
  let score := if availabilityMatch then score + 20 else score
  let teamRoles := jsSet (team.flatMap (fun p => p.preferredRoles))
  let candidateRoles := jsSet candidate.preferredRoles
  let roleOverlap : Int := (teamRoles.filter (fun role => candidateRoles.contains role)).length
  let uniqueRoles : Int := candidate.preferredRoles.length - roleOverlap
  let score := score + uniqueRoles * 8
  score

/-- The mean `reduce(sum) / length` of the members' preferred sizes; `none` is the
`NaN` of `0 / 0` on an empty team. -/
def avgTeamSizePreference (team : List Participant) : Option ℚ :=
  let teamSizePreferences := team.map (fun p => p.preferredTeamSize)
  if teamSizePreferences.length = 0 then none
  else some ((teamSizePreferences.foldl (fun sum size => sum + size) 0 : Nat) /
    (teamSizePreferences.length : ℚ))

/-- Source: `calculateRelaxedScore(team, candidate, targetSize)`. -/
def calculateRelaxedScore (team : List Participant) (candidate : Participant)
    (_targetSize : Nat) : Int :=
  let score : Int := 0
  let teamExperiences := team.map (fun p => p.experience)
  let score := if !teamExperiences.contains candidate.experience then score + 20 else score
  let teamCaseTypes := jsSet (team.flatMap (fun p => p.casePreferences))
  let candidateCaseTypes := jsSet candidate.casePreferences
  let caseOverlap : Int := (teamCaseTypes.filter (fun type => candidateCaseTypes.contains type)).length
  let score := score + caseOverlap * 12
  let teamSkills := jsSet (team.flatMap (fun p => p.coreStrengths))
  let candidateSkills := jsSet candidate.coreStrengths
  let skillOverlap : Int := (teamSkills.filter (fun skill => candidateSkills.contains skill)).length
  let uniqueSkills : Int := candidate.coreStrengths.length - skillOverlap
  let score := score + uniqueSkills * 8
  let teamAvailabilities := team.map (fun p => p.availability)
  let availabilityMatch := teamAvailabilities.any (fun avail =>
    isAvailabilityCompatible (availabilityLevelOf avail) (getAvailabilityLevel candidate))
  let score := if availabilityMatch then score + 15 else score
  let teamRoles := jsSet (team.flatMap (fun p => p.preferredRoles))
  let candidateRoles := jsSet candidate.preferredRoles
  let roleOverlap : Int := (teamRoles.filter (fun role => candidateRoles.contains role)).length
  let uniqueRoles : Int := candidate.preferredRoles.length - roleOverlap
  let score := score + uniqueRoles * 6
  let score :=
    match avgTeamSizePreference team with
    | some avg =>
      let sizeDifference : ℚ := |(candidate.preferredTeamSize : ℚ) - avg|
      if sizeDifference ≤ 1 then score + 10 else score
    | none => score
  score

/-- The `forEach` scan shared by both selectors: state is `(bestCandidate, bestScore)`,
replaced only by a strictly greater score. -/
def scanBest (score : Participant → Int) (candidates : List Participant) :
    Option Participant × Int :=
  candidates.foldl (fun best candidate =>
    if score candidate > best.2 then (some candidate, score candidate) else best) (none, -1)

/-- Source: `selectBestCandidateAntiBias(team, candidates, targetSize)`. -/
def selectBestCandidateAntiBias (team candidates : List Participant) (targetSize : Nat) :
    Option Participant :=
  if candidates.length = 0 then none
  else (scanBest (fun candidate => calculateAntiBiasScore team candidate targetSize) candidates).1

/-- Source: `selectBestCandidateRelaxed(team, candidates, targetSize)`. -/
def selectBestCandidateRelaxed (team candidates : List Participant) (targetSize : Nat) :
    Option Participant :=
  if candidates.length = 0 then none
  else (scanBest (fun candidate => calculateRelaxedScore team candidate targetSize) candidates).1

/-! ## Team objects -/

/-- The table `experienceValues` (also `experienceOrder`): `none` is `undefined`. -/
def experienceValues (experience : String) : Option Int :=
  if experience = "None" then some 0
  else if experience = "Participated in 1–2" then some 1
  else if experience = "Participated in 3+" then some 2
  else if experience = "Finalist/Winner in at least one" then some 3
  else none

/-- The table `availOrder` of the overflow sort: `none` is `undefined`. -/
def availOrder (availability : String) : Option Int :=
  if availability = "Fully Available (10–15 hrs/week)" then some 3
  else if availability = "Moderately Available (5–10 hrs/week)" then some 2
  else if availability = "Lightly Available (1–4 hrs/week)" then some 1
  else if availability = "Not available now, but interested later" then some 0
  else none

/-- Subtraction of two looked-up values: `undefined` on either side gives `NaN`. -/
def numSub : Option Int → Option Int → Option Int
  | some x, some y => some (x - y)
  | _, _ => none

/-- The mean `members.reduce((sum, m) => sum + experienceValues[m.experience], 0) /
members.length`; `none` is `NaN` (an unrecognised label, or no member). -/
def avgExperience (members : List Participant) : Option ℚ :=
  if members.length = 0 then none
  else
    (members.foldl (fun (sum : Option Int) m =>
        match sum, experienceValues m.experience with
        | some s, some v => some (s + v)
        | _, _ => none) (some 0)).map
      (fun total => (total : ℚ) / (members.length : ℚ))

/-- The keys of `caseTypeCounts` with a count of at least `k`, in insertion order,
cut to the first three (`Object.entries(...).filter(...).map(...).slice(0, 3)`).
Topic labels are taken not to be integer-like strings (which an object enumerates
first) nor names of inherited object properties. -/
def commonCaseTypesAtLeast (k : Nat) (members : List Participant) : List String :=
  let allCaseTypes := members.flatMap (fun m => m.casePreferences)
  ((jsSet allCaseTypes).filter (fun type => decide (allCaseTypes.count type ≥ k))).take 3

/-- Source: `createTeamObject(members)`.  Call sites pass at least one member. -/
def createTeamObject (members : List Participant) : Team :=
  let totalScore : Int :=
    ((pairs members).map (fun ij => calculateAntiBiasScore [ij.1] ij.2 members.length)).sum
  let comparisons : Nat := (pairs members).length
  let compatibilityScore : ℚ := if comparisons > 0 then (totalScore : ℚ) / comparisons else 0
  let commonCaseTypes := commonCaseTypesAtLeast 2 members
  let preferredSizeMatches :=
    (members.filter (fun m => m.preferredTeamSize == members.length)).length
  let preferredTeamSizeMatch : ℚ := ((preferredSizeMatches : ℚ) / members.length) * 100
  { members := members
    skillVector := []
    compatibilityScore := min 100 (max 0 compatibilityScore)
    teamSize := members.length
    averageExperience := avgExperience members
    commonCaseTypes := commonCaseTypes
    workStyleCompatibility := "Anti-bias optimized"
    preferredTeamSizeMatch := preferredTeamSizeMatch }

/-- Source: `createRelaxedTeamObject(members)`.  Call sites pass at least two members. -/
def createRelaxedTeamObject (members : List Participant) : Team :=
  let totalScore : Int :=
    ((pairs members).map (fun ij => calculateRelaxedScore [ij.1] ij.2 members.length)).sum
  let comparisons : Nat := (pairs members).length
  let compatibilityScore : ℚ :=
    if comparisons > 0 then min 100 (max 40 ((totalScore : ℚ) / comparisons)) else 70
  let commonCaseTypes := commonCaseTypesAtLeast 1 members
  let avgPreferredSize : ℚ :=
    ((members.foldl (fun sum m => sum + m.preferredTeamSize) 0 : Nat) : ℚ) / members.length
  let preferredTeamSizeMatch : ℚ := max 0 (100 - |avgPreferredSize - members.length| * 25)
  { members := members
    skillVector := []
    compatibilityScore := compatibilityScore
    teamSize := members.length
    averageExperience := avgExperience members
    commonCaseTypes := if commonCaseTypes.length > 0 then commonCaseTypes else ["Consulting"]
    workStyleCompatibility := "Relaxed constraints optimized"
    preferredTeamSizeMatch := preferredTeamSizeMatch }

/-! ## Strict pipeline -/

/-- Source: `findBestMatchWithStrictCandidates(currentTeam, candidates, targetSize)`. -/
def findBestMatchWithStrictCandidates (currentTeam candidates : List Participant)
    (targetSize : Nat) : Option Participant :=
  let candidatesWithCaseDiversity := filterByCaseTypeDiversity currentTeam candidates
  if candidatesWithCaseDiversity.length = 0 then
    let candidatesWithRelaxedCase := filterByCaseTypeRelaxed currentTeam candidates
    if candidatesWithRelaxedCase.length = 0 then none
    else selectBestCandidateAntiBias currentTeam candidatesWithRelaxedCase targetSize
  else selectBestCandidateAntiBias currentTeam candidatesWithCaseDiversity targetSize

/-- Source: `findBestMatchStrict(currentTeam, candidates, targetSize)`. -/
def findBestMatchStrict (currentTeam candidates : List Participant) (targetSize : Nat) :
    Option Participant :=
  let candidatesWithCorrectSize := candidates.filter (fun c => c.preferredTeamSize == targetSize)
  if candidatesWithCorrectSize.length = 0 then none
  else
    let candidatesWithStrictAvailability :=
      filterByStrictAvailabilityMatch currentTeam candidatesWithCorrectSize
    if candidatesWithStrictAvailability.length = 0 then none
    else findBestMatchWithStrictCandidates currentTeam candidatesWithStrictAvailability targetSize

/-- The fill loop of `createTeamWithStrictConstraints`:
`while (team.length < targetSize && remaining.length > 0)`. -/
def fillStrict (targetSize : Nat) : Nat → List Participant → List Participant → List Participant
  | 0, team, _ => team
  | fuel + 1, team, remaining =>
    if team.length < targetSize ∧ remaining.length > 0 then
      match findBestMatchStrict team remaining targetSize with
      | some nextMember =>
        let index := findIndex (fun p => p.id == nextMember.id) remaining
        fillStrict targetSize fuel (team ++ [nextMember]) (splice1 remaining index)
      | none => team
    else team

/-- Source: `createTeamWithStrictConstraints(participants, targetSize)`.  An empty
eligible list reaches the anchor only for `targetSize = 0`, where the source
builds `[undefined]` and rejects it for its length. -/
def createTeamWithStrictConstraints (participants : List Participant) (targetSize : Nat) :
    Option Team :=
  if participants.length < targetSize then none
  else
    let strictParticipants := participants.filter (fun p => p.preferredTeamSize == targetSize)
    if strictParticipants.length < targetSize then none
    else
      match strictParticipants with
      | [] => none
      | anchor :: remaining =>
        let team := fillStrict targetSize remaining.length [anchor] remaining
        if team.length ≠ targetSize then none else some (createTeamObject team)

/-! ## Relaxed pipeline -/

/-- The test `Math.abs(p.preferredTeamSize - targetSize) <= 1`. -/
def withinOne (preferredTeamSize targetSize : Nat) : Bool :=
  decide (((preferredTeamSize : Int) - (targetSize : Int)).natAbs ≤ 1)

/-- Source: `findBestMatchRelaxed(currentTeam, candidates, targetSize)`. -/
def findBestMatchRelaxed (currentTeam candidates : List Participant) (targetSize : Nat) :
    Option Participant :=
  let candidatesWithFlexibleSize :=
    candidates.filter (fun c => withinOne c.preferredTeamSize targetSize)
  if candidatesWithFlexibleSize.length = 0 then none
  else
    let candidatesWithFlexibleAvailability :=
      filterByFlexibleAvailabilityMatch currentTeam candidatesWithFlexibleSize
    if candidatesWithFlexibleAvailability.length = 0 then
      selectBestCandidateRelaxed currentTeam candidatesWithFlexibleSize targetSize
    else selectBestCandidateRelaxed currentTeam candidatesWithFlexibleAvailability targetSize

/-- The fill loop of `createTeamWithRelaxedConstraints`. -/
def fillRelaxed (targetSize : Nat) : Nat → List Participant → List Participant → List Participant
  | 0, team, _ => team
  | fuel + 1, team, remaining =>
    if team.length < targetSize ∧ remaining.length > 0 then
      match findBestMatchRelaxed team remaining targetSize with
      | some nextMember =>
        let index := findIndex (fun p => p.id == nextMember.id) remaining
        fillRelaxed targetSize fuel (team ++ [nextMember]) (splice1 remaining index)
      | none => team
    else team

/-- Source: `createTeamWithRelaxedConstraints(participants, targetSize)`. -/
def createTeamWithRelaxedConstraints (participants : List Participant) (targetSize : Nat) :
    Option Team :=
  if participants.length < targetSize then none
  else
    let relaxedParticipants :=
      participants.filter (fun p => withinOne p.preferredTeamSize targetSize)
    if relaxedParticipants.length < targetSize then none
    else
      match relaxedParticipants with
      | [] => none
      | anchor :: remaining =>
        let team := fillRelaxed targetSize remaining.length [anchor] remaining
        if team.length ≠ targetSize then none else some (createTeamObject team)

/-! ## Size buckets -/

/-- The `forEach` of `formTeamsBySize` that drains one member from the pool:
`findIndex` by id, and `splice` only when the index is not `-1`. -/
def removeMember (availableParticipants : List Participant) (member : Participant) :
    List Participant :=
  let index := findIndex (fun p => p.id == member.id) availableParticipants
  if index ≠ -1 then splice1 availableParticipants index else availableParticipants

/-- The loop `while (availableParticipants.length >= targetSize)` of `formTeamsBySize`. -/
def formTeamsLoop (targetSize : Nat) (relaxedMode : Bool) :
    Nat → List Team → List Participant → Formed
  | 0, teams, availableParticipants => ⟨teams, availableParticipants⟩
  | fuel + 1, teams, availableParticipants =>
    if availableParticipants.length ≥ targetSize then
      let team :=
        if relaxedMode then createTeamWithRelaxedConstraints availableParticipants targetSize
        else createTeamWithStrictConstraints availableParticipants targetSize
      match team with
      | some team =>
        if team.members.length = targetSize then
          formTeamsLoop targetSize relaxedMode fuel (teams ++ [team])
            (team.members.foldl removeMember availableParticipants)
        else ⟨teams, availableParticipants⟩
      | none => ⟨teams, availableParticipants⟩
    else ⟨teams, availableParticipants⟩

/-- Source: `formTeamsBySize(participants, targetSize, relaxedMode)`. -/
def formTeamsBySize (participants : List Participant) (targetSize : Nat) (relaxedMode : Bool) :
    Formed :=
  formTeamsLoop targetSize relaxedMode (participants.length + 1) [] participants

/-! ## Overflow packer -/

/-- The comparator of the sort in `formAdditionalTeamsRelaxed`. -/
def overflowCompare (a b : Participant) : Option Int :=
  let expDiff := numSub (experienceValues b.experience) (experienceValues a.experience)
  if expDiff ≠ some 0 then expDiff
  else numSub (availOrder b.availability) (availOrder a.availability)

/-- The inner loop `while (remaining.length >= targetSize)` with its `splice(0, targetSize)`. -/
def packLoop (targetSize : Nat) : Nat → List Team → List Participant → Formed
  | 0, teams, remaining => ⟨teams, remaining⟩
  | fuel + 1, teams, remaining =>
    if remaining.length ≥ targetSize then
      let teamMembers := remaining.take targetSize
      let remaining := remaining.drop targetSize
      let teams :=
        if teamMembers.length = targetSize then teams ++ [createRelaxedTeamObject teamMembers]
        else teams
      packLoop targetSize fuel teams remaining
    else ⟨teams, remaining⟩

/-- The loop `for (const targetSize of possibleSizes)` with its `break`. -/
def packSizes : List Nat → List Team → List Participant → Formed
  | [], teams, remaining => ⟨teams, remaining⟩
  | targetSize :: rest, teams, remaining =>
    let packed := packLoop targetSize remaining.length teams remaining
    if packed.unmatched.length < 2 then packed
    else packSizes rest packed.teams packed.unmatched

/-- Source: `formAdditionalTeamsRelaxed(participants)`. -/
def formAdditionalTeamsRelaxed (participants : List Participant) : Formed :=
  let remaining := jsSort overflowCompare participants
  let possibleSizes := [4, 3, 2]
  packSizes possibleSizes [] remaining

/-! ## Cohorts and the entry point -/

/-- Source: `getExperienceScore(experience)`, a lookup of `experienceValues`. -/
def getExperienceScore (experience : String) : Option Int :=
  experienceValues experience

/-- The property key a participant object is converted to when it is used as one. -/
def objectKey (_p : Participant) : String := "[object Object]"

/-- The comparator of the sort in `formTeamsAntiBias`, which passes the participant
objects themselves to `getExperienceScore`. -/
def experienceCompare (a b : Participant) : Option Int :=
  numSub (getExperienceScore (objectKey b)) (getExperienceScore (objectKey a))

/-- Source: `formTeamsAntiBias(participants, relaxedMode)`. -/
def formTeamsAntiBias (participants : List Participant) (relaxedMode : Bool) : Formed :=
  if participants.length = 0 then ⟨[], []⟩
  else
    let availableParticipants := jsSort experienceCompare participants
    let size2Participants := availableParticipants.filter (fun p => p.preferredTeamSize == 2)
    let size3Participants := availableParticipants.filter (fun p => p.preferredTeamSize == 3)
    let size4Participants := availableParticipants.filter (fun p => p.preferredTeamSize == 4)
    let size2Teams := formTeamsBySize size2Participants 2 relaxedMode
    let size3Teams := formTeamsBySize size3Participants 3 relaxedMode
    let size4Teams := formTeamsBySize size4Participants 4 relaxedMode
    let allTeams := size2Teams.teams ++ size3Teams.teams ++ size4Teams.teams
    let remainingParticipants :=
      size2Teams.unmatched ++ size3Teams.unmatched ++ size4Teams.unmatched
    if relaxedMode && decide (remainingParticipants.length ≥ 2) then
      let additionalTeams := formAdditionalTeamsRelaxed remainingParticipants
      ⟨allTeams ++ additionalTeams.teams, additionalTeams.unmatched⟩
    else ⟨allTeams, remainingParticipants⟩

/-- The undergraduate filter of `matchParticipantsToTeams`. -/
def isUndergraduate (p : Participant) : Bool :=
  !includes p.currentYear "PG" && !includes p.currentYear "MBA"

/-- The postgraduate filter of `matchParticipantsToTeams`. -/
def isPostgraduate (p : Participant) : Bool :=
  includes p.currentYear "PG" || includes p.currentYear "MBA"

/-- Source: `calculateTeamSizeDistribution(teams)`; integer keys enumerate ascending. -/
def calculateTeamSizeDistribution (teams : List Team) : List (Nat × Nat) :=
  let sizes := teams.map (fun team => team.teamSize)
  (sizes.dedup.insertionSort (fun a b => a ≤ b)).map (fun size => (size, sizes.count size))

/-- Source: `calculateCaseTypeDistribution(teams)`; keys enumerate in insertion order. -/
def calculateCaseTypeDistribution (teams : List Team) : List (String × Nat) :=
  let all := teams.flatMap (fun team => team.commonCaseTypes)
  (jsSet all).map (fun caseType => (caseType, all.count caseType))

/-- Source: `matchParticipantsToTeams(participants, relaxedMode)`. -/
def matchParticipantsToTeams (participants : List Participant) (relaxedMode : Bool) :
    MatchingResult :=
  let ugParticipants := participants.filter isUndergraduate
  let pgParticipants := participants.filter isPostgraduate
  let ugTeams := formTeamsAntiBias ugParticipants relaxedMode
  let pgTeams := formTeamsAntiBias pgParticipants relaxedMode
  let allTeams := ugTeams.teams ++ pgTeams.teams
  let unmatched := ugTeams.unmatched ++ pgTeams.unmatched
  let statistics : Statistics :=
    { totalParticipants := participants.length
      teamsFormed := allTeams.length
      averageTeamSize :=
        if allTeams.length > 0 then
          ((allTeams.foldl (fun acc team => acc + team.teamSize) 0 : Nat) : ℚ) / allTeams.length
        else 0
      matchingEfficiency :=
        if participants.length > 0 then
          (((participants.length : ℚ) - unmatched.length) / participants.length) * 100
        else 0
      teamSizeDistribution := calculateTeamSizeDistribution allTeams
      caseTypeDistribution := calculateCaseTypeDistribution allTeams }
  { teams := allTeams, unmatched := unmatched, statistics := statistics }


/-! ## Statements of the specification kept for comparison, and sample inputs -/

/-- The case-topic stage as the specification words it: with a novel candidate the
winner is novel; with none, the winner passes the fallback filter (shares a topic,
or the team has fewer than 3 members) and the step fails when nobody passes it. -/
def CaseTopicStageAsStated (team candidates : List Participant) (targetSize : Nat) : Prop :=
  let union := team.flatMap (fun member => member.casePreferences)
  let novel := fun c : Participant => ∃ t ∈ c.casePreferences, t ∉ union
  let shares := fun c : Participant => ∃ t ∈ c.casePreferences, t ∈ union
  let fallback := fun c : Participant => shares c ∨ team.length < 3
  team ≠ [] →
    ((∃ c ∈ candidates, novel c) →
      ∀ w, findBestMatchWithStrictCandidates team candidates targetSize = some w →
        w ∈ candidates ∧ novel w) ∧
    ((¬ ∃ c ∈ candidates, novel c) →
      (∀ w, findBestMatchWithStrictCandidates team candidates targetSize = some w →
        w ∈ candidates ∧ fallback w) ∧
      ((∀ c ∈ candidates, ¬ fallback c) →
        findBestMatchWithStrictCandidates team candidates targetSize = none))

/-- An undergraduate participant without experience, skills or roles. -/
def sampleParticipant (id : String) (preferredTeamSize : Nat) (availability : String)
    (casePreferences : List String) : Participant :=
  { id := id, fullName := id, currentYear := "Second Year",
    preferredTeamSize := preferredTeamSize, experience := "None",
    availability := availability, casePreferences := casePreferences,
    coreStrengths := [], preferredRoles := [] }

/-- Three members who all list the one topic "Consulting". -/
def topicTeam : List Participant :=
  [sampleParticipant "m1" 4 "Fully Available (10–15 hrs/week)" ["Consulting"],
   sampleParticipant "m2" 4 "Fully Available (10–15 hrs/week)" ["Consulting"],
   sampleParticipant "m3" 4 "Fully Available (10–15 hrs/week)" ["Consulting"]]

/-- A candidate who lists no case-topic. -/
def topiclessCandidate : Participant :=
  sampleParticipant "c1" 4 "Fully Available (10–15 hrs/week)" []

/-- A candidate with two skills and two roles, none repeated. -/
def skilledCandidate : Participant :=
  { id := "c2", fullName := "c2", currentYear := "Second Year", preferredTeamSize := 4,
    experience := "Participated in 3+", availability := "Moderately Available (5–10 hrs/week)",
    casePreferences := ["Consulting", "Finance"],
    coreStrengths := ["Financial Modeling", "Storytelling"],
    preferredRoles := ["Team Lead", "Presenter"] }

/-- A fully available undergraduate who prefers teams of 4. -/
def sampleFull : Participant :=
  sampleParticipant "u1" 4 "Fully Available (10–15 hrs/week)" ["Consulting"]

/-- A moderately available undergraduate who prefers teams of 4. -/
def sampleModerate : Participant :=
  sampleParticipant "u2" 4 "Moderately Available (5–10 hrs/week)" ["Finance"]

/-- A pool of four undergraduates who prefer teams of 4, two postgraduates who prefer
pairs and one undergraduate who prefers a team of 3. -/
def samplePool : List Participant :=
  [sampleFull,
   sampleModerate,
   sampleParticipant "u3" 4 "Fully Available (10–15 hrs/week)" ["Marketing"],
   sampleParticipant "u4" 4 "Moderately Available (5–10 hrs/week)" ["Operations"],
   { sampleParticipant "p1" 2 "Fully Available (10–15 hrs/week)" ["Consulting"] with
     currentYear := "PG/MBA (1st Year)" },
   { sampleParticipant "p2" 2 "Lightly Available (1–4 hrs/week)" ["Finance"] with
     currentYear := "PG/MBA (2nd Year)" },
   sampleParticipant "u5" 3 "Lightly Available (1–4 hrs/week)" ["Consulting"]]

/-- The team of the four undergraduates of `samplePool` who prefer teams of 4. -/
def sampleStrictTeam : Team :=
  createTeamObject (samplePool.take 4)

/-- The relaxed three-participant scenario as the specification words it: exactly one
team, formed by the overflow packer (label "Relaxed constraints optimized"), either of
size 3 with nobody unmatched or of size 2 with one participant unmatched. -/
def OverflowScenarioAsStated (participants : List Participant) : Prop :=
  ∃ t, (matchParticipantsToTeams participants true).teams = [t] ∧
    t.workStyleCompatibility = "Relaxed constraints optimized" ∧
    ((t.members.length = 3 ∧ (matchParticipantsToTeams participants true).unmatched = []) ∨
      (t.members.length = 2 ∧
        (matchParticipantsToTeams participants true).unmatched.length = 1))

/-- Three undergraduates: two prefer pairs, one prefers a team of 3. -/
def sampleTrio : List Participant :=
  [sampleParticipant "t1" 2 "Fully Available (10–15 hrs/week)" ["Consulting"],
   sampleParticipant "t2" 3 "Fully Available (10–15 hrs/week)" ["Finance"],
   sampleParticipant "t3" 2 "Moderately Available (5–10 hrs/week)" ["Marketing"]]

/-- Four fully available undergraduates who prefer teams of 4, one topic each. -/
def sampleQuartet : List Participant :=
  [sampleParticipant "q1" 4 "Fully Available (10–15 hrs/week)" ["Consulting"],
   sampleParticipant "q2" 4 "Fully Available (10–15 hrs/week)" ["Finance"],
   sampleParticipant "q3" 4 "Fully Available (10–15 hrs/week)" ["Marketing"],
   sampleParticipant "q4" 4 "Fully Available (10–15 hrs/week)" ["Operations"]]

/-- A pool in which no size has enough takers: one undergraduate who prefers pairs,
two who prefer teams of 3, and one postgraduate who prefers pairs. -/
def sampleSparse : List Participant :=
  [sampleParticipant "s1" 2 "Fully Available (10–15 hrs/week)" ["Consulting"],
   sampleParticipant "s2" 3 "Fully Available (10–15 hrs/week)" ["Finance"],
   sampleParticipant "s3" 3 "Fully Available (10–15 hrs/week)" ["Marketing"],
   { sampleParticipant "s4" 2 "Fully Available (10–15 hrs/week)" ["Operations"] with
     currentYear := "PG/MBA (1st Year)" }]

/-- An undergraduate without experience who prefers pairs. -/
def sampleNovice : Participant :=
  sampleParticipant "n1" 2 "Fully Available (10–15 hrs/week)" ["Consulting"]

/-- An undergraduate finalist who prefers pairs. -/
def sampleFinalist : Participant :=
  { sampleParticipant "f1" 2 "Fully Available (10–15 hrs/week)" ["Finance"] with
    experience := "Finalist/Winner in at least one" }

/-- A cohort that lists the novice before the finalist. -/
def sampleExperiencePair : List Participant :=
  [sampleNovice, sampleFinalist]

/-- Five undergraduates who all prefer pairs, with every availability label, two
repeated topics and one of them without topics. -/
def sampleMixedBucket : List Participant :=
  [sampleParticipant "b1" 2 "Fully Available (10–15 hrs/week)" ["Consulting"],
   sampleParticipant "b2" 2 "Not available now, but interested later" ["Finance"],
   sampleParticipant "b3" 2 "Lightly Available (1–4 hrs/week)" ["Consulting"],
   sampleParticipant "b4" 2 "Moderately Available (5–10 hrs/week)" [],
   sampleParticipant "b5" 2 "Fully Available (10–15 hrs/week)" ["Finance"]]

/-! ## Library facts -/

theorem includesChars_iff (s sub : List Char) : includesChars s sub = true ↔ sub <:+: s := by
  induction s with
  | nil => cases sub <;> simp [includesChars]
  | cons c s ih =>
    simp only [includesChars, Bool.or_eq_true, ih, List.infix_cons_iff, List.isPrefixOf_iff_prefix]

theorem mem_jsSet (l : List String) (x : String) : x ∈ jsSet l ↔ x ∈ l := by
  induction l with
  | nil => simp [jsSet]
  | cons a l ih =>
    simp only [jsSet, List.mem_cons, List.mem_filter, ih, bne_iff_ne, ne_eq]
    by_cases h : x = a <;> simp [h]

theorem nodup_jsSet (l : List String) : (jsSet l).Nodup := by
  induction l with
  | nil => simp [jsSet]
  | cons a l ih =>
    simp only [jsSet, List.nodup_cons, List.mem_filter, bne_self_eq_false, and_false,
      not_false_eq_true, true_and, Bool.false_eq_true]
    exact ih.filter _

theorem jsSet_length_eq_zero (l : List String) : (jsSet l).length = 0 ↔ l = [] := by
  cases l <;> simp [jsSet]

/-- The overlap count of two sets, as the scorers compute it, is the size of the
intersection. -/
theorem overlap_eq_card (A B : List String) :
    ((jsSet A).filter (fun x => (jsSet B).contains x)).length =
      (B.toFinset ∩ A.toFinset).card := by
  rw [← List.toFinset_card_of_nodup ((nodup_jsSet A).filter _)]
  congr 1
  ext x
  simp only [List.mem_toFinset, List.mem_filter, mem_jsSet, Finset.mem_inter,
    List.elem_eq_mem, decide_eq_true_eq]
  tauto

theorem overlap_le_length (A B : List String) :
    ((jsSet A).filter (fun x => (jsSet B).contains x)).length ≤ B.length := by
  rw [overlap_eq_card]
  exact (Finset.card_le_card Finset.inter_subset_left).trans (List.toFinset_card_le B)

/-- For a list without repetition, its length less the overlap counts the entries
outside the other set. -/
theorem length_sub_overlap (A B : List String) (hB : B.Nodup) :
    (B.length : Int) - ((jsSet A).filter (fun x => (jsSet B).contains x)).length =
      (B.filter (fun x => decide (x ∉ A))).length := by
  have h1 : ((jsSet A).filter (fun x => (jsSet B).contains x)).length =
      (B.filter (fun x => decide (x ∈ A))).length := by
    rw [overlap_eq_card, ← List.toFinset_card_of_nodup (hB.filter _)]
    congr 1
    ext x
    simp only [Finset.mem_inter, List.mem_toFinset, List.mem_filter, decide_eq_true_eq]
  have h2 := List.length_eq_length_filter_add (l := B) (fun x => decide (x ∈ A))
  have h3 : (B.filter (fun x => !decide (x ∈ A))) = B.filter (fun x => decide (x ∉ A)) := by
    congr 1; funext x; simp
  rw [h3] at h2
  rw [h1]
  omega

/-! ## Scoring -/

theorem any_availability_iff (team : List Participant) (candidate : Participant) :
    (team.map (fun p => p.availability)).any (fun avail =>
      isAvailabilityCompatible (availabilityLevelOf avail) (getAvailabilityLevel candidate)) = true ↔
    ∃ m ∈ team, isAvailabilityCompatible (getAvailabilityLevel m)
      (getAvailabilityLevel candidate) = true := by
  simp [getAvailabilityLevel]

theorem contains_experience_iff (team : List Participant) (candidate : Participant) :
    (team.map (fun p => p.experience)).contains candidate.experience = true ↔
    ∃ m ∈ team, m.experience = candidate.experience := by
  simp

theorem avgTeamSizePreference_eq (team : List Participant) (h : team ≠ []) :
    avgTeamSizePreference team =
      some (((team.map (fun p => p.preferredTeamSize)).sum : Nat) / (team.length : ℚ)) := by
  have hl : team.length ≠ 0 := by simpa using h
  simp only [avgTeamSizePreference, List.length_map, hl, ↓reduceIte, List.sum_eq_foldl]

theorem calculateAntiBiasScore_nonneg (team : List Participant) (candidate : Participant)
    (targetSize : Nat) : 0 ≤ calculateAntiBiasScore team candidate targetSize := by
  have h1 := overlap_le_length (team.flatMap (fun p => p.coreStrengths)) candidate.coreStrengths
  have h2 := overlap_le_length (team.flatMap (fun p => p.preferredRoles)) candidate.preferredRoles
  simp only [calculateAntiBiasScore]
  split_ifs <;> omega

theorem calculateRelaxedScore_nonneg (team : List Participant) (candidate : Participant)
    (targetSize : Nat) : 0 ≤ calculateRelaxedScore team candidate targetSize := by
  have h1 := overlap_le_length (team.flatMap (fun p => p.coreStrengths)) candidate.coreStrengths
  have h2 := overlap_le_length (team.flatMap (fun p => p.preferredRoles)) candidate.preferredRoles
  have h3 : ∀ (base : Int) (o : Option ℚ), 0 ≤ base →
      0 ≤ (match o with
        | some avg => if |(candidate.preferredTeamSize : ℚ) - avg| ≤ 1 then base + 10 else base
        | none => base) := by
    intro base o hb
    cases o with
    | none => exact hb
    | some avg => simp only; split_ifs <;> omega
  simp only [calculateRelaxedScore]
  apply h3
  split_ifs <;> omega

/-! ## Selection -/

/-- The scan keeps the first candidate of maximal score, when scores are not negative. -/
theorem scanBest_spec (score : Participant → Int) (hscore : ∀ c, 0 ≤ score c)
    (candidates : List Participant) :
    (candidates = [] ∧ scanBest score candidates = (none, -1)) ∨
    ∃ best pre post, candidates = pre ++ best :: post ∧
      scanBest score candidates = (some best, score best) ∧
      (∀ c ∈ pre, score c < score best) ∧ (∀ c ∈ post, score c ≤ score best) := by
  induction candidates using List.reverseRecOn with
  | nil => exact Or.inl ⟨rfl, rfl⟩
  | append_singleton l c ih =>
    right
    have hstep : scanBest score (l ++ [c]) =
        if score c > (scanBest score l).2 then (some c, score c) else scanBest score l := by
      simp [scanBest, List.foldl_append]
    rw [hstep]
    rcases ih with ⟨hl, hs⟩ | ⟨best, pre, post, hl, hs, hpre, hpost⟩
    · subst hl
      refine ⟨c, [], [], rfl, ?_, by simp, by simp⟩
      rw [hs]
      have := hscore c
      simp only [gt_iff_lt, ite_eq_left_iff, not_lt]
      intro h; omega
    · rw [hs]
      by_cases hc : score c > score best
      · refine ⟨c, l, [], rfl, by simp [hc], ?_, by simp⟩
        intro x hx
        rw [hl, List.mem_append, List.mem_cons] at hx
        rcases hx with hx | rfl | hx
        · have := hpre x hx; omega
        · exact hc
        · have := hpost x hx; omega
      · refine ⟨best, pre, post ++ [c], by simp [hl], by simp [hc], hpre, ?_⟩
        intro x hx
        rw [List.mem_append, List.mem_singleton] at hx
        rcases hx with hx | rfl
        · exact hpost x hx
        · omega

/-- Both selectors, for any score that is never negative: no winner exactly on the
empty list, and a winner is the first candidate of maximal score. -/
theorem select_spec (score : Participant → Int) (hscore : ∀ c, 0 ≤ score c)
    (candidates : List Participant) :
    ((if candidates.length = 0 then none else (scanBest score candidates).1) = none ↔
        candidates = []) ∧
    (∀ best, (if candidates.length = 0 then none else (scanBest score candidates).1) =
        some best →
      ∃ pre post, candidates = pre ++ best :: post ∧
        (∀ c ∈ candidates, score c ≤ score best) ∧ (∀ c ∈ pre, score c < score best)) := by
  rcases scanBest_spec score hscore candidates with ⟨hl, _⟩ | ⟨b, pre, post, hl, hs, hpre, hpost⟩
  · subst hl; simp
  · have hne : candidates.length ≠ 0 := by rw [hl]; simp
    have hne2 : candidates ≠ [] := by rw [hl]; simp
    rw [if_neg hne, hs]
    refine ⟨by simp [hne2], ?_⟩
    intro best hbest
    simp only [Option.some.injEq] at hbest
    subst hbest
    refine ⟨pre, post, hl, ?_, hpre⟩
    intro c hc
    rw [hl, List.mem_append, List.mem_cons] at hc
    rcases hc with hc | rfl | hc
    · exact le_of_lt (hpre c hc)
    · exact le_refl _
    · exact hpost c hc

theorem selectBestCandidateAntiBias_eq_none (team candidates : List Participant) (T : Nat) :
    selectBestCandidateAntiBias team candidates T = none ↔ candidates = [] :=
  (select_spec (fun c => calculateAntiBiasScore team c T)
    (fun c => calculateAntiBiasScore_nonneg team c T) candidates).1

theorem selectBestCandidateAntiBias_mem (team candidates : List Participant) (T : Nat)
    (w : Participant) (h : selectBestCandidateAntiBias team candidates T = some w) :
    w ∈ candidates := by
  obtain ⟨pre, post, hl, _⟩ := (select_spec (fun c => calculateAntiBiasScore team c T)
    (fun c => calculateAntiBiasScore_nonneg team c T) candidates).2 w h
  rw [hl]; simp

theorem selectBestCandidateRelaxed_eq_none (team candidates : List Participant) (T : Nat) :
    selectBestCandidateRelaxed team candidates T = none ↔ candidates = [] :=
  (select_spec (fun c => calculateRelaxedScore team c T)
    (fun c => calculateRelaxedScore_nonneg team c T) candidates).1

theorem selectBestCandidateRelaxed_mem (team candidates : List Participant) (T : Nat)
    (w : Participant) (h : selectBestCandidateRelaxed team candidates T = some w) :
    w ∈ candidates := by
  obtain ⟨pre, post, hl, _⟩ := (select_spec (fun c => calculateRelaxedScore team c T)
    (fun c => calculateRelaxedScore_nonneg team c T) candidates).2 w h
  rw [hl]; simp

/-! ## Case-topic stage -/

/-- The novelty test of `filterByCaseTypeDiversity`, in terms of the members' topics. -/
theorem novel_iff (team : List Participant) (c : Participant) :
    (c.casePreferences.any
      (fun caseType => !(jsSet (team.flatMap (fun m => m.casePreferences))).contains caseType)) = true ↔
    ∃ t ∈ c.casePreferences, t ∉ team.flatMap (fun m => m.casePreferences) := by
  simp [mem_jsSet]

theorem filterByCaseTypeDiversity_eq (team candidates : List Participant) :
    filterByCaseTypeDiversity team candidates =
      if team.flatMap (fun m => m.casePreferences) ≠ [] ∧
          ∃ c ∈ candidates, ∃ t ∈ c.casePreferences, t ∉ team.flatMap (fun m => m.casePreferences)
      then candidates.filter (fun c => decide
          (∃ t ∈ c.casePreferences, t ∉ team.flatMap (fun m => m.casePreferences)))
      else candidates := by
  have hfilter : candidates.filter (fun candidate => candidate.casePreferences.any
        (fun caseType => !(jsSet (team.flatMap (fun m => m.casePreferences))).contains caseType)) =
      candidates.filter (fun c => decide
          (∃ t ∈ c.casePreferences, t ∉ team.flatMap (fun m => m.casePreferences))) := by
    apply List.filter_congr
    intro c _
    rw [Bool.eq_iff_iff, novel_iff]
    simp
  unfold filterByCaseTypeDiversity
  by_cases hteam : team.length = 0
  · have : team = [] := List.length_eq_zero.mp hteam
    subst this
    simp
  · rw [if_neg hteam]
    simp only [jsSet_length_eq_zero, hfilter]
    by_cases hu : team.flatMap (fun m => m.casePreferences) = []
    · simp [hu]
    · simp only [hu, ↓reduceIte, ne_eq, not_false_eq_true, true_and]
      by_cases hex : ∃ c ∈ candidates, ∃ t ∈ c.casePreferences,
          t ∉ team.flatMap (fun m => m.casePreferences)
      · rw [if_pos hex, if_pos]
        obtain ⟨c, hc, hn⟩ := hex
        exact List.length_pos_of_mem (List.mem_filter.mpr ⟨hc, by simpa using hn⟩)
      · rw [if_neg hex, if_neg]
        rw [gt_iff_lt, List.length_pos, ne_eq, not_not, List.filter_eq_nil_iff]
        intro c hc
        simp only [decide_eq_true_eq]
        exact fun h => hex ⟨c, hc, h⟩

theorem filterByCaseTypeDiversity_eq_nil (team candidates : List Participant) :
    filterByCaseTypeDiversity team candidates = [] ↔ candidates = [] := by
  rw [filterByCaseTypeDiversity_eq]
  split_ifs with h
  · obtain ⟨_, c, hc, hn⟩ := h
    constructor
    · intro hnil
      have : c ∈ candidates.filter (fun c => decide
          (∃ t ∈ c.casePreferences, t ∉ team.flatMap (fun m => m.casePreferences))) :=
        List.mem_filter.mpr ⟨hc, by simpa using hn⟩
      rw [hnil] at this
      exact absurd this (List.not_mem_nil _)
    · intro hnil; subst hnil; rfl
  · rfl

theorem filterByCaseTypeDiversity_sublist (team candidates : List Participant) :
    (filterByCaseTypeDiversity team candidates).Sublist candidates := by
  rw [filterByCaseTypeDiversity_eq]
  split_ifs
  · exact List.filter_sublist _
  · exact List.Sublist.refl _

/-- The relaxed case filter of `findBestMatchWithStrictCandidates` is reached only on
an empty candidate list: the stage is the selector over the diversity filter. -/
theorem findBestMatchWithStrictCandidates_eq (team candidates : List Participant)
    (targetSize : Nat) :
    findBestMatchWithStrictCandidates team candidates targetSize =
      selectBestCandidateAntiBias team (filterByCaseTypeDiversity team candidates) targetSize := by
  unfold findBestMatchWithStrictCandidates
  simp only
  split_ifs with h1 h2
  · rw [List.length_eq_zero] at h1
    rw [h1]
    simp [selectBestCandidateAntiBias]
  · rw [List.length_eq_zero, filterByCaseTypeDiversity_eq_nil] at h1
    subst h1
    simp [filterByCaseTypeDiversity, selectBestCandidateAntiBias,
      filterByCaseTypeRelaxed]
  · rfl

/-! ## Removal by id -/

theorem splice1_sublist (l : List Participant) (start : Int) : (splice1 l start).Sublist l := by
  unfold splice1
  split_ifs <;> exact List.eraseIdx_sublist _ _

theorem removeMember_sublist (l : List Participant) (m : Participant) :
    (removeMember l m).Sublist l := by
  unfold removeMember
  simp only
  split_ifs
  · exact splice1_sublist _ _
  · exact List.Sublist.refl _

theorem foldl_removeMember_sublist (members l : List Participant) :
    (members.foldl removeMember l).Sublist l := by
  induction members generalizing l with
  | nil => exact List.Sublist.refl _
  | cons m ms ih => exact (ih _).trans (removeMember_sublist l m)

theorem eraseIdx_findIdx_id (l : List Participant) (x : Participant)
    (hnd : (l.map (fun p => p.id)).Nodup) (hx : x ∈ l) :
    l.eraseIdx (l.findIdx (fun p => p.id == x.id)) = l.erase x := by
  induction l with
  | nil => exact absurd hx (List.not_mem_nil _)
  | cons a l ih =>
    rw [List.map_cons, List.nodup_cons] at hnd
    rw [List.findIdx_cons]
    by_cases ha : a.id = x.id
    · have hax : a = x := by
        rcases List.mem_cons.mp hx with h | h
        · exact h.symm
        · exact absurd (ha ▸ List.mem_map_of_mem (fun p => p.id) h) hnd.1
      subst hax
      simp
    · have hax : a ≠ x := fun h => ha (h ▸ rfl)
      have hxl : x ∈ l := by
        rcases List.mem_cons.mp hx with h | h
        · exact absurd h.symm hax
        · exact h
      have hb : (a.id == x.id) = false := by simpa using ha
      simp only [hb, cond_false, List.eraseIdx_cons_succ]
      rw [ih hnd.2 hxl, List.erase_cons]
      simp [hax]

theorem findIndex_of_mem (l : List Participant) (x : Participant) (hx : x ∈ l) :
    findIndex (fun p => p.id == x.id) l = (l.findIdx (fun p => p.id == x.id) : Int) := by
  unfold findIndex
  rw [if_pos]
  exact List.findIdx_lt_length_of_exists ⟨x, hx, by simp⟩

theorem splice1_findIndex_eq_erase (l : List Participant) (x : Participant)
    (hnd : (l.map (fun p => p.id)).Nodup) (hx : x ∈ l) :
    splice1 l (findIndex (fun p => p.id == x.id) l) = l.erase x := by
  rw [findIndex_of_mem l x hx]
  unfold splice1
  rw [if_neg (by omega), Int.toNat_ofNat]
  exact eraseIdx_findIdx_id l x hnd hx

theorem removeMember_eq_erase (l : List Participant) (x : Participant)
    (hnd : (l.map (fun p => p.id)).Nodup) (hx : x ∈ l) :
    removeMember l x = l.erase x := by
  unfold removeMember
  simp only
  rw [if_pos]
  · exact splice1_findIndex_eq_erase l x hnd hx
  · rw [findIndex_of_mem l x hx]; omega

/-- Draining the members of a team from a pool with distinct ids removes exactly them. -/
theorem foldl_removeMember_perm (members l : List Participant)
    (hnd : (l.map (fun p => p.id)).Nodup) (hsub : members.Subperm l) :
    (members ++ members.foldl removeMember l).Perm l := by
  induction members generalizing l with
  | nil => exact List.Perm.refl _
  | cons m ms ih =>
    have hm : m ∈ l := hsub.subset (List.mem_cons_self _ _)
    rw [List.foldl_cons, removeMember_eq_erase l m hnd hm]
    have hsub2 : ms.Subperm (l.erase m) := by
      have := hsub.erase m
      rwa [List.erase_cons_head] at this
    have hnd2 : ((l.erase m).map (fun p => p.id)).Nodup :=
      hnd.sublist ((List.erase_sublist m l).map _)
    have h1 := ih (l.erase m) hnd2 hsub2
    exact ((List.Perm.cons m h1).trans (List.perm_cons_erase hm).symm)

/-! ## Loop invariants -/

/-- Invariant rule for a fill loop (strict or relaxed alike, through the unfolding
equations `h0` and `hs`): a relation between the team and the remaining candidates
that every step keeps holds for the final team and some remainder. -/
theorem fill_invariant (targetSize : Nat)
    (find : List Participant → List Participant → Nat → Option Participant)
    (fill : Nat → List Participant → List Participant → List Participant)
    (h0 : ∀ team remaining, fill 0 team remaining = team)
    (hs : ∀ fuel team remaining, fill (fuel + 1) team remaining =
      if team.length < targetSize ∧ remaining.length > 0 then
        match find team remaining targetSize with
        | some nextMember =>
          fill fuel (team ++ [nextMember])
            (splice1 remaining (findIndex (fun p => p.id == nextMember.id) remaining))
        | none => team
      else team)
    (J : List Participant → List Participant → Prop)
    (hJ : ∀ team remaining x, J team remaining → find team remaining targetSize = some x →
      J (team ++ [x]) (splice1 remaining (findIndex (fun p => p.id == x.id) remaining))) :
    ∀ fuel team remaining, J team remaining → ∃ rest, J (fill fuel team remaining) rest := by
  intro fuel
  induction fuel with
  | zero => intro team remaining h; exact ⟨remaining, by rw [h0]; exact h⟩
  | succ fuel ih =>
    intro team remaining h
    rw [hs]
    split_ifs with hc
    · cases hf : find team remaining targetSize with
      | none => exact ⟨remaining, h⟩
      | some x => exact ih _ _ (hJ team remaining x h hf)
    · exact ⟨remaining, h⟩

theorem fillStrict_invariant (targetSize : Nat)
    (J : List Participant → List Participant → Prop)
    (hJ : ∀ team remaining x, J team remaining →
      findBestMatchStrict team remaining targetSize = some x →
      J (team ++ [x]) (splice1 remaining (findIndex (fun p => p.id == x.id) remaining)))
    (fuel : Nat) (team remaining : List Participant) (h : J team remaining) :
    ∃ rest, J (fillStrict targetSize fuel team remaining) rest :=
  fill_invariant targetSize findBestMatchStrict (fillStrict targetSize)
    (fun _ _ => rfl) (fun _ _ _ => rfl) J hJ fuel team remaining h

theorem fillRelaxed_invariant (targetSize : Nat)
    (J : List Participant → List Participant → Prop)
    (hJ : ∀ team remaining x, J team remaining →
      findBestMatchRelaxed team remaining targetSize = some x →
      J (team ++ [x]) (splice1 remaining (findIndex (fun p => p.id == x.id) remaining)))
    (fuel : Nat) (team remaining : List Participant) (h : J team remaining) :
    ∃ rest, J (fillRelaxed targetSize fuel team remaining) rest :=
  fill_invariant targetSize findBestMatchRelaxed (fillRelaxed targetSize)
    (fun _ _ => rfl) (fun _ _ _ => rfl) J hJ fuel team remaining h

theorem filterByStrictAvailabilityMatch_sublist (team candidates : List Participant) :
    (filterByStrictAvailabilityMatch team candidates).Sublist candidates := by
  unfold filterByStrictAvailabilityMatch
  split_ifs
  · exact List.Sublist.refl _
  · exact List.filter_sublist _

theorem filterByFlexibleAvailabilityMatch_sublist (team candidates : List Participant) :
    (filterByFlexibleAvailabilityMatch team candidates).Sublist candidates := by
  unfold filterByFlexibleAvailabilityMatch
  split_ifs
  · exact List.Sublist.refl _
  · exact List.filter_sublist _

/-- A strict winner passed the size filter and the ALL-availability filter. -/
theorem findBestMatchStrict_some (team candidates : List Participant) (targetSize : Nat)
    (x : Participant) (h : findBestMatchStrict team candidates targetSize = some x) :
    x ∈ filterByStrictAvailabilityMatch team
      (candidates.filter (fun c => c.preferredTeamSize == targetSize)) := by
  unfold findBestMatchStrict at h
  simp only at h
  split_ifs at h with h1 h2
  rw [findBestMatchWithStrictCandidates_eq] at h
  exact (filterByCaseTypeDiversity_sublist _ _).subset (selectBestCandidateAntiBias_mem _ _ _ _ h)

theorem findBestMatchStrict_mem (team candidates : List Participant) (targetSize : Nat)
    (x : Participant) (h : findBestMatchStrict team candidates targetSize = some x) :
    x ∈ candidates ∧ x.preferredTeamSize = targetSize := by
  have h1 := (filterByStrictAvailabilityMatch_sublist _ _).subset
    (findBestMatchStrict_some team candidates targetSize x h)
  rw [List.mem_filter] at h1
  exact ⟨h1.1, by simpa using h1.2⟩

theorem findBestMatchStrict_compatible (team candidates : List Participant) (targetSize : Nat)
    (x : Participant) (h : findBestMatchStrict team candidates targetSize = some x) :
    ∀ m ∈ team, isAvailabilityCompatible (getAvailabilityLevel m) (getAvailabilityLevel x) = true := by
  have h1 := findBestMatchStrict_some team candidates targetSize x h
  unfold filterByStrictAvailabilityMatch at h1
  split_ifs at h1 with h0
  · intro m hm
    rw [List.length_eq_zero.mp h0] at hm
    exact absurd hm (List.not_mem_nil _)
  · simp only [List.mem_filter, List.all_eq_true, List.mem_map, forall_exists_index, and_imp,
      forall_apply_eq_imp_iff₂] at h1
    exact h1.2

theorem findBestMatchRelaxed_mem (team candidates : List Participant) (targetSize : Nat)
    (x : Participant) (h : findBestMatchRelaxed team candidates targetSize = some x) :
    x ∈ candidates := by
  unfold findBestMatchRelaxed at h
  simp only at h
  split_ifs at h with h1 h2
  · exact (List.filter_sublist _).subset (selectBestCandidateRelaxed_mem _ _ _ _ h)
  · exact (List.filter_sublist _).subset ((filterByFlexibleAvailabilityMatch_sublist _ _).subset
      (selectBestCandidateRelaxed_mem _ _ _ _ h))

/-- What a successful strict build returns. -/
theorem createTeamWithStrictConstraints_some (participants : List Participant) (targetSize : Nat)
    (t : Team) (h : createTeamWithStrictConstraints participants targetSize = some t) :
    ∃ anchor remaining,
      participants.filter (fun p => p.preferredTeamSize == targetSize) = anchor :: remaining ∧
      t = createTeamObject (fillStrict targetSize remaining.length [anchor] remaining) ∧
      (fillStrict targetSize remaining.length [anchor] remaining).length = targetSize := by
  unfold createTeamWithStrictConstraints at h
  simp only at h
  split_ifs at h with h1 h2
  split at h
  · exact absurd h (by simp)
  · rename_i anchor remaining heq
    split_ifs at h with h3
    simp only [Option.some.injEq] at h
    exact ⟨anchor, remaining, heq, h.symm, not_not.mp h3⟩

/-- What a successful relaxed build returns. -/
theorem createTeamWithRelaxedConstraints_some (participants : List Participant) (targetSize : Nat)
    (t : Team) (h : createTeamWithRelaxedConstraints participants targetSize = some t) :
    ∃ anchor remaining,
      participants.filter (fun p => withinOne p.preferredTeamSize targetSize) =
        anchor :: remaining ∧
      t = createTeamObject (fillRelaxed targetSize remaining.length [anchor] remaining) ∧
      (fillRelaxed targetSize remaining.length [anchor] remaining).length = targetSize := by
  unfold createTeamWithRelaxedConstraints at h
  simp only at h
  split_ifs at h with h1 h2
  split at h
  · exact absurd h (by simp)
  · rename_i anchor remaining heq
    split_ifs at h with h3
    simp only [Option.some.injEq] at h
    exact ⟨anchor, remaining, heq, h.symm, not_not.mp h3⟩

/-- Invariant rule for the loop of `formTeamsBySize`. -/
theorem formTeamsLoop_invariant (targetSize : Nat) (relaxedMode : Bool)
    (J : List Team → List Participant → Prop)
    (hJ : ∀ teams available t, J teams available →
      (if relaxedMode then createTeamWithRelaxedConstraints available targetSize
        else createTeamWithStrictConstraints available targetSize) = some t →
      t.members.length = targetSize →
      J (teams ++ [t]) (t.members.foldl removeMember available)) :
    ∀ fuel teams available, J teams available →
      J (formTeamsLoop targetSize relaxedMode fuel teams available).teams
        (formTeamsLoop targetSize relaxedMode fuel teams available).unmatched := by
  intro fuel
  induction fuel with
  | zero => intro teams available h; exact h
  | succ fuel ih =>
    intro teams available h
    rw [formTeamsLoop]
    by_cases hc : available.length ≥ targetSize
    · rw [if_pos hc]
      simp only
      cases ht : (if relaxedMode = true then
          createTeamWithRelaxedConstraints available targetSize
        else createTeamWithStrictConstraints available targetSize) with
      | none => exact h
      | some t =>
        simp only
        by_cases hlen : t.members.length = targetSize
        · rw [if_pos hlen]
          exact ih _ _ (hJ teams available t h ht hlen)
        · rw [if_neg hlen]
          exact h
    · rw [if_neg hc]
      exact h

/-! ## Members of a built team -/

/-- With distinct ids, a step of a fill loop moves the winner from the remaining
candidates to the team. -/
theorem fill_step_perm (team remaining : List Participant) (x : Participant)
    (hnd : ((team ++ remaining).map (fun p => p.id)).Nodup) (hx : x ∈ remaining) :
    ((team ++ [x]) ++ splice1 remaining (findIndex (fun p => p.id == x.id) remaining)).Perm
      (team ++ remaining) := by
  have hnd2 : (remaining.map (fun p => p.id)).Nodup :=
    hnd.sublist ((List.sublist_append_right team remaining).map _)
  rw [splice1_findIndex_eq_erase remaining x hnd2 hx, List.append_assoc]
  exact List.Perm.append_left team (List.perm_cons_erase hx).symm

/-- Subperm rule shared by both fill loops: with distinct ids the final team is a
sub-multiset of the anchor and the eligible candidates. -/
theorem fill_subperm (targetSize : Nat)
    (find : List Participant → List Participant → Nat → Option Participant)
    (fill : Nat → List Participant → List Participant → List Participant)
    (h0 : ∀ team remaining, fill 0 team remaining = team)
    (hs : ∀ fuel team remaining, fill (fuel + 1) team remaining =
      if team.length < targetSize ∧ remaining.length > 0 then
        match find team remaining targetSize with
        | some nextMember =>
          fill fuel (team ++ [nextMember])
            (splice1 remaining (findIndex (fun p => p.id == nextMember.id) remaining))
        | none => team
      else team)
    (hmem : ∀ team remaining x, find team remaining targetSize = some x → x ∈ remaining)
    (fuel : Nat) (team remaining : List Participant)
    (hnd : ((team ++ remaining).map (fun p => p.id)).Nodup) :
    (fill fuel team remaining).Subperm (team ++ remaining) := by
  obtain ⟨rest, _, hperm⟩ := fill_invariant targetSize find fill h0 hs
    (fun t r => ((t ++ r).map (fun p => p.id)).Nodup ∧ (t ++ r).Perm (team ++ remaining))
    (fun t r x hJ hf => by
      have hp := fill_step_perm t r x hJ.1 (hmem t r x hf)
      exact ⟨(hp.map _).nodup_iff.mpr hJ.1, hp.trans hJ.2⟩)
    fuel team remaining ⟨hnd, List.Perm.refl _⟩
  exact (List.sublist_append_left _ rest).subperm.trans hperm.subperm

/-- Subset rule shared by both fill loops, for any ids. -/
theorem fill_subset (targetSize : Nat)
    (find : List Participant → List Participant → Nat → Option Participant)
    (fill : Nat → List Participant → List Participant → List Participant)
    (h0 : ∀ team remaining, fill 0 team remaining = team)
    (hs : ∀ fuel team remaining, fill (fuel + 1) team remaining =
      if team.length < targetSize ∧ remaining.length > 0 then
        match find team remaining targetSize with
        | some nextMember =>
          fill fuel (team ++ [nextMember])
            (splice1 remaining (findIndex (fun p => p.id == nextMember.id) remaining))
        | none => team
      else team)
    (hmem : ∀ team remaining x, find team remaining targetSize = some x → x ∈ remaining)
    (fuel : Nat) (team remaining : List Participant) :
    ∀ m ∈ fill fuel team remaining, m ∈ team ++ remaining := by
  obtain ⟨rest, h⟩ := fill_invariant targetSize find fill h0 hs
    (fun t r => ∀ m ∈ t ++ r, m ∈ team ++ remaining)
    (fun t r x hJ hf m hm => by
      rw [List.append_assoc, List.mem_append] at hm
      rcases hm with hm | hm
      · exact hJ m (List.mem_append_left _ hm)
      · rw [List.singleton_append, List.mem_cons] at hm
        rcases hm with hm | hm
        · exact hJ m (List.mem_append_right _ (hm ▸ hmem t r x hf))
        · exact hJ m (List.mem_append_right _ ((splice1_sublist _ _).subset hm)))
    fuel team remaining (fun m hm => hm)
  exact fun m hm => h m (List.mem_append_left _ hm)

theorem createTeamObject_members (members : List Participant) :
    (createTeamObject members).members = members := rfl

theorem createTeamObject_teamSize (members : List Participant) :
    (createTeamObject members).teamSize = members.length := rfl

theorem createRelaxedTeamObject_members (members : List Participant) :
    (createRelaxedTeamObject members).members = members := rfl

theorem createRelaxedTeamObject_teamSize (members : List Participant) :
    (createRelaxedTeamObject members).teamSize = members.length := rfl

/-- Either builder, on success, returns a team object of exactly `targetSize` members
drawn from the pool; with distinct ids the members are a sub-multiset of the pool. -/
theorem create_some (relaxedMode : Bool) (participants : List Participant) (targetSize : Nat)
    (t : Team)
    (h : (if relaxedMode = true then createTeamWithRelaxedConstraints participants targetSize
        else createTeamWithStrictConstraints participants targetSize) = some t) :
    t = createTeamObject t.members ∧ t.members.length = targetSize ∧
    (∀ m ∈ t.members, m ∈ participants) ∧
    ((participants.map (fun p => p.id)).Nodup → t.members.Subperm participants) := by
  cases relaxedMode with
  | false =>
    simp only [Bool.false_eq_true, ↓reduceIte] at h
    obtain ⟨anchor, remaining, hfilter, ht, hlen⟩ :=
      createTeamWithStrictConstraints_some participants targetSize t h
    subst ht
    refine ⟨rfl, hlen, ?_, ?_⟩
    · intro m hm
      have := fill_subset targetSize findBestMatchStrict (fillStrict targetSize)
        (fun _ _ => rfl) (fun _ _ _ => rfl)
        (fun t r x hf => (findBestMatchStrict_mem t r targetSize x hf).1)
        remaining.length [anchor] remaining m hm
      rw [List.singleton_append, ← hfilter] at this
      exact (List.filter_sublist _).subset this
    · intro hnd
      have hsub : (participants.filter (fun p => p.preferredTeamSize == targetSize)).Sublist
          participants := List.filter_sublist _
      have := fill_subperm targetSize findBestMatchStrict (fillStrict targetSize)
        (fun _ _ => rfl) (fun _ _ _ => rfl)
        (fun t r x hf => (findBestMatchStrict_mem t r targetSize x hf).1)
        remaining.length [anchor] remaining
        (by rw [List.singleton_append, ← hfilter]; exact hnd.sublist (hsub.map _))
      rw [List.singleton_append, ← hfilter] at this
      exact this.trans hsub.subperm
  | true =>
    simp only [↓reduceIte] at h
    obtain ⟨anchor, remaining, hfilter, ht, hlen⟩ :=
      createTeamWithRelaxedConstraints_some participants targetSize t h
    subst ht
    refine ⟨rfl, hlen, ?_, ?_⟩
    · intro m hm
      have := fill_subset targetSize findBestMatchRelaxed (fillRelaxed targetSize)
        (fun _ _ => rfl) (fun _ _ _ => rfl)
        (fun t r x hf => findBestMatchRelaxed_mem t r targetSize x hf)
        remaining.length [anchor] remaining m hm
      rw [List.singleton_append, ← hfilter] at this
      exact (List.filter_sublist _).subset this
    · intro hnd
      have hsub : (participants.filter (fun p => withinOne p.preferredTeamSize targetSize)).Sublist
          participants := List.filter_sublist _
      have := fill_subperm targetSize findBestMatchRelaxed (fillRelaxed targetSize)
        (fun _ _ => rfl) (fun _ _ _ => rfl)
        (fun t r x hf => findBestMatchRelaxed_mem t r targetSize x hf)
        remaining.length [anchor] remaining
        (by rw [List.singleton_append, ← hfilter]; exact hnd.sublist (hsub.map _))
      rw [List.singleton_append, ← hfilter] at this
      exact this.trans hsub.subperm

/-- A strict build returns members whose availability buckets accept one another. -/
theorem createTeamWithStrictConstraints_compatible (participants : List Participant)
    (targetSize : Nat) (t : Team)
    (h : createTeamWithStrictConstraints participants targetSize = some t) :
    ∀ a ∈ t.members, ∀ b ∈ t.members,
      isAvailabilityCompatible (getAvailabilityLevel a) (getAvailabilityLevel b) = true := by
  obtain ⟨anchor, remaining, _, ht, _⟩ :=
    createTeamWithStrictConstraints_some participants targetSize t h
  subst ht
  have hrefl : ∀ l, isAvailabilityCompatible l l = true := by intro l; cases l <;> rfl
  have hsymm : ∀ l1 l2, isAvailabilityCompatible l1 l2 = isAvailabilityCompatible l2 l1 := by
    intro l1 l2; cases l1 <;> cases l2 <;> rfl
  obtain ⟨_, hJ⟩ := fillStrict_invariant targetSize
    (fun team _ => ∀ a ∈ team, ∀ b ∈ team,
      isAvailabilityCompatible (getAvailabilityLevel a) (getAvailabilityLevel b) = true)
    (fun team r x hJ hf a ha b hb => by
      have hc := findBestMatchStrict_compatible team r targetSize x hf
      rw [List.mem_append, List.mem_singleton] at ha hb
      rcases ha with ha | ha <;> rcases hb with hb | hb
      · exact hJ a ha b hb
      · rw [hb]; exact hc a ha
      · rw [ha, hsymm]; exact hc b hb
      · rw [ha, hb]; exact hrefl _)
    remaining.length [anchor] remaining
    (fun a ha b hb => by
      rw [List.mem_singleton] at ha hb
      rw [ha, hb]; exact hrefl _)
  exact hJ

/-! ## Size buckets -/

/-- Every team of a bucket was returned by the builder of the mode on a sub-pool. -/
theorem formTeamsBySize_teams (participants : List Participant) (targetSize : Nat)
    (relaxedMode : Bool) (P : Team → Prop)
    (hP : ∀ available t, available.Sublist participants →
      (if relaxedMode = true then createTeamWithRelaxedConstraints available targetSize
        else createTeamWithStrictConstraints available targetSize) = some t → P t) :
    ∀ t ∈ (formTeamsBySize participants targetSize relaxedMode).teams, P t := by
  have h := formTeamsLoop_invariant targetSize relaxedMode
    (fun teams available => (∀ t ∈ teams, P t) ∧ available.Sublist participants)
    (fun teams available t hJ ht _ => by
      refine ⟨?_, (foldl_removeMember_sublist _ _).trans hJ.2⟩
      intro u hu
      rw [List.mem_append, List.mem_singleton] at hu
      rcases hu with hu | hu
      · exact hJ.1 u hu
      · rw [hu]; exact hP available t hJ.2 ht)
    (participants.length + 1) [] participants
    ⟨fun t ht => absurd ht (List.not_mem_nil _), List.Sublist.refl _⟩
  exact h.1

theorem formTeamsBySize_unmatched_sublist (participants : List Participant) (targetSize : Nat)
    (relaxedMode : Bool) :
    (formTeamsBySize participants targetSize relaxedMode).unmatched.Sublist participants :=
  formTeamsLoop_invariant targetSize relaxedMode
    (fun _ available => available.Sublist participants)
    (fun _ _ _ hJ _ _ => (foldl_removeMember_sublist _ _).trans hJ)
    (participants.length + 1) [] participants (List.Sublist.refl _)

/-- With distinct ids a bucket is split into its teams and its unmatched rest. -/
theorem formTeamsBySize_perm (participants : List Participant) (targetSize : Nat)
    (relaxedMode : Bool) (hnd : (participants.map (fun p => p.id)).Nodup) :
    ((formTeamsBySize participants targetSize relaxedMode).teams.flatMap (fun t => t.members) ++
      (formTeamsBySize participants targetSize relaxedMode).unmatched).Perm participants := by
  have h := formTeamsLoop_invariant targetSize relaxedMode
    (fun teams available => (available.map (fun p => p.id)).Nodup ∧
      (teams.flatMap (fun t => t.members) ++ available).Perm participants)
    (fun teams available t hJ ht _ => by
      have hsub := (create_some relaxedMode available targetSize t ht).2.2.2 hJ.1
      refine ⟨hJ.1.sublist ((foldl_removeMember_sublist _ _).map _), ?_⟩
      have hp := foldl_removeMember_perm t.members available hJ.1 hsub
      rw [List.flatMap_append, List.append_assoc]
      simp only [List.flatMap_cons, List.flatMap_nil, List.append_nil]
      exact (List.Perm.append_left _ hp).trans hJ.2)
    (participants.length + 1) [] participants ⟨hnd, List.Perm.refl _⟩
  exact h.2

/-! ## Overflow packer -/

theorem packLoop_concat (targetSize : Nat) :
    ∀ fuel teams remaining,
      (packLoop targetSize fuel teams remaining).teams.flatMap (fun t => t.members) ++
        (packLoop targetSize fuel teams remaining).unmatched =
      teams.flatMap (fun t => t.members) ++ remaining := by
  intro fuel
  induction fuel with
  | zero => intro teams remaining; rfl
  | succ fuel ih =>
    intro teams remaining
    rw [packLoop]
    by_cases hc : remaining.length ≥ targetSize
    · rw [if_pos hc]
      simp only
      rw [ih, List.length_take, if_pos (by omega)]
      rw [List.flatMap_append, List.append_assoc]
      simp only [List.flatMap_cons, List.flatMap_nil, List.append_nil,
        createRelaxedTeamObject_members, List.take_append_drop]
    · rw [if_neg hc]

theorem packLoop_teams (targetSize : Nat) (P : Team → Prop)
    (hP : ∀ members, members.length = targetSize → P (createRelaxedTeamObject members)) :
    ∀ fuel teams remaining, (∀ t ∈ teams, P t) →
      ∀ t ∈ (packLoop targetSize fuel teams remaining).teams, P t := by
  intro fuel
  induction fuel with
  | zero => intro teams remaining h; exact h
  | succ fuel ih =>
    intro teams remaining h
    rw [packLoop]
    by_cases hc : remaining.length ≥ targetSize
    · rw [if_pos hc]
      simp only
      apply ih
      split_ifs with hlen
      · intro t ht
        rw [List.mem_append, List.mem_singleton] at ht
        rcases ht with ht | ht
        · exact h t ht
        · rw [ht]; exact hP _ hlen
      · exact h
    · rw [if_neg hc]
      exact h

theorem packSizes_concat :
    ∀ sizes teams remaining,
      (packSizes sizes teams remaining).teams.flatMap (fun t => t.members) ++
        (packSizes sizes teams remaining).unmatched =
      teams.flatMap (fun t => t.members) ++ remaining := by
  intro sizes
  induction sizes with
  | nil => intro teams remaining; rfl
  | cons s rest ih =>
    intro teams remaining
    rw [packSizes]
    split_ifs
    · exact packLoop_concat s _ teams remaining
    · rw [ih]; exact packLoop_concat s _ teams remaining

theorem packSizes_teams (P : Team → Prop) :
    ∀ sizes, (∀ s ∈ sizes, ∀ members, members.length = s → P (createRelaxedTeamObject members)) →
      ∀ teams remaining, (∀ t ∈ teams, P t) →
        ∀ t ∈ (packSizes sizes teams remaining).teams, P t := by
  intro sizes
  induction sizes with
  | nil => intro _ teams remaining h; exact h
  | cons s rest ih =>
    intro hP teams remaining h
    rw [packSizes]
    have h1 := packLoop_teams s P (hP s (List.mem_cons_self _ _)) remaining.length teams remaining h
    split_ifs
    · exact h1
    · exact ih (fun s' hs' => hP s' (List.mem_cons_of_mem _ hs')) _ _ h1

theorem jsSort_perm (cmp : Participant → Participant → Option Int) (l : List Participant) :
    (jsSort cmp l).Perm l :=
  List.perm_insertionSort _ l

/-- The overflow packer returns its input, sorted, cut into teams and a rest. -/
theorem formAdditionalTeamsRelaxed_concat (participants : List Participant) :
    (formAdditionalTeamsRelaxed participants).teams.flatMap (fun t => t.members) ++
      (formAdditionalTeamsRelaxed participants).unmatched =
    jsSort overflowCompare participants := by
  unfold formAdditionalTeamsRelaxed
  simp only
  rw [packSizes_concat]
  rfl

theorem formAdditionalTeamsRelaxed_teams (participants : List Participant) :
    ∀ t ∈ (formAdditionalTeamsRelaxed participants).teams,
      ∃ members, t = createRelaxedTeamObject members ∧
        (members.length = 4 ∨ members.length = 3 ∨ members.length = 2) := by
  unfold formAdditionalTeamsRelaxed
  simp only
  apply packSizes_teams
  · intro s hs members hlen
    refine ⟨members, rfl, ?_⟩
    simp only [List.mem_cons, List.mem_singleton, List.not_mem_nil, or_false] at hs
    omega
  · intro t ht
    exact absurd ht (List.not_mem_nil _)

/-! ## Cohorts -/

/-- Where a team of a cohort comes from: a builder run of the mode on a sub-pool for
a size in 2, 3, 4, or (relaxed mode only) the overflow packer; its members are
participants of the cohort. -/
theorem formTeamsAntiBias_teams (participants : List Participant) (relaxedMode : Bool) :
    ∀ t ∈ (formTeamsAntiBias participants relaxedMode).teams,
      (∀ m ∈ t.members, m ∈ participants) ∧
      ((∃ targetSize available, (targetSize = 2 ∨ targetSize = 3 ∨ targetSize = 4) ∧
          (if relaxedMode = true then createTeamWithRelaxedConstraints available targetSize
            else createTeamWithStrictConstraints available targetSize) = some t) ∨
        (relaxedMode = true ∧ ∃ members, t = createRelaxedTeamObject members ∧
          (members.length = 4 ∨ members.length = 3 ∨ members.length = 2))) := by
  intro t ht
  unfold formTeamsAntiBias at ht
  split_ifs at ht with h0
  · exact absurd ht (List.not_mem_nil _)
  · have hbucket : ∀ T, (T = 2 ∨ T = 3 ∨ T = 4) →
        ∀ u ∈ (formTeamsBySize ((jsSort experienceCompare participants).filter
            (fun p => p.preferredTeamSize == T)) T relaxedMode).teams,
          (∀ m ∈ u.members, m ∈ participants) ∧
          ∃ targetSize available, (targetSize = 2 ∨ targetSize = 3 ∨ targetSize = 4) ∧
            (if relaxedMode = true then createTeamWithRelaxedConstraints available targetSize
              else createTeamWithStrictConstraints available targetSize) = some u := by
      intro T hT
      apply formTeamsBySize_teams
      intro available u hsub hu
      refine ⟨?_, T, available, hT, hu⟩
      intro m hm
      have h1 := (create_some relaxedMode available T u hu).2.2.1 m hm
      exact (jsSort_perm _ _).subset ((List.filter_sublist _).subset (hsub.subset h1))
    have hun : ∀ T, ∀ m ∈ (formTeamsBySize ((jsSort experienceCompare participants).filter
            (fun p => p.preferredTeamSize == T)) T relaxedMode).unmatched, m ∈ participants := by
      intro T m hm
      exact (jsSort_perm _ _).subset ((List.filter_sublist _).subset
        ((formTeamsBySize_unmatched_sublist _ _ _).subset hm))
    have hall : ∀ u ∈
        (formTeamsBySize ((jsSort experienceCompare participants).filter
            (fun p => p.preferredTeamSize == 2)) 2 relaxedMode).teams ++
        (formTeamsBySize ((jsSort experienceCompare participants).filter
            (fun p => p.preferredTeamSize == 3)) 3 relaxedMode).teams ++
        (formTeamsBySize ((jsSort experienceCompare participants).filter
            (fun p => p.preferredTeamSize == 4)) 4 relaxedMode).teams,
          (∀ m ∈ u.members, m ∈ participants) ∧
          ∃ targetSize available, (targetSize = 2 ∨ targetSize = 3 ∨ targetSize = 4) ∧
            (if relaxedMode = true then createTeamWithRelaxedConstraints available targetSize
              else createTeamWithStrictConstraints available targetSize) = some u := by
      intro u hu
      rw [List.mem_append, List.mem_append] at hu
      rcases hu with (hu | hu) | hu
      · exact hbucket 2 (Or.inl rfl) u hu
      · exact hbucket 3 (Or.inr (Or.inl rfl)) u hu
      · exact hbucket 4 (Or.inr (Or.inr rfl)) u hu
    simp only at ht
    split_ifs at ht with hr
    · simp only [Bool.and_eq_true, decide_eq_true_eq] at hr
      rw [List.mem_append] at ht
      rcases ht with ht | ht
      · exact ⟨(hall t ht).1, Or.inl (hall t ht).2⟩
      · refine ⟨?_, Or.inr ⟨hr.1, formAdditionalTeamsRelaxed_teams _ t ht⟩⟩
        intro m hm
        have h1 : m ∈ jsSort overflowCompare
            ((formTeamsBySize ((jsSort experienceCompare participants).filter
              (fun p => p.preferredTeamSize == 2)) 2 relaxedMode).unmatched ++
            (formTeamsBySize ((jsSort experienceCompare participants).filter
              (fun p => p.preferredTeamSize == 3)) 3 relaxedMode).unmatched ++
            (formTeamsBySize ((jsSort experienceCompare participants).filter
              (fun p => p.preferredTeamSize == 4)) 4 relaxedMode).unmatched) := by
          rw [← formAdditionalTeamsRelaxed_concat]
          exact List.mem_append_left _ (List.mem_flatMap.mpr ⟨t, ht, hm⟩)
        have h2 := (jsSort_perm _ _).subset h1
        rw [List.mem_append, List.mem_append] at h2
        rcases h2 with (h2 | h2) | h2
        · exact hun 2 m h2
        · exact hun 3 m h2
        · exact hun 4 m h2
    · exact ⟨(hall t ht).1, Or.inl (hall t ht).2⟩

/-- A list whose sizes are all 2, 3 or 4 is split by the three size filters. -/
theorem size_filters_perm (l : List Participant)
    (hsize : ∀ p ∈ l, p.preferredTeamSize = 2 ∨ p.preferredTeamSize = 3 ∨ p.preferredTeamSize = 4) :
    (l.filter (fun p => p.preferredTeamSize == 2) ++ l.filter (fun p => p.preferredTeamSize == 3) ++
      l.filter (fun p => p.preferredTeamSize == 4)).Perm l := by
  induction l with
  | nil => exact List.Perm.refl _
  | cons a l ih =>
    have ih2 := ih (fun p hp => hsize p (List.mem_cons_of_mem _ hp))
    rcases hsize a (List.mem_cons_self _ _) with h | h | h
    · simp only [List.filter_cons, h, beq_self_eq_true, ↓reduceIte, List.cons_append]
      simpa using ih2
    · simp only [List.filter_cons, h, beq_self_eq_true, ↓reduceIte]
      simp only [show ((3 : Nat) == 2) = false from rfl, show ((3 : Nat) == 4) = false from rfl,
        Bool.false_eq_true, ↓reduceIte]
      rw [List.append_assoc, List.cons_append]
      exact List.perm_middle.trans (List.Perm.cons a (by rw [← List.append_assoc]; exact ih2))
    · simp only [List.filter_cons, h, beq_self_eq_true, ↓reduceIte]
      simp only [show ((4 : Nat) == 2) = false from rfl, show ((4 : Nat) == 3) = false from rfl,
        Bool.false_eq_true, ↓reduceIte]
      exact List.perm_middle.trans (List.Perm.cons a ih2)

/-- Assembly step of `formTeamsAntiBias`: three split buckets, with or without the
overflow pass over their pooled rests, split the cohort. -/
theorem assemble_perm (B2 B3 B4 : Formed) (f2 f3 f4 ps : List Participant) (relaxedMode : Bool)
    (h2 : (B2.teams.flatMap (fun t => t.members) ++ B2.unmatched).Perm f2)
    (h3 : (B3.teams.flatMap (fun t => t.members) ++ B3.unmatched).Perm f3)
    (h4 : (B4.teams.flatMap (fun t => t.members) ++ B4.unmatched).Perm f4)
    (hps : (f2 ++ f3 ++ f4).Perm ps) :
    ((if (relaxedMode && decide ((B2.unmatched ++ B3.unmatched ++ B4.unmatched).length ≥ 2)) = true
        then (⟨B2.teams ++ B3.teams ++ B4.teams ++
            (formAdditionalTeamsRelaxed (B2.unmatched ++ B3.unmatched ++ B4.unmatched)).teams,
          (formAdditionalTeamsRelaxed (B2.unmatched ++ B3.unmatched ++ B4.unmatched)).unmatched⟩ :
            Formed)
        else ⟨B2.teams ++ B3.teams ++ B4.teams,
          B2.unmatched ++ B3.unmatched ++ B4.unmatched⟩).teams.flatMap (fun t => t.members) ++
      (if (relaxedMode && decide ((B2.unmatched ++ B3.unmatched ++ B4.unmatched).length ≥ 2)) = true
        then (⟨B2.teams ++ B3.teams ++ B4.teams ++
            (formAdditionalTeamsRelaxed (B2.unmatched ++ B3.unmatched ++ B4.unmatched)).teams,
          (formAdditionalTeamsRelaxed (B2.unmatched ++ B3.unmatched ++ B4.unmatched)).unmatched⟩ :
            Formed)
        else ⟨B2.teams ++ B3.teams ++ B4.teams,
          B2.unmatched ++ B3.unmatched ++ B4.unmatched⟩).unmatched).Perm ps := by
  have hadd : ((formAdditionalTeamsRelaxed
        (B2.unmatched ++ B3.unmatched ++ B4.unmatched)).teams.flatMap (fun t => t.members) ++
      (formAdditionalTeamsRelaxed (B2.unmatched ++ B3.unmatched ++ B4.unmatched)).unmatched).Perm
      (B2.unmatched ++ B3.unmatched ++ B4.unmatched) := by
    rw [formAdditionalTeamsRelaxed_concat]
    exact jsSort_perm _ _
  rw [← Multiset.coe_eq_coe] at h2 h3 h4 hps hadd ⊢
  split_ifs
  · simp only [List.flatMap_append, ← Multiset.coe_add] at h2 h3 h4 hps hadd ⊢
    rw [← hps, ← h2, ← h3, ← h4, add_assoc _ _ (Multiset.ofList
      (formAdditionalTeamsRelaxed (B2.unmatched ++ B3.unmatched ++ B4.unmatched)).unmatched), hadd]
    abel
  · simp only [List.flatMap_append, ← Multiset.coe_add] at h2 h3 h4 hps ⊢
    rw [← hps, ← h2, ← h3, ← h4]
    abel

/-- With distinct ids and sizes in 2, 3, 4, a cohort is split into its teams and its
unmatched participants. -/
theorem formTeamsAntiBias_perm (participants : List Participant) (relaxedMode : Bool)
    (hnd : (participants.map (fun p => p.id)).Nodup)
    (hsize : ∀ p ∈ participants,
      p.preferredTeamSize = 2 ∨ p.preferredTeamSize = 3 ∨ p.preferredTeamSize = 4) :
    ((formTeamsAntiBias participants relaxedMode).teams.flatMap (fun t => t.members) ++
      (formTeamsAntiBias participants relaxedMode).unmatched).Perm participants := by
  unfold formTeamsAntiBias
  split_ifs with h0
  · rw [List.length_eq_zero.mp h0]
    exact List.Perm.refl _
  · have hsorted := jsSort_perm experienceCompare participants
    have hnds : ((jsSort experienceCompare participants).map (fun p => p.id)).Nodup :=
      (hsorted.map _).nodup_iff.mpr hnd
    have hb : ∀ T, ((formTeamsBySize ((jsSort experienceCompare participants).filter
            (fun p => p.preferredTeamSize == T)) T relaxedMode).teams.flatMap (fun t => t.members) ++
          (formTeamsBySize ((jsSort experienceCompare participants).filter
            (fun p => p.preferredTeamSize == T)) T relaxedMode).unmatched).Perm
        ((jsSort experienceCompare participants).filter (fun p => p.preferredTeamSize == T)) :=
      fun T => formTeamsBySize_perm _ T relaxedMode
        (hnds.sublist ((List.filter_sublist _).map _))
    have hparts := size_filters_perm (jsSort experienceCompare participants)
      (fun p hp => hsize p (hsorted.subset hp))
    exact assemble_perm _ _ _ _ _ _ _ relaxedMode (hb 2) (hb 3) (hb 4) (hparts.trans hsorted)

/-! ## Fuel: no loop of the model stops for lack of it -/

theorem findIndex_range (f : Participant → Bool) (l : List Participant) :
    findIndex f l = -1 ∨ ∃ i : Nat, i < l.length ∧ findIndex f l = (i : Int) := by
  unfold findIndex
  split_ifs with h
  · exact Or.inr ⟨_, h, rfl⟩
  · exact Or.inl rfl

/-- The call `splice(findIndex(..), 1)` always removes one element of a non-empty array. -/
theorem splice1_findIndex_length (f : Participant → Bool) (l : List Participant) :
    (splice1 l (findIndex f l)).length = l.length - 1 := by
  rcases findIndex_range f l with h | ⟨i, hi, h⟩
  · rw [h]
    unfold splice1
    rw [if_pos (by omega), List.length_eraseIdx]
    split_ifs with h2
    · rfl
    · have : (-1 : Int).natAbs = 1 := rfl
      rw [this] at h2
      omega
  · rw [h]
    unfold splice1
    rw [if_neg (by omega), Int.toNat_ofNat, List.length_eraseIdx, if_pos hi]

/-- A fill loop returns the same team for every fuel that is at least the number of
remaining candidates: the fuel passed at the call sites is never exhausted. -/
theorem fill_fuel (targetSize : Nat)
    (find : List Participant → List Participant → Nat → Option Participant)
    (fill : Nat → List Participant → List Participant → List Participant)
    (h0 : ∀ team remaining, fill 0 team remaining = team)
    (hs : ∀ fuel team remaining, fill (fuel + 1) team remaining =
      if team.length < targetSize ∧ remaining.length > 0 then
        match find team remaining targetSize with
        | some nextMember =>
          fill fuel (team ++ [nextMember])
            (splice1 remaining (findIndex (fun p => p.id == nextMember.id) remaining))
        | none => team
      else team) :
    ∀ fuel1 fuel2 team remaining, remaining.length ≤ fuel1 → remaining.length ≤ fuel2 →
      fill fuel1 team remaining = fill fuel2 team remaining := by
  have hzero : ∀ fuel team remaining, remaining.length = 0 → fill fuel team remaining = team := by
    intro fuel team remaining hr
    cases fuel with
    | zero => exact h0 _ _
    | succ fuel => rw [hs, if_neg (by omega)]
  intro fuel1
  induction fuel1 with
  | zero =>
    intro fuel2 team remaining h1 _
    rw [hzero 0 team remaining (by omega), hzero fuel2 team remaining (by omega)]
  | succ fuel1 ih =>
    intro fuel2 team remaining h1 h2
    cases fuel2 with
    | zero => rw [hzero _ team remaining (by omega), hzero 0 team remaining (by omega)]
    | succ fuel2 =>
      rw [hs, hs]
      split_ifs with hc
      · cases hf : find team remaining targetSize with
        | none => rfl
        | some x =>
          simp only
          apply ih
          · rw [splice1_findIndex_length]; omega
          · rw [splice1_findIndex_length]; omega
      · rfl

theorem fillStrict_fuel (targetSize fuel : Nat) (team remaining : List Participant)
    (h : remaining.length ≤ fuel) :
    fillStrict targetSize fuel team remaining =
      fillStrict targetSize remaining.length team remaining :=
  fill_fuel targetSize findBestMatchStrict (fillStrict targetSize)
    (fun _ _ => rfl) (fun _ _ _ => rfl) fuel remaining.length team remaining h (le_refl _)

theorem fillRelaxed_fuel (targetSize fuel : Nat) (team remaining : List Participant)
    (h : remaining.length ≤ fuel) :
    fillRelaxed targetSize fuel team remaining =
      fillRelaxed targetSize remaining.length team remaining :=
  fill_fuel targetSize findBestMatchRelaxed (fillRelaxed targetSize)
    (fun _ _ => rfl) (fun _ _ _ => rfl) fuel remaining.length team remaining h (le_refl _)

theorem removeMember_length_le (l : List Participant) (m : Participant) :
    (removeMember l m).length ≤ l.length :=
  (removeMember_sublist l m).length_le

theorem removeMember_length_of_mem (l : List Participant) (m : Participant) (hm : m ∈ l) :
    (removeMember l m).length = l.length - 1 := by
  unfold removeMember
  simp only
  rw [if_pos]
  · exact splice1_findIndex_length _ _
  · rw [findIndex_of_mem l m hm]; omega

/-- A built team is not empty, so draining it shrinks the pool. -/
theorem create_some_shrinks (relaxedMode : Bool) (available : List Participant)
    (targetSize : Nat) (t : Team)
    (h : (if relaxedMode = true then createTeamWithRelaxedConstraints available targetSize
        else createTeamWithStrictConstraints available targetSize) = some t) :
    (t.members.foldl removeMember available).length < available.length := by
  have hmem := (create_some relaxedMode available targetSize t h).2.2.1
  have hne : t.members ≠ [] := by
    cases relaxedMode with
    | false =>
      simp only [Bool.false_eq_true, ↓reduceIte] at h
      obtain ⟨anchor, remaining, _, ht, _⟩ :=
        createTeamWithStrictConstraints_some available targetSize t h
      subst ht
      obtain ⟨_, hJ⟩ := fillStrict_invariant targetSize (fun team _ => team ≠ [])
        (fun team _ _ _ _ => by simp) remaining.length [anchor] remaining (by simp)
      exact hJ
    | true =>
      simp only [↓reduceIte] at h
      obtain ⟨anchor, remaining, _, ht, _⟩ :=
        createTeamWithRelaxedConstraints_some available targetSize t h
      subst ht
      obtain ⟨_, hJ⟩ := fillRelaxed_invariant targetSize (fun team _ => team ≠ [])
        (fun team _ _ _ _ => by simp) remaining.length [anchor] remaining (by simp)
      exact hJ
  cases hmembers : t.members with
  | nil => exact absurd hmembers hne
  | cons m ms =>
    have hm : m ∈ available := hmem m (by rw [hmembers]; exact List.mem_cons_self _ _)
    have hpos : 0 < available.length := List.length_pos_of_mem hm
    rw [List.foldl_cons]
    have h1 := (foldl_removeMember_sublist ms (removeMember available m)).length_le
    have h2 := removeMember_length_of_mem available m hm
    omega

/-- The loop of `formTeamsBySize` returns the same result for every fuel above the
size of the pool: the fuel `participants.length + 1` is never exhausted. -/
theorem formTeamsLoop_fuel (targetSize : Nat) (relaxedMode : Bool) :
    ∀ fuel1 fuel2 teams available, available.length < fuel1 → available.length < fuel2 →
      formTeamsLoop targetSize relaxedMode fuel1 teams available =
        formTeamsLoop targetSize relaxedMode fuel2 teams available := by
  intro fuel1
  induction fuel1 with
  | zero => intro fuel2 teams available h1 _; omega
  | succ fuel1 ih =>
    intro fuel2 teams available h1 h2
    cases fuel2 with
    | zero => omega
    | succ fuel2 =>
      rw [formTeamsLoop, formTeamsLoop]
      by_cases hc : available.length ≥ targetSize
      · rw [if_pos hc, if_pos hc]
        simp only
        cases ht : (if relaxedMode = true then
            createTeamWithRelaxedConstraints available targetSize
          else createTeamWithStrictConstraints available targetSize) with
        | none => rfl
        | some t =>
          simp only
          by_cases hlen : t.members.length = targetSize
          · rw [if_pos hlen, if_pos hlen]
            have := create_some_shrinks relaxedMode available targetSize t ht
            exact ih _ _ _ (by omega) (by omega)
          · rw [if_neg hlen, if_neg hlen]
      · rw [if_neg hc, if_neg hc]

/-- The inner loop of the overflow packer, for a positive size, returns the same
result for every fuel that is at least the number of remaining participants. -/
theorem packLoop_fuel (targetSize : Nat) (hT : 0 < targetSize) :
    ∀ fuel1 fuel2 teams remaining, remaining.length ≤ fuel1 → remaining.length ≤ fuel2 →
      packLoop targetSize fuel1 teams remaining = packLoop targetSize fuel2 teams remaining := by
  have hzero : ∀ fuel teams remaining, remaining.length = 0 →
      packLoop targetSize fuel teams remaining = ⟨teams, remaining⟩ := by
    intro fuel teams remaining hr
    cases fuel with
    | zero => rfl
    | succ fuel => rw [packLoop, if_neg (by omega)]
  intro fuel1
  induction fuel1 with
  | zero =>
    intro fuel2 teams remaining h1 _
    rw [hzero 0 teams remaining (by omega), hzero fuel2 teams remaining (by omega)]
  | succ fuel1 ih =>
    intro fuel2 teams remaining h1 h2
    cases fuel2 with
    | zero => rw [hzero _ teams remaining (by omega), hzero 0 teams remaining (by omega)]
    | succ fuel2 =>
      rw [packLoop, packLoop]
      by_cases hc : remaining.length ≥ targetSize
      · rw [if_pos hc, if_pos hc]
        simp only
        apply ih
        · rw [List.length_drop]; omega
        · rw [List.length_drop]; omega
      · rw [if_neg hc, if_neg hc]

/-! ## The entry point -/

theorem matchParticipantsToTeams_teams (participants : List Participant) (relaxedMode : Bool) :
    (matchParticipantsToTeams participants relaxedMode).teams =
      (formTeamsAntiBias (participants.filter isUndergraduate) relaxedMode).teams ++
      (formTeamsAntiBias (participants.filter isPostgraduate) relaxedMode).teams := rfl

theorem matchParticipantsToTeams_unmatched (participants : List Participant)
    (relaxedMode : Bool) :
    (matchParticipantsToTeams participants relaxedMode).unmatched =
      (formTeamsAntiBias (participants.filter isUndergraduate) relaxedMode).unmatched ++
      (formTeamsAntiBias (participants.filter isPostgraduate) relaxedMode).unmatched := rfl

theorem isPostgraduate_eq_not_isUndergraduate (p : Participant) :
    isPostgraduate p = !isUndergraduate p := by
  simp only [isPostgraduate, isUndergraduate]
  cases includes p.currentYear "PG" <;> cases includes p.currentYear "MBA" <;> rfl

theorem cohorts_perm (participants : List Participant) :
    (participants.filter isUndergraduate ++ participants.filter isPostgraduate).Perm
      participants := by
  have h : (participants.filter isPostgraduate) =
      participants.filter (fun p => !isUndergraduate p) := by
    congr 1; funext p; exact isPostgraduate_eq_not_isUndergraduate p
  rw [h]
  exact List.filter_append_perm _ _

/-- Every returned team belongs to one cohort and comes from a builder run or, in
relaxed mode, from the overflow packer. -/
theorem matchParticipantsToTeams_team_origin (participants : List Participant)
    (relaxedMode : Bool) :
    ∀ t ∈ (matchParticipantsToTeams participants relaxedMode).teams,
      ((∀ m ∈ t.members, isUndergraduate m = true) ∨ (∀ m ∈ t.members, isPostgraduate m = true)) ∧
      ((∃ targetSize available, (targetSize = 2 ∨ targetSize = 3 ∨ targetSize = 4) ∧
          (if relaxedMode = true then createTeamWithRelaxedConstraints available targetSize
            else createTeamWithStrictConstraints available targetSize) = some t) ∨
        (relaxedMode = true ∧ ∃ members, t = createRelaxedTeamObject members ∧
          (members.length = 4 ∨ members.length = 3 ∨ members.length = 2))) := by
  intro t ht
  rw [matchParticipantsToTeams_teams, List.mem_append] at ht
  rcases ht with ht | ht
  · have h := formTeamsAntiBias_teams _ relaxedMode t ht
    exact ⟨Or.inl (fun m hm => (List.mem_filter.mp (h.1 m hm)).2), h.2⟩
  · have h := formTeamsAntiBias_teams _ relaxedMode t ht
    exact ⟨Or.inr (fun m hm => (List.mem_filter.mp (h.1 m hm)).2), h.2⟩

/-- The code on three members who all list "Consulting" and one candidate who lists no
topic: the candidate is returned. -/
theorem findBestMatchWithStrictCandidates_topicless :
    findBestMatchWithStrictCandidates topicTeam [topiclessCandidate] 4 =
      some topiclessCandidate := by
  decide

/-! ## Claims -/

/-- C1. For a participant list with pairwise distinct ids whose preferred sizes are all
2, 3 or 4, in either mode, the members of all returned teams followed by the unmatched
list are a permutation of the input: nobody is duplicated or dropped. -/
theorem matchParticipantsToTeams_partition (participants : List Participant)
    (relaxedMode : Bool) (hid : (participants.map (fun p => p.id)).Nodup)
    (hsize : ∀ p ∈ participants,
      p.preferredTeamSize = 2 ∨ p.preferredTeamSize = 3 ∨ p.preferredTeamSize = 4) :
    ((matchParticipantsToTeams participants relaxedMode).teams.flatMap (fun t => t.members) ++
      (matchParticipantsToTeams participants relaxedMode).unmatched).Perm participants := by
  have hug := formTeamsAntiBias_perm (participants.filter isUndergraduate) relaxedMode
    (hid.sublist ((List.filter_sublist _).map _))
    (fun p hp => hsize p ((List.filter_sublist _).subset hp))
  have hpg := formTeamsAntiBias_perm (participants.filter isPostgraduate) relaxedMode
    (hid.sublist ((List.filter_sublist _).map _))
    (fun p hp => hsize p ((List.filter_sublist _).subset hp))
  have hsplit := cohorts_perm participants
  rw [matchParticipantsToTeams_teams, matchParticipantsToTeams_unmatched]
  rw [← Multiset.coe_eq_coe] at hug hpg hsplit ⊢
  simp only [List.flatMap_append, ← Multiset.coe_add] at hug hpg hsplit ⊢
  rw [← hsplit, ← hug, ← hpg]
  abel

/-- C1 at the sample pool, relaxed mode. -/
theorem matchParticipantsToTeams_partition_witness :
    (samplePool.map (fun p => p.id)).Nodup ∧
    (∀ p ∈ samplePool,
      p.preferredTeamSize = 2 ∨ p.preferredTeamSize = 3 ∨ p.preferredTeamSize = 4) ∧
    ((matchParticipantsToTeams samplePool true).teams.flatMap (fun t => t.members) ++
      (matchParticipantsToTeams samplePool true).unmatched).Perm samplePool :=
  ⟨by decide, by decide,
    matchParticipantsToTeams_partition samplePool true (by decide) (by decide)⟩

/-- C2. In either mode every returned team has `teamSize` equal to the length of its
member list, and that length is 2, 3 or 4; a team that `formTeamsBySize` forms for
target size `T` (strict or relaxed builder) has exactly `T` members. -/
theorem team_size_exact :
    (∀ (participants : List Participant) (relaxedMode : Bool),
      ∀ t ∈ (matchParticipantsToTeams participants relaxedMode).teams,
        t.teamSize = t.members.length ∧
        (t.members.length = 2 ∨ t.members.length = 3 ∨ t.members.length = 4)) ∧
    (∀ (pool : List Participant) (targetSize : Nat) (relaxedMode : Bool),
      ∀ t ∈ (formTeamsBySize pool targetSize relaxedMode).teams,
        t.members.length = targetSize ∧ t.teamSize = targetSize) := by
  constructor
  · intro participants relaxedMode t ht
    rcases (matchParticipantsToTeams_team_origin participants relaxedMode t ht).2 with
      ⟨T, available, hT, hcreate⟩ | ⟨_, members, hm, hlen⟩
    · obtain ⟨hobj, hlen, _, _⟩ := create_some relaxedMode available T t hcreate
      refine ⟨by rw [hobj]; rfl, ?_⟩
      rw [hlen]; exact hT
    · subst hm
      refine ⟨rfl, ?_⟩
      rw [createRelaxedTeamObject_members]
      omega
  · intro pool targetSize relaxedMode
    apply formTeamsBySize_teams
    intro available t _ hcreate
    obtain ⟨hobj, hlen, _, _⟩ := create_some relaxedMode available targetSize t hcreate
    refine ⟨hlen, ?_⟩
    rw [hobj, createTeamObject_teamSize]
    exact hlen

/-- C3. In either mode no returned team mixes cohorts: either every member's
`currentYear` contains "PG" or "MBA", or no member's `currentYear` contains either. -/
theorem cohort_isolation (participants : List Participant) (relaxedMode : Bool) :
    ∀ t ∈ (matchParticipantsToTeams participants relaxedMode).teams,
      (∀ m ∈ t.members,
        includes m.currentYear "PG" = true ∨ includes m.currentYear "MBA" = true) ∨
      (∀ m ∈ t.members,
        includes m.currentYear "PG" = false ∧ includes m.currentYear "MBA" = false) := by
  intro t ht
  rcases (matchParticipantsToTeams_team_origin participants relaxedMode t ht).1 with h | h
  · right
    intro m hm
    have := h m hm
    simpa [isUndergraduate] using this
  · left
    intro m hm
    have := h m hm
    simpa [isPostgraduate] using this

/-- C3 at the team of the sample pool in strict mode: its four members are all
undergraduates. -/
theorem cohort_isolation_witness :
    sampleStrictTeam ∈ (matchParticipantsToTeams samplePool false).teams ∧
    ((∀ m ∈ sampleStrictTeam.members,
        includes m.currentYear "PG" = true ∨ includes m.currentYear "MBA" = true) ∨
      (∀ m ∈ sampleStrictTeam.members,
        includes m.currentYear "PG" = false ∧ includes m.currentYear "MBA" = false)) :=
  ⟨List.mem_singleton.mpr rfl,
    cohort_isolation samplePool false sampleStrictTeam (List.mem_singleton.mpr rfl)⟩

/-- C4. The cohort split of `matchParticipantsToTeams` partitions the input: the two
lists the cohorts are formed from are order-preserving sub-sequences of the input,
disjoint, together a permutation of the input, and a participant is in the
postgraduate list exactly when its `currentYear` contains "PG" or "MBA", in the
undergraduate list exactly when it is not in the postgraduate list. -/
theorem cohort_split_partitions (participants : List Participant) (relaxedMode : Bool) :
    (matchParticipantsToTeams participants relaxedMode).teams =
        (formTeamsAntiBias (participants.filter isUndergraduate) relaxedMode).teams ++
        (formTeamsAntiBias (participants.filter isPostgraduate) relaxedMode).teams ∧
    (matchParticipantsToTeams participants relaxedMode).unmatched =
        (formTeamsAntiBias (participants.filter isUndergraduate) relaxedMode).unmatched ++
        (formTeamsAntiBias (participants.filter isPostgraduate) relaxedMode).unmatched ∧
    (participants.filter isUndergraduate).Sublist participants ∧
    (participants.filter isPostgraduate).Sublist participants ∧
    List.Disjoint (participants.filter isUndergraduate) (participants.filter isPostgraduate) ∧
    (participants.filter isUndergraduate ++ participants.filter isPostgraduate).Perm participants ∧
    (∀ p ∈ participants,
      (p ∈ participants.filter isPostgraduate ↔
        ("PG".toList <:+: p.currentYear.toList ∨ "MBA".toList <:+: p.currentYear.toList)) ∧
      (p ∈ participants.filter isUndergraduate ↔ p ∉ participants.filter isPostgraduate)) := by
  refine ⟨rfl, rfl, List.filter_sublist _, List.filter_sublist _, ?_, cohorts_perm _, ?_⟩
  · intro p hu hp
    rw [List.mem_filter] at hu hp
    rw [isPostgraduate_eq_not_isUndergraduate, hu.2] at hp
    exact absurd hp.2 (by simp)
  · intro p hp
    constructor
    · rw [List.mem_filter]
      simp only [hp, true_and, isPostgraduate, includes, Bool.or_eq_true, includesChars_iff]
    · simp only [List.mem_filter, hp, true_and, isPostgraduate_eq_not_isUndergraduate]
      cases isUndergraduate p <;> simp

/-- C5. In strict mode every two members of every returned team have availability
buckets that accept each other; in particular no team holds a member of bucket High
together with a member of bucket Low, so none holds a "Fully Available" member
together with a "Not available now, but interested later" member. -/
theorem strict_teams_availability_compatible (participants : List Participant) :
    ∀ t ∈ (matchParticipantsToTeams participants false).teams,
      ∀ a ∈ t.members, ∀ b ∈ t.members,
        isAvailabilityCompatible (getAvailabilityLevel a) (getAvailabilityLevel b) = true ∧
        isAvailabilityCompatible (getAvailabilityLevel b) (getAvailabilityLevel a) = true ∧
        ¬ (getAvailabilityLevel a = .High ∧ getAvailabilityLevel b = .Low) ∧
        ¬ (a.availability = "Fully Available (10–15 hrs/week)" ∧
            b.availability = "Not available now, but interested later") := by
  intro t ht a ha b hb
  rcases (matchParticipantsToTeams_team_origin participants false t ht).2 with
    ⟨T, available, _, hcreate⟩ | ⟨hmode, _⟩
  · simp only [Bool.false_eq_true, ↓reduceIte] at hcreate
    have hc := createTeamWithStrictConstraints_compatible available T t hcreate
    have hHL : ¬ (getAvailabilityLevel a = .High ∧ getAvailabilityLevel b = .Low) := by
      intro hHL
      have := hc a ha b hb
      rw [hHL.1, hHL.2] at this
      exact absurd this (by decide)
    refine ⟨hc a ha b hb, hc b hb a ha, hHL, ?_⟩
    intro hlabels
    apply hHL
    unfold getAvailabilityLevel
    rw [hlabels.1, hlabels.2]
    exact ⟨by decide, by decide⟩
  · exact absurd hmode (by decide)

/-- C5 at the team of the sample pool in strict mode, for its fully available first
member and its moderately available second member. -/
theorem strict_teams_availability_compatible_witness :
    sampleStrictTeam ∈ (matchParticipantsToTeams samplePool false).teams ∧
    sampleFull ∈ sampleStrictTeam.members ∧ sampleModerate ∈ sampleStrictTeam.members ∧
    isAvailabilityCompatible (getAvailabilityLevel sampleFull)
      (getAvailabilityLevel sampleModerate) = true ∧
    isAvailabilityCompatible (getAvailabilityLevel sampleModerate)
      (getAvailabilityLevel sampleFull) = true ∧
    ¬ (getAvailabilityLevel sampleFull = .High ∧ getAvailabilityLevel sampleModerate = .Low) ∧
    ¬ (sampleFull.availability = "Fully Available (10–15 hrs/week)" ∧
        sampleModerate.availability = "Not available now, but interested later") :=
  ⟨List.mem_singleton.mpr rfl, by decide, by decide,
    strict_teams_availability_compatible samplePool sampleStrictTeam
      (List.mem_singleton.mpr rfl) sampleFull (by decide) sampleModerate (by decide)⟩

/-- C6. The bucket relation `isAvailabilityCompatible` is reflexive and symmetric but
not transitive: High and Low do not accept each other, yet High accepts Medium and
Medium accepts Low. -/
theorem isAvailabilityCompatible_relation :
    (∀ level, isAvailabilityCompatible level level = true) ∧
    (∀ level1 level2,
      isAvailabilityCompatible level1 level2 = isAvailabilityCompatible level2 level1) ∧
    isAvailabilityCompatible .High .Low = false ∧
    isAvailabilityCompatible .Low .High = false ∧
    isAvailabilityCompatible .High .Medium = true ∧
    isAvailabilityCompatible .Medium .Low = true ∧
    ¬ (∀ level1 level2 level3, isAvailabilityCompatible level1 level2 = true →
        isAvailabilityCompatible level2 level3 = true →
        isAvailabilityCompatible level1 level3 = true) := by
  refine ⟨?_, ?_, rfl, rfl, rfl, rfl, ?_⟩
  · intro l; cases l <;> rfl
  · intro l1 l2; cases l1 <;> cases l2 <;> rfl
  · intro h
    exact absurd (h .High .Medium .Low rfl rfl) (by decide)

/-- C7. For every team and every candidate whose `coreStrengths` and `preferredRoles`
hold no repeated entry, `calculateAntiBiasScore` is 25 if no member has the
candidate's experience, plus 15 for each distinct topic of the candidate found among
the members' topics, plus 10 for each candidate skill no member has, plus 20 if some
member's bucket accepts the candidate's bucket, plus 8 for each candidate role no
member has. -/
theorem calculateAntiBiasScore_formula (team : List Participant) (candidate : Participant)
    (targetSize : Nat) (hskills : candidate.coreStrengths.Nodup)
    (hroles : candidate.preferredRoles.Nodup) :
    calculateAntiBiasScore team candidate targetSize =
      25 * (if ∃ m ∈ team, m.experience = candidate.experience then 0 else 1)
      + 15 * ((candidate.casePreferences.toFinset ∩
          (team.flatMap (fun p => p.casePreferences)).toFinset).card : Int)
      + 10 * ((candidate.coreStrengths.filter
          (fun skill => decide (skill ∉ team.flatMap (fun p => p.coreStrengths)))).length : Int)
      + 20 * (if ∃ m ∈ team, isAvailabilityCompatible (getAvailabilityLevel m)
          (getAvailabilityLevel candidate) = true then 1 else 0)
      + 8 * ((candidate.preferredRoles.filter
          (fun role => decide (role ∉ team.flatMap (fun p => p.preferredRoles)))).length : Int) := by
  simp only [calculateAntiBiasScore]
  rw [length_sub_overlap _ _ hskills, length_sub_overlap _ _ hroles, overlap_eq_card]
  simp only [Bool.not_eq_true', ← Bool.not_eq_true, contains_experience_iff, any_availability_iff]
  split_ifs <;> ring

/-- C7 at three members with one shared topic and a candidate with new experience,
two topics (one shared), two skills, two roles and an accepted bucket:
25 + 15 + 20 + 20 + 16 = 96. -/
theorem calculateAntiBiasScore_formula_witness :
    skilledCandidate.coreStrengths.Nodup ∧ skilledCandidate.preferredRoles.Nodup ∧
    calculateAntiBiasScore topicTeam skilledCandidate 4 = 96 :=
  ⟨by decide, by decide,
    (calculateAntiBiasScore_formula topicTeam skilledCandidate 4 (by decide) (by decide)).trans
      (by decide)⟩

/-- C8. For every non-empty team and every candidate whose `coreStrengths` and
`preferredRoles` hold no repeated entry, `calculateRelaxedScore` is 20 for experience
novelty, plus 12 per shared topic, plus 8 per candidate skill no member has, plus 15
if some member's bucket accepts the candidate's, plus 6 per candidate role no member
has, plus 10 if the candidate's preferred size is within 1 of the mean of the
members' preferred sizes. -/
theorem calculateRelaxedScore_formula (team : List Participant) (candidate : Participant)
    (targetSize : Nat) (hteam : team ≠ []) (hskills : candidate.coreStrengths.Nodup)
    (hroles : candidate.preferredRoles.Nodup) :
    calculateRelaxedScore team candidate targetSize =
      20 * (if ∃ m ∈ team, m.experience = candidate.experience then 0 else 1)
      + 12 * ((candidate.casePreferences.toFinset ∩
          (team.flatMap (fun p => p.casePreferences)).toFinset).card : Int)
      + 8 * ((candidate.coreStrengths.filter
          (fun skill => decide (skill ∉ team.flatMap (fun p => p.coreStrengths)))).length : Int)
      + 15 * (if ∃ m ∈ team, isAvailabilityCompatible (getAvailabilityLevel m)
          (getAvailabilityLevel candidate) = true then 1 else 0)
      + 6 * ((candidate.preferredRoles.filter
          (fun role => decide (role ∉ team.flatMap (fun p => p.preferredRoles)))).length : Int)
      + 10 * (if |(candidate.preferredTeamSize : ℚ) -
          ((team.map (fun p => p.preferredTeamSize)).sum : Nat) / (team.length : ℚ)| ≤ 1
          then 1 else 0) := by
  simp only [calculateRelaxedScore, avgTeamSizePreference_eq team hteam]
  rw [length_sub_overlap _ _ hskills, length_sub_overlap _ _ hroles, overlap_eq_card]
  simp only [Bool.not_eq_true', ← Bool.not_eq_true, contains_experience_iff, any_availability_iff]
  split_ifs <;> ring

/-- C8 at the same team and candidate: 20 + 12 + 16 + 15 + 12 + 10 = 85. -/
theorem calculateRelaxedScore_formula_witness :
    topicTeam ≠ [] ∧ skilledCandidate.coreStrengths.Nodup ∧
    skilledCandidate.preferredRoles.Nodup ∧
    calculateRelaxedScore topicTeam skilledCandidate 4 = 85 :=
  ⟨by decide, by decide, by decide,
    (calculateRelaxedScore_formula topicTeam skilledCandidate 4 (by decide) (by decide)
      (by decide)).trans (by decide!)⟩

/-- C9. Each selector returns no candidate exactly when the candidate list is empty,
and otherwise the first candidate in list order of maximal score: no candidate scores
strictly higher, and every earlier candidate scores strictly lower. -/
theorem selectBestCandidate_first_maximum (team candidates : List Participant)
    (targetSize : Nat) :
    (selectBestCandidateAntiBias team candidates targetSize = none ↔ candidates = []) ∧
    (∀ best, selectBestCandidateAntiBias team candidates targetSize = some best →
      ∃ pre post, candidates = pre ++ best :: post ∧
        (∀ c ∈ candidates, calculateAntiBiasScore team c targetSize ≤
          calculateAntiBiasScore team best targetSize) ∧
        (∀ c ∈ pre, calculateAntiBiasScore team c targetSize <
          calculateAntiBiasScore team best targetSize)) ∧
    (selectBestCandidateRelaxed team candidates targetSize = none ↔ candidates = []) ∧
    (∀ best, selectBestCandidateRelaxed team candidates targetSize = some best →
      ∃ pre post, candidates = pre ++ best :: post ∧
        (∀ c ∈ candidates, calculateRelaxedScore team c targetSize ≤
          calculateRelaxedScore team best targetSize) ∧
        (∀ c ∈ pre, calculateRelaxedScore team c targetSize <
          calculateRelaxedScore team best targetSize)) := by
  have h1 := select_spec (fun c => calculateAntiBiasScore team c targetSize)
    (fun c => calculateAntiBiasScore_nonneg team c targetSize) candidates
  have h2 := select_spec (fun c => calculateRelaxedScore team c targetSize)
    (fun c => calculateRelaxedScore_nonneg team c targetSize) candidates
  exact ⟨h1.1, h1.2, h2.1, h2.2⟩

/-- C10, as the code has it. In the case-topic stage of the strict pipeline: when the
members list at least one topic and some candidate has a topic that no member lists,
the winner is the selector's choice among exactly those candidates, and there is one;
in every other case (no member lists a topic, or no candidate has a new topic) the
winner is the selector's choice among all candidates, whatever the size of the team;
the stage returns no candidate only for an empty candidate list. -/
theorem findBestMatchWithStrictCandidates_stage (team candidates : List Participant)
    (targetSize : Nat) :
    ((team.flatMap (fun m => m.casePreferences) ≠ [] ∧
        ∃ c ∈ candidates, ∃ t ∈ c.casePreferences,
          t ∉ team.flatMap (fun m => m.casePreferences)) →
      findBestMatchWithStrictCandidates team candidates targetSize =
        selectBestCandidateAntiBias team
          (candidates.filter (fun c => decide
            (∃ t ∈ c.casePreferences, t ∉ team.flatMap (fun m => m.casePreferences))))
          targetSize ∧
      ∃ w, findBestMatchWithStrictCandidates team candidates targetSize = some w ∧
        w ∈ candidates ∧ ∃ t ∈ w.casePreferences, t ∉ team.flatMap (fun m => m.casePreferences)) ∧
    (¬ (team.flatMap (fun m => m.casePreferences) ≠ [] ∧
        ∃ c ∈ candidates, ∃ t ∈ c.casePreferences,
          t ∉ team.flatMap (fun m => m.casePreferences)) →
      findBestMatchWithStrictCandidates team candidates targetSize =
        selectBestCandidateAntiBias team candidates targetSize) ∧
    (findBestMatchWithStrictCandidates team candidates targetSize = none ↔ candidates = []) := by
  refine ⟨?_, ?_, ?_⟩
  · intro h
    have heq : findBestMatchWithStrictCandidates team candidates targetSize =
        selectBestCandidateAntiBias team
          (candidates.filter (fun c => decide
            (∃ t ∈ c.casePreferences, t ∉ team.flatMap (fun m => m.casePreferences))))
          targetSize := by
      rw [findBestMatchWithStrictCandidates_eq, filterByCaseTypeDiversity_eq, if_pos h]
    refine ⟨heq, ?_⟩
    rw [heq]
    cases hsel : selectBestCandidateAntiBias team
          (candidates.filter (fun c => decide
            (∃ t ∈ c.casePreferences, t ∉ team.flatMap (fun m => m.casePreferences))))
          targetSize with
    | none =>
      rw [selectBestCandidateAntiBias_eq_none, List.filter_eq_nil_iff] at hsel
      obtain ⟨_, c, hc, hn⟩ := h
      exact absurd (by simpa using hn) (hsel c hc)
    | some w =>
      refine ⟨w, rfl, ?_⟩
      have hw := List.mem_filter.mp (selectBestCandidateAntiBias_mem _ _ _ _ hsel)
      exact ⟨hw.1, by simpa using hw.2⟩
  · intro h
    rw [findBestMatchWithStrictCandidates_eq, filterByCaseTypeDiversity_eq, if_neg h]
  · rw [findBestMatchWithStrictCandidates_eq, selectBestCandidateAntiBias_eq_none,
      filterByCaseTypeDiversity_eq_nil]

/-- C10 as stated fails: with three members who all list "Consulting" and a single
candidate who lists no topic, no candidate has a new topic and none shares a topic,
so the stated stage would return no candidate, but the code returns the candidate. -/
theorem caseTopicStage_counterexample :
    ¬ CaseTopicStageAsStated topicTeam [topiclessCandidate] 4 := by
  intro h
  have h2 := (h (by decide)).2 (by decide)
  have h3 := h2.2 (by decide)
  exact absurd h3 (by decide)

/-! ## Team objects -/

/-- Every member of a strict build prefers the target size. -/
theorem createTeamWithStrictConstraints_sizes (participants : List Participant)
    (targetSize : Nat) (t : Team)
    (h : createTeamWithStrictConstraints participants targetSize = some t) :
    ∀ m ∈ t.members, m.preferredTeamSize = targetSize := by
  obtain ⟨anchor, remaining, hfilter, ht, _⟩ :=
    createTeamWithStrictConstraints_some participants targetSize t h
  subst ht
  have hanchor : anchor.preferredTeamSize = targetSize := by
    have : anchor ∈ participants.filter (fun p => p.preferredTeamSize == targetSize) := by
      rw [hfilter]; exact List.mem_cons_self _ _
    simpa using (List.mem_filter.mp this).2
  obtain ⟨_, hJ⟩ := fillStrict_invariant targetSize
    (fun team _ => ∀ m ∈ team, m.preferredTeamSize = targetSize)
    (fun team r x hJ hf m hm => by
      rw [List.mem_append, List.mem_singleton] at hm
      rcases hm with hm | hm
      · exact hJ m hm
      · rw [hm]; exact (findBestMatchStrict_mem team r targetSize x hf).2)
    remaining.length [anchor] remaining
    (fun m hm => by rw [List.mem_singleton] at hm; rw [hm]; exact hanchor)
  exact hJ

theorem createTeamObject_preferredTeamSizeMatch (members : List Participant) :
    (createTeamObject members).preferredTeamSizeMatch =
      (((members.filter (fun m => m.preferredTeamSize == members.length)).length : ℚ) /
        members.length) * 100 := rfl

/-- C19. In strict mode every member of every returned team prefers exactly the team's
size, so the team's `preferredTeamSizeMatch`, the share of such members times 100,
is exactly 100. -/
theorem strict_teams_preferred_size (participants : List Participant) :
    ∀ t ∈ (matchParticipantsToTeams participants false).teams,
      (∀ m ∈ t.members, m.preferredTeamSize = t.teamSize) ∧
      t.preferredTeamSizeMatch =
        (((t.members.filter (fun m => m.preferredTeamSize == t.teamSize)).length : ℚ) /
          t.teamSize) * 100 ∧
      t.preferredTeamSizeMatch = 100 := by
  intro t ht
  rcases (matchParticipantsToTeams_team_origin participants false t ht).2 with
    ⟨T, available, hT, hcreate⟩ | ⟨hmode, _⟩
  · simp only [Bool.false_eq_true, ↓reduceIte] at hcreate
    have hsizes := createTeamWithStrictConstraints_sizes available T t hcreate
    obtain ⟨hobj, hlen, _, _⟩ := create_some false available T t
      (by simpa using hcreate)
    have hts : t.teamSize = T := by rw [hobj, createTeamObject_teamSize]; exact hlen
    have hall : t.members.filter (fun m => m.preferredTeamSize == t.members.length) =
        t.members := by
      rw [List.filter_eq_self]
      intro m hm
      rw [hlen]
      simpa using hsizes m hm
    have hmatch : t.preferredTeamSizeMatch =
        (((t.members.filter (fun m => m.preferredTeamSize == t.members.length)).length : ℚ) /
          t.members.length) * 100 := by
      rw [congrArg Team.preferredTeamSizeMatch hobj, createTeamObject_preferredTeamSizeMatch]
    refine ⟨fun m hm => by rw [hts]; exact hsizes m hm, ?_, ?_⟩
    · rw [hmatch, hts, hlen]
    · rw [hmatch, hall, hlen]
      have hT0 : (T : ℚ) ≠ 0 := by
        have : T ≠ 0 := by omega
        exact_mod_cast this
      field_simp
  · exact absurd hmode (by decide)

/-- C19 at the team of the sample pool in strict mode. -/
theorem strict_teams_preferred_size_witness :
    sampleStrictTeam ∈ (matchParticipantsToTeams samplePool false).teams ∧
    (∀ m ∈ sampleStrictTeam.members, m.preferredTeamSize = sampleStrictTeam.teamSize) ∧
    sampleStrictTeam.preferredTeamSizeMatch =
      (((sampleStrictTeam.members.filter
          (fun m => m.preferredTeamSize == sampleStrictTeam.teamSize)).length : ℚ) /
        sampleStrictTeam.teamSize) * 100 ∧
    sampleStrictTeam.preferredTeamSizeMatch = 100 :=
  ⟨List.mem_singleton.mpr rfl,
    strict_teams_preferred_size samplePool sampleStrictTeam (List.mem_singleton.mpr rfl)⟩

theorem pairs_length (members : List Participant) :
    (pairs members).length = members.length.choose 2 := by
  induction members with
  | nil => rfl
  | cons x xs ih =>
    rw [pairs, List.length_append, List.length_map, ih, List.length_cons,
      Nat.choose_succ_succ, Nat.choose_one_right]

theorem pairs_length_pos (members : List Participant) (h : 2 ≤ members.length) :
    0 < (pairs members).length := by
  rw [pairs_length]
  exact Nat.choose_pos h

theorem createTeamObject_compatibilityScore (members : List Participant)
    (h : 2 ≤ members.length) :
    (createTeamObject members).compatibilityScore =
      min 100 (max 0 ((((pairs members).map
        (fun ij => calculateAntiBiasScore [ij.1] ij.2 members.length)).sum : ℚ) /
          ((pairs members).length : ℚ))) := by
  have hpos := pairs_length_pos members h
  simp only [createTeamObject, gt_iff_lt, hpos, ↓reduceIte]

theorem createRelaxedTeamObject_compatibilityScore (members : List Participant)
    (h : 2 ≤ members.length) :
    (createRelaxedTeamObject members).compatibilityScore =
      min 100 (max 40 ((((pairs members).map
        (fun ij => calculateRelaxedScore [ij.1] ij.2 members.length)).sum : ℚ) /
          ((pairs members).length : ℚ))) := by
  have hpos := pairs_length_pos members h
  simp only [createRelaxedTeamObject, gt_iff_lt, hpos, ↓reduceIte]

/-- C13. In either mode every returned team has at least two members and a
`compatibilityScore` in [0, 100]; it is a `createTeamObject` team, or (relaxed mode
only) a `createRelaxedTeamObject` team with a score of at least 40.  For at least two
members, the score of `createTeamObject` is the mean over the member pairs `i < j` of
`calculateAntiBiasScore [member i] (member j)` clamped to [0, 100], and the score of
`createRelaxedTeamObject` is the mean pairwise `calculateRelaxedScore` clamped to
[40, 100]; a list of `n` members has `n` choose 2 pairs. -/
theorem compatibilityScore_bounds :
    (∀ (participants : List Participant) (relaxedMode : Bool),
      ∀ t ∈ (matchParticipantsToTeams participants relaxedMode).teams,
        0 ≤ t.compatibilityScore ∧ t.compatibilityScore ≤ 100 ∧ 2 ≤ t.members.length ∧
        (t = createTeamObject t.members ∨
          (relaxedMode = true ∧ t = createRelaxedTeamObject t.members ∧
            40 ≤ t.compatibilityScore))) ∧
    (∀ members : List Participant, 2 ≤ members.length →
      (createTeamObject members).compatibilityScore =
        min 100 (max 0 ((((pairs members).map
          (fun ij => calculateAntiBiasScore [ij.1] ij.2 members.length)).sum : ℚ) /
            ((pairs members).length : ℚ)))) ∧
    (∀ members : List Participant, 2 ≤ members.length →
      (createRelaxedTeamObject members).compatibilityScore =
        min 100 (max 40 ((((pairs members).map
          (fun ij => calculateRelaxedScore [ij.1] ij.2 members.length)).sum : ℚ) /
            ((pairs members).length : ℚ))) ∧
      40 ≤ (createRelaxedTeamObject members).compatibilityScore ∧
      (createRelaxedTeamObject members).compatibilityScore ≤ 100) ∧
    (∀ (x : Participant) (xs : List Participant),
      pairs (x :: xs) = xs.map (fun y => (x, y)) ++ pairs xs) ∧
    (∀ members : List Participant, (pairs members).length = members.length.choose 2) := by
  have hrel : ∀ members : List Participant, 2 ≤ members.length →
      40 ≤ (createRelaxedTeamObject members).compatibilityScore ∧
      (createRelaxedTeamObject members).compatibilityScore ≤ 100 := by
    intro members h
    rw [createRelaxedTeamObject_compatibilityScore members h]
    exact ⟨le_min (by norm_num) (le_max_left _ _), min_le_left _ _⟩
  refine ⟨?_, createTeamObject_compatibilityScore, ?_, fun _ _ => rfl, pairs_length⟩
  · intro participants relaxedMode t ht
    rcases (matchParticipantsToTeams_team_origin participants relaxedMode t ht).2 with
      ⟨T, available, hT, hcreate⟩ | ⟨hmode, members, hm, hlen⟩
    · obtain ⟨hobj, hlen, _, _⟩ := create_some relaxedMode available T t hcreate
      have h2 : 2 ≤ t.members.length := by omega
      have hs := createTeamObject_compatibilityScore t.members h2
      rw [← hobj] at hs
      refine ⟨?_, ?_, h2, Or.inl hobj⟩
      · rw [hs]; exact le_min (by norm_num) (le_max_left _ _)
      · rw [hs]; exact min_le_left _ _
    · subst hm
      rw [createRelaxedTeamObject_members]
      have h2 : 2 ≤ members.length := by omega
      have hb := hrel members h2
      exact ⟨le_trans (by norm_num) hb.1, hb.2, h2, Or.inr ⟨hmode, rfl, hb.1⟩⟩
  · intro members h
    exact ⟨createRelaxedTeamObject_compatibilityScore members h, hrel members h⟩

/-! ## Counting the unmatched -/

theorem size_filters_length_le (l : List Participant) :
    (l.filter (fun p => p.preferredTeamSize == 2)).length +
      (l.filter (fun p => p.preferredTeamSize == 3)).length +
      (l.filter (fun p => p.preferredTeamSize == 4)).length ≤ l.length := by
  induction l with
  | nil => simp
  | cons a l ih =>
    simp only [List.filter_cons, List.length_cons]
    by_cases h2 : a.preferredTeamSize = 2
    · simp [h2]; omega
    · by_cases h3 : a.preferredTeamSize = 3
      · simp [h3]; omega
      · by_cases h4 : a.preferredTeamSize = 4
        · simp [h4]; omega
        · simp [h2, h3, h4]; omega

theorem formAdditionalTeamsRelaxed_unmatched_length_le (participants : List Participant) :
    (formAdditionalTeamsRelaxed participants).unmatched.length ≤ participants.length := by
  have h := congrArg List.length (formAdditionalTeamsRelaxed_concat participants)
  rw [List.length_append, (jsSort_perm _ _).length_eq] at h
  omega

/-- The unmatched of a cohort are never more than the cohort. -/
theorem formTeamsAntiBias_unmatched_length_le (participants : List Participant)
    (relaxedMode : Bool) :
    (formTeamsAntiBias participants relaxedMode).unmatched.length ≤ participants.length := by
  unfold formTeamsAntiBias
  split_ifs with h0
  · simp
  · have hrem : ((formTeamsBySize ((jsSort experienceCompare participants).filter
          (fun p => p.preferredTeamSize == 2)) 2 relaxedMode).unmatched ++
        (formTeamsBySize ((jsSort experienceCompare participants).filter
          (fun p => p.preferredTeamSize == 3)) 3 relaxedMode).unmatched ++
        (formTeamsBySize ((jsSort experienceCompare participants).filter
          (fun p => p.preferredTeamSize == 4)) 4 relaxedMode).unmatched).length ≤
        participants.length := by
      have h2 := (formTeamsBySize_unmatched_sublist ((jsSort experienceCompare participants).filter
          (fun p => p.preferredTeamSize == 2)) 2 relaxedMode).length_le
      have h3 := (formTeamsBySize_unmatched_sublist ((jsSort experienceCompare participants).filter
          (fun p => p.preferredTeamSize == 3)) 3 relaxedMode).length_le
      have h4 := (formTeamsBySize_unmatched_sublist ((jsSort experienceCompare participants).filter
          (fun p => p.preferredTeamSize == 4)) 4 relaxedMode).length_le
      have hs := size_filters_length_le (jsSort experienceCompare participants)
      have hl := (jsSort_perm experienceCompare participants).length_eq
      simp only [List.length_append]
      omega
    simp only
    split_ifs with hr
    · exact (formAdditionalTeamsRelaxed_unmatched_length_le _).trans hrem
    · exact hrem

theorem matchParticipantsToTeams_unmatched_length_le (participants : List Participant)
    (relaxedMode : Bool) :
    (matchParticipantsToTeams participants relaxedMode).unmatched.length ≤
      participants.length := by
  rw [matchParticipantsToTeams_unmatched, List.length_append]
  have h1 := formTeamsAntiBias_unmatched_length_le (participants.filter isUndergraduate)
    relaxedMode
  have h2 := formTeamsAntiBias_unmatched_length_le (participants.filter isPostgraduate)
    relaxedMode
  have h3 := (cohorts_perm participants).length_eq
  rw [List.length_append] at h3
  omega

theorem foldl_teamSize_eq_sum (teams : List Team) :
    teams.foldl (fun acc team => acc + team.teamSize) 0 =
      (teams.map (fun team => team.teamSize)).sum := by
  rw [List.sum_eq_foldl, List.foldl_map]

theorem matchParticipantsToTeams_matchingEfficiency (participants : List Participant)
    (relaxedMode : Bool) :
    (matchParticipantsToTeams participants relaxedMode).statistics.matchingEfficiency =
      if participants.length > 0 then
        (((participants.length : ℚ) -
          (matchParticipantsToTeams participants relaxedMode).unmatched.length) /
            participants.length) * 100
      else 0 := rfl

theorem matchParticipantsToTeams_averageTeamSize (participants : List Participant)
    (relaxedMode : Bool) :
    (matchParticipantsToTeams participants relaxedMode).statistics.averageTeamSize =
      if (matchParticipantsToTeams participants relaxedMode).teams.length > 0 then
        (((matchParticipantsToTeams participants relaxedMode).teams.foldl
          (fun acc team => acc + team.teamSize) 0 : Nat) : ℚ) /
          (matchParticipantsToTeams participants relaxedMode).teams.length
      else 0 := rfl

/-- C14. The statistics of `matchParticipantsToTeams`, in either mode:
`matchingEfficiency` is 100 × (1 − unmatched / participants) for a non-empty input
and 0 for the empty one, and always lies in [0, 100]; `averageTeamSize` is the mean
`teamSize` of the returned teams, and 0 when there is none; the empty input gives no
team, nobody unmatched, and both statistics 0. -/
theorem statistics_formulas (participants : List Participant) (relaxedMode : Bool) :
    (participants ≠ [] →
      (matchParticipantsToTeams participants relaxedMode).statistics.matchingEfficiency =
        100 * (1 - ((matchParticipantsToTeams participants relaxedMode).unmatched.length : ℚ) /
          participants.length)) ∧
    (participants = [] →
      (matchParticipantsToTeams participants relaxedMode).statistics.matchingEfficiency = 0 ∧
      (matchParticipantsToTeams participants relaxedMode).statistics.averageTeamSize = 0 ∧
      (matchParticipantsToTeams participants relaxedMode).teams = [] ∧
      (matchParticipantsToTeams participants relaxedMode).unmatched = []) ∧
    ((matchParticipantsToTeams participants relaxedMode).teams ≠ [] →
      (matchParticipantsToTeams participants relaxedMode).statistics.averageTeamSize =
        ((((matchParticipantsToTeams participants relaxedMode).teams.map
          (fun team => team.teamSize)).sum : Nat) : ℚ) /
          (matchParticipantsToTeams participants relaxedMode).teams.length) ∧
    ((matchParticipantsToTeams participants relaxedMode).teams = [] →
      (matchParticipantsToTeams participants relaxedMode).statistics.averageTeamSize = 0) ∧
    0 ≤ (matchParticipantsToTeams participants relaxedMode).statistics.matchingEfficiency ∧
    (matchParticipantsToTeams participants relaxedMode).statistics.matchingEfficiency ≤ 100 ∧
    (matchParticipantsToTeams participants relaxedMode).statistics.totalParticipants =
      participants.length ∧
    (matchParticipantsToTeams participants relaxedMode).statistics.teamsFormed =
      (matchParticipantsToTeams participants relaxedMode).teams.length := by
  have hle := matchParticipantsToTeams_unmatched_length_le participants relaxedMode
  have hleq : ((matchParticipantsToTeams participants relaxedMode).unmatched.length : ℚ) ≤
      participants.length := by exact_mod_cast hle
  refine ⟨?_, ?_, ?_, ?_, ?_, ?_, rfl, rfl⟩
  · intro hne
    have hpos : participants.length > 0 := List.length_pos.mpr hne
    have hq : (participants.length : ℚ) ≠ 0 := by exact_mod_cast (Nat.pos_iff_ne_zero.mp hpos)
    rw [matchParticipantsToTeams_matchingEfficiency, if_pos hpos]
    field_simp
    ring
  · intro hnil
    subst hnil
    exact ⟨rfl, rfl, rfl, rfl⟩
  · intro hne
    rw [matchParticipantsToTeams_averageTeamSize, if_pos (List.length_pos.mpr hne),
      foldl_teamSize_eq_sum]
  · intro hnil
    rw [matchParticipantsToTeams_averageTeamSize, hnil]
    rfl
  · rw [matchParticipantsToTeams_matchingEfficiency]
    split_ifs with hpos
    · have hq : (0 : ℚ) < participants.length := by exact_mod_cast hpos
      apply mul_nonneg _ (by norm_num)
      apply div_nonneg _ hq.le
      linarith
    · exact le_refl _
  · rw [matchParticipantsToTeams_matchingEfficiency]
    split_ifs with hpos
    · have hq : (0 : ℚ) < participants.length := by exact_mod_cast hpos
      have hu : (0 : ℚ) ≤ (matchParticipantsToTeams participants relaxedMode).unmatched.length :=
        Nat.cast_nonneg _
      have : ((participants.length : ℚ) -
          (matchParticipantsToTeams participants relaxedMode).unmatched.length) /
            participants.length ≤ 1 := by
        rw [div_le_one hq]; linarith
      linarith
    · norm_num

/-! ## Common case topics -/

/-- When no member repeats a topic, the count of a topic in the flattened preferences
is the number of members who list it. -/
theorem count_casePreferences (members : List Participant) (topic : String)
    (hnodup : ∀ m ∈ members, m.casePreferences.Nodup) :
    (members.flatMap (fun m => m.casePreferences)).count topic =
      (members.filter (fun m => decide (topic ∈ m.casePreferences))).length := by
  induction members with
  | nil => rfl
  | cons a l ih =>
    have ih2 := ih (fun m hm => hnodup m (List.mem_cons_of_mem _ hm))
    have ha := hnodup a (List.mem_cons_self _ _)
    rw [List.flatMap_cons, List.count_append, ih2, List.filter_cons]
    by_cases h : topic ∈ a.casePreferences
    · rw [List.count_eq_one_of_mem ha h]
      simp [h]; omega
    · rw [List.count_eq_zero_of_not_mem h]
      simp [h]

theorem mem_commonCaseTypesAtLeast (k : Nat) (members : List Participant) (topic : String)
    (h : topic ∈ commonCaseTypesAtLeast k members) :
    topic ∈ members.flatMap (fun m => m.casePreferences) ∧
      k ≤ (members.flatMap (fun m => m.casePreferences)).count topic := by
  unfold commonCaseTypesAtLeast at h
  have h2 := List.mem_filter.mp ((List.take_sublist _ _).subset h)
  exact ⟨(mem_jsSet _ _).mp h2.1, by simpa using h2.2⟩

theorem commonCaseTypesAtLeast_length_le (k : Nat) (members : List Participant) :
    (commonCaseTypesAtLeast k members).length ≤ 3 := by
  unfold commonCaseTypesAtLeast
  simp only [List.length_take]
  exact Nat.min_le_left _ _

theorem commonCaseTypesAtLeast_nodup (k : Nat) (members : List Participant) :
    (commonCaseTypesAtLeast k members).Nodup := by
  unfold commonCaseTypesAtLeast
  exact ((nodup_jsSet _).filter _).sublist (List.take_sublist _ _)

theorem commonCaseTypesAtLeast_one_eq_nil (members : List Participant) :
    commonCaseTypesAtLeast 1 members = [] ↔ ∀ m ∈ members, m.casePreferences = [] := by
  unfold commonCaseTypesAtLeast
  simp only [List.take_eq_nil_iff, OfNat.ofNat_ne_zero, false_or, List.filter_eq_nil_iff,
    mem_jsSet, decide_eq_true_eq, not_le, Nat.lt_one_iff, List.count_eq_zero]
  constructor
  · intro h m hm
    rw [List.eq_nil_iff_forall_not_mem]
    intro topic ht
    have hmem : topic ∈ members.flatMap (fun m => m.casePreferences) :=
      List.mem_flatMap.mpr ⟨m, hm, ht⟩
    exact h topic hmem hmem
  · intro h topic hmem
    obtain ⟨m, hm, ht⟩ := List.mem_flatMap.mp hmem
    rw [h m hm] at ht
    exact absurd ht (List.not_mem_nil _)

/-- C20. For members none of whom repeats a topic in its own `casePreferences`: the
`commonCaseTypes` of `createTeamObject` are at most 3 distinct topics, each listed by
at least 2 members; the `commonCaseTypes` of `createRelaxedTeamObject` are between 1
and 3 distinct topics, each listed by at least 1 member, when some member lists a
topic, and exactly the fallback label "Consulting" when no member lists any. -/
theorem commonCaseTypes_bounds (members : List Participant)
    (hnodup : ∀ m ∈ members, m.casePreferences.Nodup) :
    (createTeamObject members).commonCaseTypes.length ≤ 3 ∧
    (createTeamObject members).commonCaseTypes.Nodup ∧
    (∀ topic ∈ (createTeamObject members).commonCaseTypes,
      2 ≤ (members.filter (fun m => decide (topic ∈ m.casePreferences))).length) ∧
    ((∃ m ∈ members, m.casePreferences ≠ []) →
      1 ≤ (createRelaxedTeamObject members).commonCaseTypes.length ∧
      (createRelaxedTeamObject members).commonCaseTypes.length ≤ 3 ∧
      (createRelaxedTeamObject members).commonCaseTypes.Nodup ∧
      ∀ topic ∈ (createRelaxedTeamObject members).commonCaseTypes,
        1 ≤ (members.filter (fun m => decide (topic ∈ m.casePreferences))).length) ∧
    ((∀ m ∈ members, m.casePreferences = []) →
      (createRelaxedTeamObject members).commonCaseTypes = ["Consulting"]) := by
  have hstrict : (createTeamObject members).commonCaseTypes =
      commonCaseTypesAtLeast 2 members := rfl
  have hrelaxed : (createRelaxedTeamObject members).commonCaseTypes =
      if (commonCaseTypesAtLeast 1 members).length > 0 then commonCaseTypesAtLeast 1 members
      else ["Consulting"] := rfl
  refine ⟨?_, ?_, ?_, ?_, ?_⟩
  · rw [hstrict]; exact commonCaseTypesAtLeast_length_le 2 members
  · rw [hstrict]; exact commonCaseTypesAtLeast_nodup 2 members
  · intro topic ht
    rw [hstrict] at ht
    rw [← count_casePreferences members topic hnodup]
    exact (mem_commonCaseTypesAtLeast 2 members topic ht).2
  · intro hex
    have hne : commonCaseTypesAtLeast 1 members ≠ [] := by
      intro hnil
      obtain ⟨m, hm, hmne⟩ := hex
      exact hmne ((commonCaseTypesAtLeast_one_eq_nil members).mp hnil m hm)
    have hpos : (commonCaseTypesAtLeast 1 members).length > 0 := List.length_pos.mpr hne
    rw [hrelaxed, if_pos hpos]
    refine ⟨hpos, commonCaseTypesAtLeast_length_le 1 members,
      commonCaseTypesAtLeast_nodup 1 members, ?_⟩
    intro topic ht
    rw [← count_casePreferences members topic hnodup]
    exact (mem_commonCaseTypesAtLeast 1 members topic ht).2
  · intro hall
    have hnil := (commonCaseTypesAtLeast_one_eq_nil members).mpr hall
    rw [hrelaxed, hnil]
    rfl

/-- C20 at the three members who all list "Consulting". -/
theorem commonCaseTypes_bounds_witness :
    (∀ m ∈ topicTeam, m.casePreferences.Nodup) ∧
    (createTeamObject topicTeam).commonCaseTypes = ["Consulting"] ∧
    (createTeamObject topicTeam).commonCaseTypes.length ≤ 3 ∧
    (∀ topic ∈ (createTeamObject topicTeam).commonCaseTypes,
      2 ≤ (topicTeam.filter (fun m => decide (topic ∈ m.casePreferences))).length) :=
  ⟨by decide, by decide,
    (commonCaseTypes_bounds topicTeam (by decide)).1,
    (commonCaseTypes_bounds topicTeam (by decide)).2.2.1⟩

/-! ## The cohort sort -/

theorem experienceCompare_eq_none (a b : Participant) : experienceCompare a b = none := by
  unfold experienceCompare objectKey getExperienceScore
  rfl

/-- The sort of `formTeamsAntiBias` leaves every list as it is: its comparator looks
the participant objects up in the table of experience labels, finds nothing, and
returns `NaN` for every pair. -/
theorem jsSort_experienceCompare (l : List Participant) : jsSort experienceCompare l = l := by
  unfold jsSort
  induction l with
  | nil => rfl
  | cons a l ih =>
    rw [List.insertionSort, ih]
    cases l with
    | nil => rfl
    | cons b l =>
      rw [List.orderedInsert, if_pos]
      unfold sortBefore
      rw [experienceCompare_eq_none]
      exact le_refl _

/-- A bucket with fewer participants than the target size forms no team. -/
theorem formTeamsBySize_of_short (participants : List Participant) (targetSize : Nat)
    (relaxedMode : Bool) (h : participants.length < targetSize) :
    formTeamsBySize participants targetSize relaxedMode = ⟨[], participants⟩ := by
  unfold formTeamsBySize
  rw [formTeamsLoop, if_neg (by omega)]

/-- The cohort former, with the sort removed. -/
theorem formTeamsAntiBias_eq (participants : List Participant) (relaxedMode : Bool) :
    formTeamsAntiBias participants relaxedMode =
      if participants.length = 0 then ⟨[], []⟩
      else
        if (relaxedMode && decide ((
            (formTeamsBySize (participants.filter (fun p => p.preferredTeamSize == 2)) 2
              relaxedMode).unmatched ++
            (formTeamsBySize (participants.filter (fun p => p.preferredTeamSize == 3)) 3
              relaxedMode).unmatched ++
            (formTeamsBySize (participants.filter (fun p => p.preferredTeamSize == 4)) 4
              relaxedMode).unmatched).length ≥ 2)) = true then
          ⟨(formTeamsBySize (participants.filter (fun p => p.preferredTeamSize == 2)) 2
              relaxedMode).teams ++
            (formTeamsBySize (participants.filter (fun p => p.preferredTeamSize == 3)) 3
              relaxedMode).teams ++
            (formTeamsBySize (participants.filter (fun p => p.preferredTeamSize == 4)) 4
              relaxedMode).teams ++
            (formAdditionalTeamsRelaxed (
              (formTeamsBySize (participants.filter (fun p => p.preferredTeamSize == 2)) 2
                relaxedMode).unmatched ++
              (formTeamsBySize (participants.filter (fun p => p.preferredTeamSize == 3)) 3
                relaxedMode).unmatched ++
              (formTeamsBySize (participants.filter (fun p => p.preferredTeamSize == 4)) 4
                relaxedMode).unmatched)).teams,
           (formAdditionalTeamsRelaxed (
              (formTeamsBySize (participants.filter (fun p => p.preferredTeamSize == 2)) 2
                relaxedMode).unmatched ++
              (formTeamsBySize (participants.filter (fun p => p.preferredTeamSize == 3)) 3
                relaxedMode).unmatched ++
              (formTeamsBySize (participants.filter (fun p => p.preferredTeamSize == 4)) 4
                relaxedMode).unmatched)).unmatched⟩
        else
          ⟨(formTeamsBySize (participants.filter (fun p => p.preferredTeamSize == 2)) 2
              relaxedMode).teams ++
            (formTeamsBySize (participants.filter (fun p => p.preferredTeamSize == 3)) 3
              relaxedMode).teams ++
            (formTeamsBySize (participants.filter (fun p => p.preferredTeamSize == 4)) 4
              relaxedMode).teams,
           (formTeamsBySize (participants.filter (fun p => p.preferredTeamSize == 2)) 2
              relaxedMode).unmatched ++
            (formTeamsBySize (participants.filter (fun p => p.preferredTeamSize == 3)) 3
              relaxedMode).unmatched ++
            (formTeamsBySize (participants.filter (fun p => p.preferredTeamSize == 4)) 4
              relaxedMode).unmatched⟩ := by
  unfold formTeamsAntiBias
  simp only [jsSort_experienceCompare]

/-- A cohort in strict mode whose buckets are all too small: no team, and the
unmatched are the three buckets in order. -/
theorem formTeamsAntiBias_strict_of_short (participants : List Participant)
    (h2 : (participants.filter (fun p => p.preferredTeamSize == 2)).length < 2)
    (h3 : (participants.filter (fun p => p.preferredTeamSize == 3)).length < 3)
    (h4 : (participants.filter (fun p => p.preferredTeamSize == 4)).length < 4) :
    formTeamsAntiBias participants false =
      ⟨[], participants.filter (fun p => p.preferredTeamSize == 2) ++
        participants.filter (fun p => p.preferredTeamSize == 3) ++
        participants.filter (fun p => p.preferredTeamSize == 4)⟩ := by
  rw [formTeamsAntiBias_eq]
  split_ifs with h0 hr
  · rw [List.length_eq_zero.mp h0]; rfl
  · simp at hr
  · rw [formTeamsBySize_of_short _ 2 false h2, formTeamsBySize_of_short _ 3 false h3,
      formTeamsBySize_of_short _ 4 false h4]
    rfl

/-- C16. In strict mode, for a non-empty input in which, in each cohort and for each
`T` of 2, 3, 4, fewer than `T` participants prefer size `T`: no team is formed, every
participant who prefers 2, 3 or 4 is unmatched, and when all preferred sizes are 2, 3
or 4 everybody is unmatched and `matchingEfficiency` is 0. -/
theorem strict_small_buckets_no_team (participants : List Participant)
    (hne : participants ≠ [])
    (hfew : ∀ T, (T = 2 ∨ T = 3 ∨ T = 4) →
      ((participants.filter isUndergraduate).filter
        (fun p => p.preferredTeamSize == T)).length < T ∧
      ((participants.filter isPostgraduate).filter
        (fun p => p.preferredTeamSize == T)).length < T) :
    (matchParticipantsToTeams participants false).teams = [] ∧
    (matchParticipantsToTeams participants false).statistics.teamsFormed = 0 ∧
    (∀ p ∈ participants,
      (p.preferredTeamSize = 2 ∨ p.preferredTeamSize = 3 ∨ p.preferredTeamSize = 4) →
      p ∈ (matchParticipantsToTeams participants false).unmatched) ∧
    ((∀ p ∈ participants,
        p.preferredTeamSize = 2 ∨ p.preferredTeamSize = 3 ∨ p.preferredTeamSize = 4) →
      (matchParticipantsToTeams participants false).unmatched.Perm participants ∧
      (matchParticipantsToTeams participants false).statistics.matchingEfficiency = 0) := by
  have hug := formTeamsAntiBias_strict_of_short (participants.filter isUndergraduate)
    (hfew 2 (Or.inl rfl)).1 (hfew 3 (Or.inr (Or.inl rfl))).1 (hfew 4 (Or.inr (Or.inr rfl))).1
  have hpg := formTeamsAntiBias_strict_of_short (participants.filter isPostgraduate)
    (hfew 2 (Or.inl rfl)).2 (hfew 3 (Or.inr (Or.inl rfl))).2 (hfew 4 (Or.inr (Or.inr rfl))).2
  have hteams : (matchParticipantsToTeams participants false).teams = [] := by
    rw [matchParticipantsToTeams_teams, hug, hpg]
    rfl
  have hun : (matchParticipantsToTeams participants false).unmatched =
      ((participants.filter isUndergraduate).filter (fun p => p.preferredTeamSize == 2) ++
        (participants.filter isUndergraduate).filter (fun p => p.preferredTeamSize == 3) ++
        (participants.filter isUndergraduate).filter (fun p => p.preferredTeamSize == 4)) ++
      ((participants.filter isPostgraduate).filter (fun p => p.preferredTeamSize == 2) ++
        (participants.filter isPostgraduate).filter (fun p => p.preferredTeamSize == 3) ++
        (participants.filter isPostgraduate).filter (fun p => p.preferredTeamSize == 4)) := by
    rw [matchParticipantsToTeams_unmatched, hug, hpg]
  refine ⟨hteams, ?_, ?_, ?_⟩
  · show (matchParticipantsToTeams participants false).teams.length = 0
    rw [hteams]; rfl
  · intro p hp hsize
    rw [hun]
    have hcohort : p ∈ participants.filter isUndergraduate ∨
        p ∈ participants.filter isPostgraduate := by
      have := (cohorts_perm participants).symm.subset hp
      exact List.mem_append.mp this
    simp only [List.mem_append, List.mem_filter, beq_iff_eq]
    rcases hcohort with hc | hc
    · rw [List.mem_filter] at hc
      rcases hsize with h | h | h
      · exact Or.inl (Or.inl (Or.inl ⟨hc, h⟩))
      · exact Or.inl (Or.inl (Or.inr ⟨hc, h⟩))
      · exact Or.inl (Or.inr ⟨hc, h⟩)
    · rw [List.mem_filter] at hc
      rcases hsize with h | h | h
      · exact Or.inr (Or.inl (Or.inl ⟨hc, h⟩))
      · exact Or.inr (Or.inl (Or.inr ⟨hc, h⟩))
      · exact Or.inr (Or.inr ⟨hc, h⟩)
  · intro hall
    have hperm : (matchParticipantsToTeams participants false).unmatched.Perm participants := by
      rw [hun]
      exact ((size_filters_perm _ (fun p hp => hall p ((List.filter_sublist _).subset hp))).append
        (size_filters_perm _ (fun p hp => hall p ((List.filter_sublist _).subset hp)))).trans
        (cohorts_perm participants)
    refine ⟨hperm, ?_⟩
    rw [matchParticipantsToTeams_matchingEfficiency, if_pos (List.length_pos.mpr hne),
      hperm.length_eq]
    simp

/-! ## The overflow sort and the shape of its chunks -/

theorem orderedInsert_congr (r s : Participant → Participant → Prop) [DecidableRel r]
    [DecidableRel s] (a : Participant) (l : List Participant)
    (h : ∀ b ∈ l, r a b ↔ s a b) : l.orderedInsert r a = l.orderedInsert s a := by
  induction l with
  | nil => rfl
  | cons b l ih =>
    have hb := h b (List.mem_cons_self _ _)
    have ih2 := ih (fun c hc => h c (List.mem_cons_of_mem _ hc))
    simp only [List.orderedInsert]
    by_cases hr : r a b
    · rw [if_pos hr, if_pos (hb.mp hr)]
    · rw [if_neg hr, if_neg (fun hs => hr (hb.mpr hs)), ih2]

/-- Insertion sort only looks at the relation between elements of the list. -/
theorem insertionSort_congr (r s : Participant → Participant → Prop) [DecidableRel r]
    [DecidableRel s] (l : List Participant)
    (h : ∀ a ∈ l, ∀ b ∈ l, r a b ↔ s a b) : l.insertionSort r = l.insertionSort s := by
  induction l with
  | nil => rfl
  | cons a l ih =>
    have ih2 := ih (fun x hx y hy => h x (List.mem_cons_of_mem _ hx) y (List.mem_cons_of_mem _ hy))
    simp only [List.insertionSort]
    rw [ih2]
    apply orderedInsert_congr
    intro b hb
    exact h a (List.mem_cons_self _ _) b
      (List.mem_cons_of_mem _ ((List.perm_insertionSort s l).subset hb))

theorem experienceValues_range (label : String) (v : Int)
    (h : experienceValues label = some v) : 0 ≤ v ∧ v ≤ 3 := by
  unfold experienceValues at h
  split_ifs at h <;> simp only [Option.some.injEq] at h <;> omega

theorem availOrder_range (label : String) (v : Int)
    (h : availOrder label = some v) : 0 ≤ v ∧ v ≤ 3 := by
  unfold availOrder at h
  split_ifs at h <;> simp only [Option.some.injEq] at h <;> omega

/-- On recognised labels the comparator of the overflow sort puts `a` before `b`
exactly when `a` has more experience, or the same and at least the availability. -/
theorem sortBefore_overflowCompare (a b : Participant) (ea eb va vb : Int)
    (hea : experienceValues a.experience = some ea)
    (heb : experienceValues b.experience = some eb)
    (hva : availOrder a.availability = some va)
    (hvb : availOrder b.availability = some vb) :
    sortBefore overflowCompare a b ↔ (eb < ea ∨ (ea = eb ∧ vb ≤ va)) := by
  unfold sortBefore overflowCompare
  simp only [hea, heb, hva, hvb, numSub]
  by_cases h : eb - ea = 0
  · simp only [h, ne_eq, not_true_eq_false, ↓reduceIte, Option.getD_some]
    constructor
    · intro h2; right; constructor <;> omega
    · intro h2; omega
  · have hne : (some (eb - ea) : Option Int) ≠ some 0 := by
      intro hc; exact h (Option.some.inj hc)
    simp only [ne_eq, hne, not_false_eq_true, ↓reduceIte, Option.getD_some]
    constructor
    · intro h2; left; omega
    · intro h2; omega

/-- On recognised labels the overflow sort returns a list in which experience never
increases and, at equal experience, the availability ordinal never increases. -/
theorem jsSort_overflowCompare_sorted (participants : List Participant)
    (hexp : ∀ p ∈ participants, experienceValues p.experience ≠ none)
    (hav : ∀ p ∈ participants, availOrder p.availability ≠ none) :
    (jsSort overflowCompare participants).Pairwise (fun a b =>
      ∃ ea eb va vb, experienceValues a.experience = some ea ∧
        experienceValues b.experience = some eb ∧
        availOrder a.availability = some va ∧ availOrder b.availability = some vb ∧
        (eb < ea ∨ (ea = eb ∧ vb ≤ va))) := by
  have hvals : ∀ p ∈ participants, ∃ e v, experienceValues p.experience = some e ∧
      availOrder p.availability = some v := by
    intro p hp
    obtain ⟨e, he⟩ := Option.ne_none_iff_exists'.mp (hexp p hp)
    obtain ⟨v, hv⟩ := Option.ne_none_iff_exists'.mp (hav p hp)
    exact ⟨e, v, he, hv⟩
  let rank : Participant → Int := fun p =>
    4 * (experienceValues p.experience).getD 0 + (availOrder p.availability).getD 0
  have hiff : ∀ a ∈ participants, ∀ b ∈ participants,
      sortBefore overflowCompare a b ↔ rank b ≤ rank a := by
    intro a ha b hb
    obtain ⟨ea, va, hea, hva⟩ := hvals a ha
    obtain ⟨eb, vb, heb, hvb⟩ := hvals b hb
    rw [sortBefore_overflowCompare a b ea eb va vb hea heb hva hvb]
    have ra := availOrder_range _ _ hva
    have rb := availOrder_range _ _ hvb
    show _ ↔ 4 * (experienceValues b.experience).getD 0 + (availOrder b.availability).getD 0 ≤
      4 * (experienceValues a.experience).getD 0 + (availOrder a.availability).getD 0
    rw [hea, heb, hva, hvb]
    simp only [Option.getD_some]
    constructor
    · intro h; omega
    · intro h; omega
  haveI : IsTotal Participant (fun a b => rank b ≤ rank a) := ⟨fun a b => le_total _ _⟩
  haveI : IsTrans Participant (fun a b => rank b ≤ rank a) :=
    ⟨fun a b c hab hbc => le_trans hbc hab⟩
  have hsorted : (jsSort overflowCompare participants).Pairwise (fun a b => rank b ≤ rank a) := by
    unfold jsSort
    rw [insertionSort_congr (sortBefore overflowCompare) (fun a b => rank b ≤ rank a)
      participants hiff]
    exact List.sorted_insertionSort _ participants
  refine hsorted.imp_of_mem ?_
  intro a b ha hb hr
  have ha2 := (jsSort_perm _ _).subset ha
  have hb2 := (jsSort_perm _ _).subset hb
  obtain ⟨ea, va, hea, hva⟩ := hvals a ha2
  obtain ⟨eb, vb, heb, hvb⟩ := hvals b hb2
  refine ⟨ea, eb, va, vb, hea, heb, hva, hvb, ?_⟩
  exact (sortBefore_overflowCompare a b ea eb va vb hea heb hva hvb).mp
    ((hiff a ha2 b hb2).mpr hr)

/-- The inner loop of the overflow packer appends `remaining.length / targetSize` teams
of `targetSize` members and leaves `remaining.length % targetSize` participants. -/
theorem packLoop_shape (targetSize : Nat) (hT : 0 < targetSize) :
    ∀ fuel teams remaining, remaining.length ≤ fuel →
      (packLoop targetSize fuel teams remaining).teams.map (fun t => t.members.length) =
        teams.map (fun t => t.members.length) ++
          List.replicate (remaining.length / targetSize) targetSize ∧
      (packLoop targetSize fuel teams remaining).unmatched.length =
        remaining.length % targetSize := by
  intro fuel
  induction fuel with
  | zero =>
    intro teams remaining h
    have h0 : remaining.length = 0 := by omega
    simp [packLoop, h0]
  | succ fuel ih =>
    intro teams remaining h
    rw [packLoop]
    by_cases hc : remaining.length ≥ targetSize
    · rw [if_pos hc]
      simp only
      have hlen : (remaining.take targetSize).length = targetSize := by
        rw [List.length_take]; omega
      rw [if_pos hlen]
      obtain ⟨h1, h2⟩ := ih (teams ++ [createRelaxedTeamObject (remaining.take targetSize)])
        (remaining.drop targetSize) (by rw [List.length_drop]; omega)
      rw [h1, h2, List.length_drop]
      have hdiv : remaining.length / targetSize =
          (remaining.length - targetSize) / targetSize + 1 := by
        rw [← Nat.sub_add_cancel hc, Nat.add_div_right _ hT]
        simp
      refine ⟨?_, ?_⟩
      · rw [hdiv, List.replicate_succ, List.map_append]
        simp [createRelaxedTeamObject_members, hlen]
      · conv_rhs => rw [← Nat.sub_add_cancel hc, Nat.add_mod_right]
    · rw [if_neg hc]
      have hlt : remaining.length < targetSize := by omega
      simp [Nat.div_eq_of_lt hlt, Nat.mod_eq_of_lt hlt]

/-- The overflow packer on `n` participants: `n / 4` teams of 4, then one team of 3 if
`n % 4 = 3` or one team of 2 if `n % 4 = 2`; one participant is left if `n % 4 = 1`,
none otherwise. -/
theorem formAdditionalTeamsRelaxed_shape (participants : List Participant) :
    (formAdditionalTeamsRelaxed participants).teams.map (fun t => t.members.length) =
      List.replicate (participants.length / 4) 4 ++
        (if participants.length % 4 = 3 then [3]
          else if participants.length % 4 = 2 then [2] else []) ∧
    (formAdditionalTeamsRelaxed participants).unmatched.length =
      if participants.length % 4 = 1 then 1 else 0 := by
  have hn : (jsSort overflowCompare participants).length = participants.length :=
    (jsSort_perm _ _).length_eq
  unfold formAdditionalTeamsRelaxed
  simp only
  generalize jsSort overflowCompare participants = sorted at hn
  rw [← hn]
  obtain ⟨a1, a2⟩ := packLoop_shape 4 (by norm_num) sorted.length [] sorted (le_refl _)
  simp only [List.map_nil, List.nil_append] at a1
  rw [packSizes]
  generalize packLoop 4 sorted.length [] sorted = P4 at a1 a2 ⊢
  by_cases hlt : P4.unmatched.length < 2
  · rw [if_pos hlt]
    rw [a2] at hlt
    refine ⟨?_, ?_⟩
    · rw [a1, if_neg (by omega), if_neg (by omega), List.append_nil]
    · rw [a2]; split_ifs <;> omega
  · rw [if_neg hlt]
    obtain ⟨b1, b2⟩ := packLoop_shape 3 (by norm_num) P4.unmatched.length P4.teams
      P4.unmatched (le_refl _)
    rw [packSizes]
    generalize packLoop 3 P4.unmatched.length P4.teams P4.unmatched = P3 at b1 b2 ⊢
    rw [a1, a2] at b1
    rw [a2] at b2 hlt
    by_cases h3 : sorted.length % 4 = 3
    · rw [if_pos (by rw [b2, h3]; norm_num)]
      refine ⟨?_, ?_⟩
      · rw [b1, h3, if_pos rfl]; rfl
      · rw [b2, h3]; rfl
    · have h2 : sorted.length % 4 = 2 := by omega
      rw [if_neg (by rw [b2, h2]; norm_num)]
      obtain ⟨c1, c2⟩ := packLoop_shape 2 (by norm_num) P3.unmatched.length P3.teams
        P3.unmatched (le_refl _)
      rw [packSizes]
      generalize packLoop 2 P3.unmatched.length P3.teams P3.unmatched = P2 at c1 c2 ⊢
      rw [b1, b2, h2] at c1
      rw [b2, h2] at c2
      rw [if_pos (by rw [c2]; norm_num)]
      refine ⟨?_, ?_⟩
      · rw [c1, h2, if_neg (by norm_num), if_pos rfl]; simp
      · rw [c2, h2]; rfl

/-- C12. For leftovers whose experience and availability labels are all recognised,
`formAdditionalTeamsRelaxed` returns teams whose member lists, concatenated in team
order and followed by the unmatched list, are the leftovers sorted (stably) by
experience descending, then by availability ordinal descending.  With `n` leftovers
the teams are `n / 4` teams of 4, followed by one team of 3 if `n % 4 = 3` or one team
of 2 if `n % 4 = 2`; the unmatched list is the last participant in sorted order if
`n % 4 = 1` and empty otherwise.  Every team is a `createRelaxedTeamObject`. -/
theorem overflow_packer_result (participants : List Participant)
    (hexp : ∀ p ∈ participants, experienceValues p.experience ≠ none)
    (hav : ∀ p ∈ participants, availOrder p.availability ≠ none) :
    (formAdditionalTeamsRelaxed participants).teams.flatMap (fun t => t.members) ++
        (formAdditionalTeamsRelaxed participants).unmatched =
      jsSort overflowCompare participants ∧
    (jsSort overflowCompare participants).Perm participants ∧
    (jsSort overflowCompare participants).Pairwise (fun a b =>
      ∃ ea eb va vb, experienceValues a.experience = some ea ∧
        experienceValues b.experience = some eb ∧
        availOrder a.availability = some va ∧ availOrder b.availability = some vb ∧
        (eb < ea ∨ (ea = eb ∧ vb ≤ va))) ∧
    (formAdditionalTeamsRelaxed participants).teams.map (fun t => t.members.length) =
      List.replicate (participants.length / 4) 4 ++
        (if participants.length % 4 = 3 then [3]
          else if participants.length % 4 = 2 then [2] else []) ∧
    (∀ t ∈ (formAdditionalTeamsRelaxed participants).teams,
      t = createRelaxedTeamObject t.members) ∧
    (formAdditionalTeamsRelaxed participants).unmatched.length =
      (if participants.length % 4 = 1 then 1 else 0) ∧
    (formAdditionalTeamsRelaxed participants).unmatched =
      (jsSort overflowCompare participants).drop
        (participants.length - (if participants.length % 4 = 1 then 1 else 0)) := by
  have hconcat := formAdditionalTeamsRelaxed_concat participants
  have hshape := formAdditionalTeamsRelaxed_shape participants
  refine ⟨hconcat, jsSort_perm _ _, jsSort_overflowCompare_sorted participants hexp hav,
    hshape.1, ?_, hshape.2, ?_⟩
  · intro t ht
    obtain ⟨members, hm, _⟩ := formAdditionalTeamsRelaxed_teams participants t ht
    rw [hm]; rfl
  · have hlen := congrArg List.length hconcat
    rw [List.length_append, (jsSort_perm _ _).length_eq, hshape.2] at hlen
    rw [← hconcat]
    exact (List.drop_left' (by omega)).symm

/-- C12 at the sample pool taken as leftovers: seven participants give a team of 4 and
a team of 3. -/
theorem overflow_packer_result_witness :
    (∀ p ∈ samplePool, experienceValues p.experience ≠ none) ∧
    (∀ p ∈ samplePool, availOrder p.availability ≠ none) ∧
    (formAdditionalTeamsRelaxed samplePool).teams.flatMap (fun t => t.members) ++
        (formAdditionalTeamsRelaxed samplePool).unmatched =
      jsSort overflowCompare samplePool ∧
    (formAdditionalTeamsRelaxed samplePool).teams.map (fun t => t.members.length) =
      List.replicate (samplePool.length / 4) 4 ++
        (if samplePool.length % 4 = 3 then [3]
          else if samplePool.length % 4 = 2 then [2] else []) :=
  ⟨by decide, by decide,
    (overflow_packer_result samplePool (by decide) (by decide)).1,
    (overflow_packer_result samplePool (by decide) (by decide)).2.2.2.1⟩

/-! ## Termination of the size-bucket loop -/

/-- With enough fuel the loop of `formTeamsBySize` returns a state at which the source
loop exits: the pool is shorter than the target size, or the builder of the mode does
not return a team of the target size. -/
theorem formTeamsLoop_final (targetSize : Nat) (relaxedMode : Bool) :
    ∀ fuel teams available, available.length < fuel →
      ¬ ((formTeamsLoop targetSize relaxedMode fuel teams available).unmatched.length ≥
          targetSize ∧
        ∃ t, (if relaxedMode = true then createTeamWithRelaxedConstraints
              (formTeamsLoop targetSize relaxedMode fuel teams available).unmatched targetSize
            else createTeamWithStrictConstraints
              (formTeamsLoop targetSize relaxedMode fuel teams available).unmatched targetSize) =
            some t ∧ t.members.length = targetSize) := by
  intro fuel
  induction fuel with
  | zero => intro teams available h; omega
  | succ fuel ih =>
    intro teams available h
    rw [formTeamsLoop]
    by_cases hc : available.length ≥ targetSize
    · rw [if_pos hc]
      simp only
      cases ht : (if relaxedMode = true then
          createTeamWithRelaxedConstraints available targetSize
        else createTeamWithStrictConstraints available targetSize) with
      | none =>
        simp only
        rintro ⟨_, t, ht2, _⟩
        rw [ht] at ht2
        exact absurd ht2 (by simp)
      | some t =>
        simp only
        by_cases hlen : t.members.length = targetSize
        · rw [if_pos hlen]
          have := create_some_shrinks relaxedMode available targetSize t ht
          exact ih _ _ (by omega)
        · rw [if_neg hlen]
          simp only
          rintro ⟨_, u, hu, hulen⟩
          rw [ht] at hu
          simp only [Option.some.injEq] at hu
          rw [hu] at hlen
          exact hlen hulen
    · rw [if_neg hc]
      simp only
      rintro ⟨hge, _⟩
      exact hc hge

theorem flatMap_members_length (teams : List Team) (targetSize : Nat)
    (h : ∀ t ∈ teams, t.members.length = targetSize) :
    (teams.flatMap (fun t => t.members)).length = targetSize * teams.length := by
  induction teams with
  | nil => simp
  | cons t ts ih =>
    rw [List.flatMap_cons, List.length_append, h t (List.mem_cons_self _ _),
      ih (fun u hu => h u (List.mem_cons_of_mem _ hu)), List.length_cons]
    ring

/-- C18. For a pool with pairwise distinct ids, a target size `T` of 2, 3 or 4 and
either mode, `formTeamsBySize` terminates: every run of its loop with more fuel than
participants returns the same result, and at that result the loop of the source
exits.  A successful iteration removes exactly `T` participants from the working
pool.  The result has at most `n / T` teams, each of exactly `T` members, its
unmatched list has `n - T * (number of teams)` participants, and no id occurs twice
among the members of its teams. -/
theorem formTeamsBySize_terminates (pool : List Participant) (targetSize : Nat)
    (relaxedMode : Bool) (hT : targetSize = 2 ∨ targetSize = 3 ∨ targetSize = 4)
    (hid : (pool.map (fun p => p.id)).Nodup) :
    (∀ fuel, pool.length < fuel →
      formTeamsLoop targetSize relaxedMode fuel [] pool =
        formTeamsBySize pool targetSize relaxedMode) ∧
    ¬ ((formTeamsBySize pool targetSize relaxedMode).unmatched.length ≥ targetSize ∧
      ∃ t, (if relaxedMode = true then createTeamWithRelaxedConstraints
            (formTeamsBySize pool targetSize relaxedMode).unmatched targetSize
          else createTeamWithStrictConstraints
            (formTeamsBySize pool targetSize relaxedMode).unmatched targetSize) = some t ∧
        t.members.length = targetSize) ∧
    (∀ available t, (available.map (fun p => p.id)).Nodup →
      (if relaxedMode = true then createTeamWithRelaxedConstraints available targetSize
        else createTeamWithStrictConstraints available targetSize) = some t →
      (t.members.foldl removeMember available).length + targetSize = available.length) ∧
    (∀ t ∈ (formTeamsBySize pool targetSize relaxedMode).teams,
      t.members.length = targetSize) ∧
    (formTeamsBySize pool targetSize relaxedMode).teams.length ≤ pool.length / targetSize ∧
    (formTeamsBySize pool targetSize relaxedMode).unmatched.length =
      pool.length - targetSize * (formTeamsBySize pool targetSize relaxedMode).teams.length ∧
    (((formTeamsBySize pool targetSize relaxedMode).teams.flatMap
      (fun t => t.members)).map (fun p => p.id)).Nodup := by
  have hteams : ∀ t ∈ (formTeamsBySize pool targetSize relaxedMode).teams,
      t.members.length = targetSize := by
    apply formTeamsBySize_teams
    intro available t _ hcreate
    exact (create_some relaxedMode available targetSize t hcreate).2.1
  have hperm := formTeamsBySize_perm pool targetSize relaxedMode hid
  have hlen := hperm.length_eq
  rw [List.length_append, flatMap_members_length _ targetSize hteams] at hlen
  have hpos : 0 < targetSize := by omega
  refine ⟨?_, ?_, ?_, hteams, ?_, by omega, ?_⟩
  · intro fuel hfuel
    exact formTeamsLoop_fuel targetSize relaxedMode fuel (pool.length + 1) [] pool hfuel
      (by omega)
  · exact formTeamsLoop_final targetSize relaxedMode (pool.length + 1) [] pool (by omega)
  · intro available t hnd hcreate
    obtain ⟨_, hl, _, hsub⟩ := create_some relaxedMode available targetSize t hcreate
    have hp := (foldl_removeMember_perm t.members available hnd (hsub hnd)).length_eq
    rw [List.length_append, hl] at hp
    omega
  · rw [Nat.le_div_iff_mul_le hpos]
    have : (formTeamsBySize pool targetSize relaxedMode).teams.length * targetSize =
        targetSize * (formTeamsBySize pool targetSize relaxedMode).teams.length := by ring
    omega
  · have hnd : (((formTeamsBySize pool targetSize relaxedMode).teams.flatMap
        (fun t => t.members) ++
        (formTeamsBySize pool targetSize relaxedMode).unmatched).map (fun p => p.id)).Nodup :=
      (hperm.map _).nodup_iff.mpr hid
    exact hnd.sublist ((List.sublist_append_left _ _).map _)

/-- C18 at the sample pool with target size 4 in strict mode. -/
theorem formTeamsBySize_terminates_witness :
    ((4 : Nat) = 2 ∨ (4 : Nat) = 3 ∨ (4 : Nat) = 4) ∧
    (samplePool.map (fun p => p.id)).Nodup ∧
    (formTeamsBySize samplePool 4 false).teams.length ≤ samplePool.length / 4 ∧
    (formTeamsBySize samplePool 4 false).unmatched.length =
      samplePool.length - 4 * (formTeamsBySize samplePool 4 false).teams.length :=
  ⟨by decide, by decide,
    (formTeamsBySize_terminates samplePool 4 false (by decide) (by decide)).2.2.2.2.1,
    (formTeamsBySize_terminates samplePool 4 false (by decide) (by decide)).2.2.2.2.2.1⟩

/-! ## Progress of the builders -/

/-- Length rule shared by both fill loops: when every step on a non-empty remainder
finds a winner, the loop fills the team up to the target size or until the candidates
run out. -/
theorem fill_length (targetSize : Nat)
    (find : List Participant → List Participant → Nat → Option Participant)
    (fill : Nat → List Participant → List Participant → List Participant)
    (h0 : ∀ team remaining, fill 0 team remaining = team)
    (hs : ∀ fuel team remaining, fill (fuel + 1) team remaining =
      if team.length < targetSize ∧ remaining.length > 0 then
        match find team remaining targetSize with
        | some nextMember =>
          fill fuel (team ++ [nextMember])
            (splice1 remaining (findIndex (fun p => p.id == nextMember.id) remaining))
        | none => team
      else team)
    (J : List Participant → List Participant → Prop)
    (hJ : ∀ team remaining x, J team remaining → find team remaining targetSize = some x →
      J (team ++ [x]) (splice1 remaining (findIndex (fun p => p.id == x.id) remaining)))
    (hprog : ∀ team remaining, J team remaining → remaining ≠ [] →
      ∃ x, find team remaining targetSize = some x) :
    ∀ fuel team remaining, J team remaining → remaining.length ≤ fuel →
      team.length ≤ targetSize →
      (fill fuel team remaining).length = min targetSize (team.length + remaining.length) := by
  intro fuel
  induction fuel with
  | zero =>
    intro team remaining _ hfuel hle
    rw [h0]
    have : remaining.length = 0 := by omega
    rw [this, Nat.add_zero, Nat.min_eq_right hle]
  | succ fuel ih =>
    intro team remaining hJ0 hfuel hle
    rw [hs]
    by_cases hc : team.length < targetSize ∧ remaining.length > 0
    · rw [if_pos hc]
      obtain ⟨x, hx⟩ := hprog team remaining hJ0 (List.length_pos.mp hc.2)
      rw [hx]
      simp only
      rw [ih _ _ (hJ team remaining x hJ0 hx)
        (by rw [splice1_findIndex_length]; omega)
        (by rw [List.length_append, List.length_singleton]; omega)]
      rw [splice1_findIndex_length, List.length_append, List.length_singleton]
      congr 1
      omega
    · rw [if_neg hc]
      have : team.length = targetSize ∨ remaining.length = 0 := by omega
      rcases this with h | h
      · rw [h]; exact (Nat.min_eq_left (Nat.le_add_right _ _)).symm
      · rw [h, Nat.add_zero, Nat.min_eq_right hle]

/-- A strict step finds a winner when some candidate prefers the target size and every
candidate of that preference is accepted by every member. -/
theorem findBestMatchStrict_isSome (team candidates : List Participant) (targetSize : Nat)
    (hex : ∃ c ∈ candidates, c.preferredTeamSize = targetSize)
    (hcompat : ∀ c ∈ candidates, c.preferredTeamSize = targetSize → ∀ m ∈ team,
      isAvailabilityCompatible (getAvailabilityLevel m) (getAvailabilityLevel c) = true) :
    ∃ x, findBestMatchStrict team candidates targetSize = some x := by
  obtain ⟨c, hc, hsize⟩ := hex
  have hc1 : c ∈ candidates.filter (fun c => c.preferredTeamSize == targetSize) :=
    List.mem_filter.mpr ⟨hc, by simpa using hsize⟩
  have hc2 : c ∈ filterByStrictAvailabilityMatch team
      (candidates.filter (fun c => c.preferredTeamSize == targetSize)) := by
    unfold filterByStrictAvailabilityMatch
    split_ifs
    · exact hc1
    · rw [List.mem_filter]
      refine ⟨hc1, ?_⟩
      simp only [List.all_eq_true, List.mem_map, forall_exists_index, and_imp,
        forall_apply_eq_imp_iff₂]
      exact hcompat c hc hsize
  unfold findBestMatchStrict
  simp only
  rw [if_neg (by rw [List.length_eq_zero]; exact List.ne_nil_of_mem hc1),
    if_neg (by rw [List.length_eq_zero]; exact List.ne_nil_of_mem hc2)]
  cases h : findBestMatchWithStrictCandidates team
      (filterByStrictAvailabilityMatch team
        (candidates.filter (fun c => c.preferredTeamSize == targetSize))) targetSize with
  | some x => exact ⟨x, rfl⟩
  | none =>
    rw [findBestMatchWithStrictCandidates_eq, selectBestCandidateAntiBias_eq_none,
      filterByCaseTypeDiversity_eq_nil] at h
    rw [h] at hc2
    exact absurd hc2 (List.not_mem_nil _)

/-- A relaxed step finds a winner when some candidate is within one of the target
size. -/
theorem findBestMatchRelaxed_isSome (team candidates : List Participant) (targetSize : Nat)
    (hex : ∃ c ∈ candidates, withinOne c.preferredTeamSize targetSize = true) :
    ∃ x, findBestMatchRelaxed team candidates targetSize = some x := by
  obtain ⟨c, hc, hsize⟩ := hex
  have hc1 : c ∈ candidates.filter (fun c => withinOne c.preferredTeamSize targetSize) :=
    List.mem_filter.mpr ⟨hc, hsize⟩
  have hne : candidates.filter (fun c => withinOne c.preferredTeamSize targetSize) ≠ [] :=
    List.ne_nil_of_mem hc1
  unfold findBestMatchRelaxed
  simp only
  rw [if_neg (by rw [List.length_eq_zero]; exact hne)]
  split_ifs with h2
  · cases h : selectBestCandidateRelaxed team
        (candidates.filter (fun c => withinOne c.preferredTeamSize targetSize)) targetSize with
    | some x => exact ⟨x, rfl⟩
    | none => exact absurd ((selectBestCandidateRelaxed_eq_none _ _ _).mp h) hne
  · cases h : selectBestCandidateRelaxed team
        (filterByFlexibleAvailabilityMatch team
          (candidates.filter (fun c => withinOne c.preferredTeamSize targetSize))) targetSize with
    | some x => exact ⟨x, rfl⟩
    | none =>
      rw [selectBestCandidateRelaxed_eq_none] at h
      rw [h] at h2
      exact absurd rfl h2

theorem formTeamsLoop_of_short (targetSize : Nat) (relaxedMode : Bool) (fuel : Nat)
    (teams : List Team) (available : List Participant) (h : available.length < targetSize) :
    formTeamsLoop targetSize relaxedMode fuel teams available = ⟨teams, available⟩ := by
  cases fuel with
  | zero => rfl
  | succ fuel => rw [formTeamsLoop, if_neg (by omega)]

/-- A strict build succeeds on a pool with at least `targetSize` participants who all
prefer the target size and whose availability buckets all accept one another. -/
theorem createTeamWithStrictConstraints_of_compatible (available : List Participant)
    (targetSize : Nat) (hpos : 0 < targetSize) (hlen : targetSize ≤ available.length)
    (hpref : ∀ p ∈ available, p.preferredTeamSize = targetSize)
    (hcompat : ∀ a ∈ available, ∀ b ∈ available,
      isAvailabilityCompatible (getAvailabilityLevel a) (getAvailabilityLevel b) = true) :
    ∃ t, createTeamWithStrictConstraints available targetSize = some t ∧
      t.members.length = targetSize := by
  have hfilter : available.filter (fun p => p.preferredTeamSize == targetSize) = available := by
    rw [List.filter_eq_self]
    intro p hp
    simpa using hpref p hp
  unfold createTeamWithStrictConstraints
  rw [if_neg (by omega)]
  simp only [hfilter]
  rw [if_neg (by omega)]
  cases havail : available with
  | nil => rw [havail] at hlen; simp at hlen; omega
  | cons anchor remaining =>
    simp only
    have hfill := fill_length targetSize findBestMatchStrict (fillStrict targetSize)
      (fun _ _ => rfl) (fun _ _ _ => rfl)
      (fun team rem => ∀ m ∈ team ++ rem, m ∈ available)
      (fun team rem x hJ hf m hm => by
        rw [List.append_assoc, List.mem_append] at hm
        rcases hm with hm | hm
        · exact hJ m (List.mem_append_left _ hm)
        · rw [List.singleton_append, List.mem_cons] at hm
          rcases hm with hm | hm
          · exact hJ m (List.mem_append_right _
              (hm ▸ (findBestMatchStrict_mem team rem targetSize x hf).1))
          · exact hJ m (List.mem_append_right _ ((splice1_sublist _ _).subset hm)))
      (fun team rem hJ hne => by
        obtain ⟨c, hc⟩ := List.exists_mem_of_ne_nil rem hne
        apply findBestMatchStrict_isSome
        · exact ⟨c, hc, hpref c (hJ c (List.mem_append_right _ hc))⟩
        · intro c hc _ m hm
          exact hcompat m (hJ m (List.mem_append_left _ hm)) c
            (hJ c (List.mem_append_right _ hc)))
      remaining.length [anchor] remaining
      (fun m hm => by rw [havail]; simpa using hm) (le_refl _)
      (by simp; omega)
    have hlen2 : (fillStrict targetSize remaining.length [anchor] remaining).length =
        targetSize := by
      rw [hfill]
      rw [havail] at hlen
      simp only [List.length_cons, List.length_nil] at hlen ⊢
      omega
    rw [if_neg (by rw [hlen2]; simp)]
    exact ⟨_, rfl, by rw [createTeamObject_members]; exact hlen2⟩

/-- A strict bucket of exactly `targetSize` participants with distinct ids, who all
prefer the target size and whose buckets all accept one another, becomes one team and
leaves nobody. -/
theorem formTeamsBySize_strict_exact (pool : List Participant) (targetSize : Nat)
    (hpos : 0 < targetSize) (hlen : pool.length = targetSize)
    (hid : (pool.map (fun p => p.id)).Nodup)
    (hpref : ∀ p ∈ pool, p.preferredTeamSize = targetSize)
    (hcompat : ∀ a ∈ pool, ∀ b ∈ pool,
      isAvailabilityCompatible (getAvailabilityLevel a) (getAvailabilityLevel b) = true) :
    ∃ t, formTeamsBySize pool targetSize false = ⟨[t], []⟩ ∧ t.members.Perm pool ∧
      t = createTeamObject t.members := by
  obtain ⟨t, ht, htlen⟩ := createTeamWithStrictConstraints_of_compatible pool targetSize hpos
    (by omega) hpref hcompat
  have hcs := create_some false pool targetSize t (by simpa using ht)
  have hperm : t.members.Perm pool :=
    (hcs.2.2.2 hid).perm_of_length_le (by omega)
  have hrest : t.members.foldl removeMember pool = [] := by
    have h := (foldl_removeMember_perm t.members pool hid (hcs.2.2.2 hid)).length_eq
    rw [List.length_append] at h
    exact List.length_eq_zero.mp (by omega)
  refine ⟨t, ?_, hperm, hcs.1⟩
  unfold formTeamsBySize
  rw [formTeamsLoop, if_pos (by omega)]
  simp only [Bool.false_eq_true, ↓reduceIte, ht]
  rw [if_pos htlen, hrest, formTeamsLoop_of_short _ _ _ _ _ (by simpa using hpos)]
  rfl

theorem formTeamsAntiBias_nil (relaxedMode : Bool) :
    formTeamsAntiBias [] relaxedMode = ⟨[], []⟩ := rfl

theorem filter_isPostgraduate_eq_nil (participants : List Participant)
    (h : ∀ p ∈ participants, isUndergraduate p = true) :
    participants.filter isPostgraduate = [] := by
  rw [List.filter_eq_nil_iff]
  intro p hp
  rw [isPostgraduate_eq_not_isUndergraduate, h p hp]
  simp

theorem filter_isUndergraduate_eq_self (participants : List Participant)
    (h : ∀ p ∈ participants, isUndergraduate p = true) :
    participants.filter isUndergraduate = participants :=
  List.filter_eq_self.mpr h

/-- C15. For exactly 4 participants with distinct ids who are all undergraduates, all
prefer teams of 4, are all "Fully Available (10–15 hrs/week)" and list one topic each,
the four topics pairwise different, strict mode returns exactly one team, whose
members are the 4 participants; nobody is unmatched and `matchingEfficiency` is 100. -/
theorem four_compatible_undergraduates (participants : List Participant)
    (hlen : participants.length = 4)
    (hid : (participants.map (fun p => p.id)).Nodup)
    (hug : ∀ p ∈ participants,
      includes p.currentYear "PG" = false ∧ includes p.currentYear "MBA" = false)
    (hpref : ∀ p ∈ participants, p.preferredTeamSize = 4)
    (hav : ∀ p ∈ participants, p.availability = "Fully Available (10–15 hrs/week)")
    (_htopic : ∀ p ∈ participants, p.casePreferences.length = 1)
    (_hdiff : (participants.flatMap (fun p => p.casePreferences)).Nodup) :
    ∃ t, (matchParticipantsToTeams participants false).teams = [t] ∧
      t.members.Perm participants ∧ t.teamSize = 4 ∧
      (matchParticipantsToTeams participants false).unmatched = [] ∧
      (matchParticipantsToTeams participants false).statistics.matchingEfficiency = 100 := by
  have hug2 : ∀ p ∈ participants, isUndergraduate p = true := by
    intro p hp
    unfold isUndergraduate
    rw [(hug p hp).1, (hug p hp).2]
    rfl
  have hcompat : ∀ a ∈ participants, ∀ b ∈ participants,
      isAvailabilityCompatible (getAvailabilityLevel a) (getAvailabilityLevel b) = true := by
    intro a ha b hb
    unfold getAvailabilityLevel
    rw [hav a ha, hav b hb]
    decide
  obtain ⟨t, hbucket, hperm, hobj⟩ :=
    formTeamsBySize_strict_exact participants 4 (by norm_num) hlen hid hpref hcompat
  have hf4 : participants.filter (fun p => p.preferredTeamSize == 4) = participants := by
    rw [List.filter_eq_self]
    intro p hp; simpa using hpref p hp
  have hf2 : participants.filter (fun p => p.preferredTeamSize == 2) = [] := by
    rw [List.filter_eq_nil_iff]
    intro p hp; simp [hpref p hp]
  have hf3 : participants.filter (fun p => p.preferredTeamSize == 3) = [] := by
    rw [List.filter_eq_nil_iff]
    intro p hp; simp [hpref p hp]
  have hcohort : formTeamsAntiBias participants false = ⟨[t], []⟩ := by
    rw [formTeamsAntiBias_eq, if_neg (by omega)]
    simp only [Bool.false_and, Bool.false_eq_true, ↓reduceIte, hf2, hf3, hf4, hbucket]
    rw [formTeamsBySize_of_short [] 2 false (by simp),
      formTeamsBySize_of_short [] 3 false (by simp)]
    rfl
  have hteams : (matchParticipantsToTeams participants false).teams = [t] := by
    rw [matchParticipantsToTeams_teams, filter_isUndergraduate_eq_self _ hug2,
      filter_isPostgraduate_eq_nil _ hug2, hcohort, formTeamsAntiBias_nil]
    rfl
  have hun : (matchParticipantsToTeams participants false).unmatched = [] := by
    rw [matchParticipantsToTeams_unmatched, filter_isUndergraduate_eq_self _ hug2,
      filter_isPostgraduate_eq_nil _ hug2, hcohort, formTeamsAntiBias_nil]
    rfl
  refine ⟨t, hteams, hperm, ?_, hun, ?_⟩
  · rw [hobj, createTeamObject_teamSize, hperm.length_eq, hlen]
  · rw [matchParticipantsToTeams_matchingEfficiency, if_pos (by omega), hun, hlen]
    norm_num

/-- On a single candidate within one of the target size, a relaxed step returns it. -/
theorem findBestMatchRelaxed_singleton (team : List Participant) (b : Participant)
    (targetSize : Nat) (h : withinOne b.preferredTeamSize targetSize = true) :
    findBestMatchRelaxed team [b] targetSize = some b := by
  obtain ⟨x, hx⟩ := findBestMatchRelaxed_isSome team [b] targetSize
    ⟨b, List.mem_singleton_self b, h⟩
  have hmem := findBestMatchRelaxed_mem team [b] targetSize x hx
  rw [List.mem_singleton] at hmem
  rw [hx, hmem]

/-- A relaxed bucket of two participants with different ids who both prefer pairs
becomes one team of the two, in bucket order, and leaves nobody. -/
theorem formTeamsBySize_relaxed_pair (a b : Participant) (hid : a.id ≠ b.id)
    (ha : a.preferredTeamSize = 2) (hb : b.preferredTeamSize = 2) :
    formTeamsBySize [a, b] 2 true = ⟨[createTeamObject [a, b]], []⟩ := by
  have hwa : withinOne a.preferredTeamSize 2 = true := by rw [ha]; rfl
  have hwb : withinOne b.preferredTeamSize 2 = true := by rw [hb]; rfl
  have hfill : fillRelaxed 2 1 [a] [b] = [a, b] := by
    rw [fillRelaxed, if_pos (by simp), findBestMatchRelaxed_singleton [a] b 2 hwb]
    rfl
  have hcreate : createTeamWithRelaxedConstraints [a, b] 2 = some (createTeamObject [a, b]) := by
    unfold createTeamWithRelaxedConstraints
    simp only [List.filter_cons, hwa, hwb, ↓reduceIte, List.filter_nil, List.length_cons,
      List.length_nil, hfill]
    simp
  have hnd : (([a, b] : List Participant).map (fun p => p.id)).Nodup := by
    simp [hid]
  have hrest : ([a, b] : List Participant).foldl removeMember [a, b] = [] := by
    have h := (foldl_removeMember_perm [a, b] [a, b] hnd (List.Subperm.refl _)).length_eq
    rw [List.length_append] at h
    exact List.length_eq_zero.mp (by omega)
  unfold formTeamsBySize
  rw [formTeamsLoop, if_pos (by simp)]
  simp only [↓reduceIte, hcreate, createTeamObject_members, List.length_cons, List.length_nil,
    hrest]
  rw [formTeamsLoop_of_short _ _ _ _ _ (by simp)]
  rfl

/-- Relaxed mode on a cohort of three with distinct ids, two of whom prefer pairs and
one a team of 3: the bucket builder teams the two, the third is unmatched, and the
overflow packer is not reached. -/
theorem formTeamsAntiBias_relaxed_trio (participants : List Participant)
    (hlen : participants.length = 3)
    (hid : (participants.map (fun p => p.id)).Nodup)
    (h2 : (participants.filter (fun p => p.preferredTeamSize == 2)).length = 2)
    (h3 : (participants.filter (fun p => p.preferredTeamSize == 3)).length = 1) :
    formTeamsAntiBias participants true =
      ⟨[createTeamObject (participants.filter (fun p => p.preferredTeamSize == 2))],
        participants.filter (fun p => p.preferredTeamSize == 3)⟩ := by
  have h4 : participants.filter (fun p => p.preferredTeamSize == 4) = [] := by
    have := size_filters_length_le participants
    exact List.length_eq_zero.mp (by omega)
  obtain ⟨a, b, hab⟩ := List.length_eq_two.mp h2
  obtain ⟨c, hc⟩ := List.length_eq_one.mp h3
  have hmem : ∀ x ∈ [a, b], x ∈ participants ∧ x.preferredTeamSize = 2 := by
    intro x hx
    rw [← hab, List.mem_filter] at hx
    exact ⟨hx.1, by simpa using hx.2⟩
  have hndab : (([a, b] : List Participant).map (fun p => p.id)).Nodup := by
    rw [← hab]
    exact hid.sublist ((List.filter_sublist _).map _)
  have hidab : a.id ≠ b.id := by
    simpa using hndab
  have hpair := formTeamsBySize_relaxed_pair a b hidab
    (hmem a (by simp)).2 (hmem b (by simp)).2
  rw [formTeamsAntiBias_eq, if_neg (by omega), hab, hc, h4, hpair,
    formTeamsBySize_of_short [c] 3 true (by simp),
    formTeamsBySize_of_short [] 4 true (by simp)]
  simp

/-- C17, as the code has it. For 3 participants of one cohort with distinct ids, two
of whom prefer size 2 and one size 3, relaxed mode returns exactly one team: its
members are the two participants who prefer size 2, in some order, teamed by the
relaxed bucket builder (`createTeamObject`, label "Anti-bias optimized", team size 2);
the participant who prefers size 3 is the one unmatched; the overflow packer forms no
team. -/
theorem relaxed_trio_result (participants : List Participant)
    (hlen : participants.length = 3)
    (hid : (participants.map (fun p => p.id)).Nodup)
    (hcohort : (∀ p ∈ participants, isUndergraduate p = true) ∨
      (∀ p ∈ participants, isPostgraduate p = true))
    (h2 : (participants.filter (fun p => p.preferredTeamSize == 2)).length = 2)
    (h3 : (participants.filter (fun p => p.preferredTeamSize == 3)).length = 1) :
    ∃ t, (matchParticipantsToTeams participants true).teams = [t] ∧
      t.members.Perm (participants.filter (fun p => p.preferredTeamSize == 2)) ∧
      t = createTeamObject t.members ∧
      t.workStyleCompatibility = "Anti-bias optimized" ∧ t.members.length = 2 ∧
      t.teamSize = 2 ∧
      (matchParticipantsToTeams participants true).unmatched =
        participants.filter (fun p => p.preferredTeamSize == 3) ∧
      (matchParticipantsToTeams participants true).unmatched.length = 1 := by
  have htrio := formTeamsAntiBias_relaxed_trio participants hlen hid h2 h3
  have hres : (matchParticipantsToTeams participants true).teams =
        [createTeamObject (participants.filter (fun p => p.preferredTeamSize == 2))] ∧
      (matchParticipantsToTeams participants true).unmatched =
        participants.filter (fun p => p.preferredTeamSize == 3) := by
    rw [matchParticipantsToTeams_teams, matchParticipantsToTeams_unmatched]
    rcases hcohort with hug | hpg
    · rw [filter_isUndergraduate_eq_self _ hug, filter_isPostgraduate_eq_nil _ hug, htrio,
        formTeamsAntiBias_nil]
      simp
    · have hug0 : participants.filter isUndergraduate = [] := by
        rw [List.filter_eq_nil_iff]
        intro p hp
        have := hpg p hp
        rw [isPostgraduate_eq_not_isUndergraduate] at this
        simpa using this
      rw [hug0, List.filter_eq_self.mpr hpg, htrio, formTeamsAntiBias_nil]
      simp
  exact ⟨createTeamObject (participants.filter (fun p => p.preferredTeamSize == 2)),
    hres.1, List.Perm.refl _, rfl, rfl, h2, h2, hres.2, by rw [hres.2, h3]⟩

/-- C11 fails on the code. The cohort sort compares `getExperienceScore` of the
participant objects, not of their experience labels, so it reorders nothing: for the
cohort that lists a novice (experience value 0) before a finalist (value 3), both
labels recognised, the size-2 bucket handed to `formTeamsBySize` is still novice
first, and the novice is the anchor of the team built from it. -/
theorem experience_order_failing_input :
    (∀ p ∈ sampleExperiencePair, experienceValues p.experience ≠ none) ∧
    experienceValues sampleNovice.experience = some 0 ∧
    experienceValues sampleFinalist.experience = some 3 ∧
    (jsSort experienceCompare sampleExperiencePair).filter
        (fun p => p.preferredTeamSize == 2) = [sampleNovice, sampleFinalist] ∧
    (formTeamsAntiBias sampleExperiencePair false).teams.map (fun t => t.members) =
      [[sampleNovice, sampleFinalist]] ∧
    (matchParticipantsToTeams sampleExperiencePair false).teams.map (fun t => t.members) =
      [[sampleNovice, sampleFinalist]] := by
  refine ⟨by decide, by decide, by decide, by decide, by decide, by decide⟩

/-- C15 at four fully available undergraduates with the topics Consulting, Finance,
Marketing and Operations. -/
theorem four_compatible_undergraduates_witness :
    sampleQuartet.length = 4 ∧
    (sampleQuartet.map (fun p => p.id)).Nodup ∧
    (∀ p ∈ sampleQuartet,
      includes p.currentYear "PG" = false ∧ includes p.currentYear "MBA" = false) ∧
    (∀ p ∈ sampleQuartet, p.preferredTeamSize = 4) ∧
    (∀ p ∈ sampleQuartet, p.availability = "Fully Available (10–15 hrs/week)") ∧
    (∀ p ∈ sampleQuartet, p.casePreferences.length = 1) ∧
    (sampleQuartet.flatMap (fun p => p.casePreferences)).Nodup ∧
    ∃ t, (matchParticipantsToTeams sampleQuartet false).teams = [t] ∧
      t.members.Perm sampleQuartet ∧ t.teamSize = 4 ∧
      (matchParticipantsToTeams sampleQuartet false).unmatched = [] ∧
      (matchParticipantsToTeams sampleQuartet false).statistics.matchingEfficiency = 100 :=
  ⟨by decide, by decide, by decide, by decide, by decide, by decide, by decide,
    four_compatible_undergraduates sampleQuartet (by decide) (by decide) (by decide)
      (by decide) (by decide) (by decide) (by decide)⟩

/-- C16 at the sparse pool: four participants, all unmatched, efficiency 0. -/
theorem strict_small_buckets_no_team_witness :
    sampleSparse ≠ [] ∧
    (∀ T, (T = 2 ∨ T = 3 ∨ T = 4) →
      ((sampleSparse.filter isUndergraduate).filter
        (fun p => p.preferredTeamSize == T)).length < T ∧
      ((sampleSparse.filter isPostgraduate).filter
        (fun p => p.preferredTeamSize == T)).length < T) ∧
    (matchParticipantsToTeams sampleSparse false).teams = [] ∧
    (∀ p ∈ sampleSparse,
      (p.preferredTeamSize = 2 ∨ p.preferredTeamSize = 3 ∨ p.preferredTeamSize = 4) →
      p ∈ (matchParticipantsToTeams sampleSparse false).unmatched) :=
  ⟨by decide, by intro T hT; rcases hT with rfl | rfl | rfl <;> decide,
    (strict_small_buckets_no_team sampleSparse (by decide)
      (by intro T hT; rcases hT with rfl | rfl | rfl <;> decide)).1,
    (strict_small_buckets_no_team sampleSparse (by decide)
      (by intro T hT; rcases hT with rfl | rfl | rfl <;> decide)).2.2.1⟩

/-- C17 as amended, at the sample trio. -/
theorem relaxed_trio_result_witness :
    sampleTrio.length = 3 ∧
    (sampleTrio.map (fun p => p.id)).Nodup ∧
    ((∀ p ∈ sampleTrio, isUndergraduate p = true) ∨
      (∀ p ∈ sampleTrio, isPostgraduate p = true)) ∧
    (sampleTrio.filter (fun p => p.preferredTeamSize == 2)).length = 2 ∧
    (sampleTrio.filter (fun p => p.preferredTeamSize == 3)).length = 1 ∧
    ∃ t, (matchParticipantsToTeams sampleTrio true).teams = [t] ∧
      t.members.Perm (sampleTrio.filter (fun p => p.preferredTeamSize == 2)) ∧
      t = createTeamObject t.members ∧
      t.workStyleCompatibility = "Anti-bias optimized" ∧ t.members.length = 2 ∧
      t.teamSize = 2 ∧
      (matchParticipantsToTeams sampleTrio true).unmatched =
        sampleTrio.filter (fun p => p.preferredTeamSize == 3) ∧
      (matchParticipantsToTeams sampleTrio true).unmatched.length = 1 :=
  ⟨by decide, by decide, Or.inl (by decide), by decide, by decide,
    relaxed_trio_result sampleTrio (by decide) (by decide) (Or.inl (by decide)) (by decide)
      (by decide)⟩

/-- The code at the sample trio in relaxed mode: one team, with the label of the
bucket builder. -/
theorem relaxed_trio_labels :
    (matchParticipantsToTeams sampleTrio true).teams.map (fun t => t.workStyleCompatibility) =
      ["Anti-bias optimized"] := by
  decide!

/-- C17 as stated fails: for the sample trio the one team returned in relaxed mode
carries the label "Anti-bias optimized" of the bucket builder, not the label of the
overflow packer. -/
theorem overflowScenario_counterexample : ¬ OverflowScenarioAsStated sampleTrio := by
  rintro ⟨t, ht, hlabel, _⟩
  have h := relaxed_trio_labels
  rw [ht, List.map_cons, List.map_nil, hlabel] at h
  exact absurd h (by decide)

/-! ## The relaxed builder on a bucket -/

theorem withinOne_self (targetSize : Nat) : withinOne targetSize targetSize = true := by
  unfold withinOne
  simp

/-- A relaxed build succeeds on every pool of at least `targetSize` participants who
all prefer the target size. -/
theorem createTeamWithRelaxedConstraints_of_size (available : List Participant)
    (targetSize : Nat) (hlen : targetSize ≤ available.length) (hpos : 0 < targetSize)
    (hpref : ∀ p ∈ available, p.preferredTeamSize = targetSize) :
    ∃ t, createTeamWithRelaxedConstraints available targetSize = some t ∧
      t.members.length = targetSize := by
  have hfilter : available.filter (fun p => withinOne p.preferredTeamSize targetSize) =
      available := by
    rw [List.filter_eq_self]
    intro p hp
    rw [hpref p hp]
    exact withinOne_self targetSize
  unfold createTeamWithRelaxedConstraints
  rw [if_neg (by omega)]
  simp only [hfilter]
  rw [if_neg (by omega)]
  cases havail : available with
  | nil => rw [havail] at hlen; simp at hlen; omega
  | cons anchor remaining =>
    simp only
    have hfill := fill_length targetSize findBestMatchRelaxed (fillRelaxed targetSize)
      (fun _ _ => rfl) (fun _ _ _ => rfl)
      (fun team rem => ∀ m ∈ team ++ rem, m ∈ available)
      (fun team rem x hJ hf m hm => by
        rw [List.append_assoc, List.mem_append] at hm
        rcases hm with hm | hm
        · exact hJ m (List.mem_append_left _ hm)
        · rw [List.singleton_append, List.mem_cons] at hm
          rcases hm with hm | hm
          · exact hJ m (List.mem_append_right _
              (hm ▸ findBestMatchRelaxed_mem team rem targetSize x hf))
          · exact hJ m (List.mem_append_right _ ((splice1_sublist _ _).subset hm)))
      (fun team rem hJ hne => by
        obtain ⟨c, hc⟩ := List.exists_mem_of_ne_nil rem hne
        apply findBestMatchRelaxed_isSome
        refine ⟨c, hc, ?_⟩
        rw [hpref c (hJ c (List.mem_append_right _ hc))]
        exact withinOne_self targetSize)
      remaining.length [anchor] remaining
      (fun m hm => by rw [havail]; simpa using hm) (le_refl _)
      (by simp; omega)
    have hlen2 : (fillRelaxed targetSize remaining.length [anchor] remaining).length =
        targetSize := by
      rw [hfill]
      rw [havail] at hlen
      simp only [List.length_cons, List.length_nil] at hlen ⊢
      omega
    rw [if_neg (by rw [hlen2]; simp)]
    exact ⟨_, rfl, by rw [createTeamObject_members]; exact hlen2⟩

/-- A relaxed bucket whose participants all prefer the target size is drained until
fewer than `targetSize` are left. -/
theorem formTeamsBySize_relaxed_unmatched_lt (pool : List Participant) (targetSize : Nat)
    (hpos : 0 < targetSize) (hpref : ∀ p ∈ pool, p.preferredTeamSize = targetSize) :
    (formTeamsBySize pool targetSize true).unmatched.length < targetSize := by
  by_contra hge
  have hfinal := formTeamsLoop_final targetSize true (pool.length + 1) [] pool (by omega)
  apply hfinal
  refine ⟨by unfold formTeamsBySize at hge; omega, ?_⟩
  have hsub := formTeamsBySize_unmatched_sublist pool targetSize true
  obtain ⟨t, ht, hlen⟩ := createTeamWithRelaxedConstraints_of_size
    (formTeamsBySize pool targetSize true).unmatched targetSize (by omega) hpos
    (fun p hp => hpref p (hsub.subset hp))
  exact ⟨t, by simpa [formTeamsBySize] using ht, hlen⟩

/-- C24. In relaxed mode the builder never fails on a full bucket: for `T` of 2, 3 or 4
and a pool of `n` participants with pairwise distinct ids who all prefer size `T`,
`formTeamsBySize pool T true` forms exactly `n / T` teams, each of `T` members, and
leaves exactly `n % T` participants unmatched, whatever the other fields are. -/
theorem relaxed_bucket_counts (pool : List Participant) (targetSize : Nat)
    (hT : targetSize = 2 ∨ targetSize = 3 ∨ targetSize = 4)
    (hid : (pool.map (fun p => p.id)).Nodup)
    (hpref : ∀ p ∈ pool, p.preferredTeamSize = targetSize) :
    (formTeamsBySize pool targetSize true).teams.length = pool.length / targetSize ∧
    (formTeamsBySize pool targetSize true).unmatched.length = pool.length % targetSize ∧
    (∀ t ∈ (formTeamsBySize pool targetSize true).teams, t.members.length = targetSize) ∧
    ((formTeamsBySize pool targetSize true).teams.flatMap (fun t => t.members) ++
      (formTeamsBySize pool targetSize true).unmatched).Perm pool := by
  have hpos : 0 < targetSize := by omega
  have hteams : ∀ t ∈ (formTeamsBySize pool targetSize true).teams,
      t.members.length = targetSize := by
    apply formTeamsBySize_teams
    intro available t _ hcreate
    exact (create_some true available targetSize t hcreate).2.1
  have hperm := formTeamsBySize_perm pool targetSize true hid
  have hlen := hperm.length_eq
  rw [List.length_append, flatMap_members_length _ targetSize hteams] at hlen
  have hlt := formTeamsBySize_relaxed_unmatched_lt pool targetSize hpos hpref
  have hdiv : pool.length / targetSize =
      (formTeamsBySize pool targetSize true).teams.length := by
    rw [← hlen, Nat.mul_add_div hpos, Nat.div_eq_of_lt hlt, Nat.add_zero]
  have hmod : pool.length % targetSize =
      (formTeamsBySize pool targetSize true).unmatched.length := by
    rw [← hlen, Nat.mul_add_mod, Nat.mod_eq_of_lt hlt]
  exact ⟨hdiv.symm, hmod.symm, hteams, hperm⟩

/-! ## Who can appear in a cohort's result -/

/-- The members of the teams of a bucket and its unmatched all come from the bucket. -/
theorem formTeamsBySize_subset (pool : List Participant) (targetSize : Nat)
    (relaxedMode : Bool) :
    (∀ t ∈ (formTeamsBySize pool targetSize relaxedMode).teams, ∀ m ∈ t.members, m ∈ pool) ∧
    (∀ m ∈ (formTeamsBySize pool targetSize relaxedMode).unmatched, m ∈ pool) := by
  constructor
  · apply formTeamsBySize_teams
    intro available t hsub hcreate m hm
    exact hsub.subset ((create_some relaxedMode available targetSize t hcreate).2.2.1 m hm)
  · exact fun m hm => (formTeamsBySize_unmatched_sublist pool targetSize relaxedMode).subset hm

/-- Everybody in a cohort's teams or unmatched list is a participant of the cohort
whose preferred size is 2, 3 or 4. -/
theorem formTeamsAntiBias_sizes (participants : List Participant) (relaxedMode : Bool) :
    (∀ t ∈ (formTeamsAntiBias participants relaxedMode).teams, ∀ m ∈ t.members,
      m ∈ participants ∧
      (m.preferredTeamSize = 2 ∨ m.preferredTeamSize = 3 ∨ m.preferredTeamSize = 4)) ∧
    (∀ m ∈ (formTeamsAntiBias participants relaxedMode).unmatched,
      m ∈ participants ∧
      (m.preferredTeamSize = 2 ∨ m.preferredTeamSize = 3 ∨ m.preferredTeamSize = 4)) := by
  have hb : ∀ T, (T = 2 ∨ T = 3 ∨ T = 4) →
      ∀ m ∈ participants.filter (fun p => p.preferredTeamSize == T),
        m ∈ participants ∧
        (m.preferredTeamSize = 2 ∨ m.preferredTeamSize = 3 ∨ m.preferredTeamSize = 4) := by
    intro T hT m hm
    rw [List.mem_filter] at hm
    have : m.preferredTeamSize = T := by simpa using hm.2
    refine ⟨hm.1, ?_⟩
    rw [this]; exact hT
  have h2 := formTeamsBySize_subset (participants.filter (fun p => p.preferredTeamSize == 2)) 2
    relaxedMode
  have h3 := formTeamsBySize_subset (participants.filter (fun p => p.preferredTeamSize == 3)) 3
    relaxedMode
  have h4 := formTeamsBySize_subset (participants.filter (fun p => p.preferredTeamSize == 4)) 4
    relaxedMode
  have hteams : ∀ t ∈
      (formTeamsBySize (participants.filter (fun p => p.preferredTeamSize == 2)) 2
        relaxedMode).teams ++
      (formTeamsBySize (participants.filter (fun p => p.preferredTeamSize == 3)) 3
        relaxedMode).teams ++
      (formTeamsBySize (participants.filter (fun p => p.preferredTeamSize == 4)) 4
        relaxedMode).teams, ∀ m ∈ t.members,
      m ∈ participants ∧
      (m.preferredTeamSize = 2 ∨ m.preferredTeamSize = 3 ∨ m.preferredTeamSize = 4) := by
    intro t ht m hm
    rw [List.mem_append, List.mem_append] at ht
    rcases ht with (ht | ht) | ht
    · exact hb 2 (Or.inl rfl) m (h2.1 t ht m hm)
    · exact hb 3 (Or.inr (Or.inl rfl)) m (h3.1 t ht m hm)
    · exact hb 4 (Or.inr (Or.inr rfl)) m (h4.1 t ht m hm)
  have hrem : ∀ m ∈
      (formTeamsBySize (participants.filter (fun p => p.preferredTeamSize == 2)) 2
        relaxedMode).unmatched ++
      (formTeamsBySize (participants.filter (fun p => p.preferredTeamSize == 3)) 3
        relaxedMode).unmatched ++
      (formTeamsBySize (participants.filter (fun p => p.preferredTeamSize == 4)) 4
        relaxedMode).unmatched,
      m ∈ participants ∧
      (m.preferredTeamSize = 2 ∨ m.preferredTeamSize = 3 ∨ m.preferredTeamSize = 4) := by
    intro m hm
    rw [List.mem_append, List.mem_append] at hm
    rcases hm with (hm | hm) | hm
    · exact hb 2 (Or.inl rfl) m (h2.2 m hm)
    · exact hb 3 (Or.inr (Or.inl rfl)) m (h3.2 m hm)
    · exact hb 4 (Or.inr (Or.inr rfl)) m (h4.2 m hm)
  have hover : ∀ l : List Participant, ∀ m,
      (m ∈ (formAdditionalTeamsRelaxed l).teams.flatMap (fun t => t.members) ∨
        m ∈ (formAdditionalTeamsRelaxed l).unmatched) → m ∈ l := by
    intro l m hm
    have : m ∈ (formAdditionalTeamsRelaxed l).teams.flatMap (fun t => t.members) ++
        (formAdditionalTeamsRelaxed l).unmatched := List.mem_append.mpr hm
    rw [formAdditionalTeamsRelaxed_concat] at this
    exact (jsSort_perm _ _).subset this
  rw [formTeamsAntiBias_eq]
  split_ifs with h0 hr
  · exact ⟨fun t ht => absurd ht (List.not_mem_nil _),
      fun m hm => absurd hm (List.not_mem_nil _)⟩
  · constructor
    · intro t ht m hm
      simp only at ht
      rw [List.mem_append] at ht
      rcases ht with ht | ht
      · exact hteams t ht m hm
      · exact hrem m (hover _ m (Or.inl (List.mem_flatMap.mpr ⟨t, ht, hm⟩)))
    · intro m hm
      exact hrem m (hover _ m (Or.inr hm))
  · exact ⟨hteams, hrem⟩

/-- In relaxed mode a cohort leaves at most one participant unmatched. -/
theorem formTeamsAntiBias_relaxed_unmatched_le (participants : List Participant) :
    (formTeamsAntiBias participants true).unmatched.length ≤ 1 := by
  rw [formTeamsAntiBias_eq]
  split_ifs with h0 hr
  · simp
  · simp only
    rw [(formAdditionalTeamsRelaxed_shape _).2]
    split_ifs <;> omega
  · simp only [Bool.true_and, decide_eq_true_eq, not_le] at hr
    simp only
    omega

/-- C21. In relaxed mode `formTeamsAntiBias` leaves at most 1 participant of a cohort
unmatched, so `matchParticipantsToTeams` returns at most 2 unmatched participants: at
most one undergraduate and at most one postgraduate. -/
theorem relaxed_unmatched_at_most_two :
    (∀ cohort : List Participant, (formTeamsAntiBias cohort true).unmatched.length ≤ 1) ∧
    (∀ participants : List Participant,
      (matchParticipantsToTeams participants true).unmatched.length ≤ 2 ∧
      ((matchParticipantsToTeams participants true).unmatched.filter isUndergraduate).length ≤ 1 ∧
      ((matchParticipantsToTeams participants true).unmatched.filter isPostgraduate).length ≤ 1) := by
  refine ⟨formTeamsAntiBias_relaxed_unmatched_le, ?_⟩
  intro participants
  have hug := formTeamsAntiBias_relaxed_unmatched_le (participants.filter isUndergraduate)
  have hpg := formTeamsAntiBias_relaxed_unmatched_le (participants.filter isPostgraduate)
  have hugm := (formTeamsAntiBias_sizes (participants.filter isUndergraduate) true).2
  have hpgm := (formTeamsAntiBias_sizes (participants.filter isPostgraduate) true).2
  rw [matchParticipantsToTeams_unmatched]
  refine ⟨by rw [List.length_append]; omega, ?_, ?_⟩
  · rw [List.filter_append, List.length_append]
    have h1 := (List.filter_sublist (p := isUndergraduate)
      (formTeamsAntiBias (participants.filter isUndergraduate) true).unmatched).length_le
    have h2 : (formTeamsAntiBias (participants.filter isPostgraduate) true).unmatched.filter
        isUndergraduate = [] := by
      rw [List.filter_eq_nil_iff]
      intro m hm
      have := (List.mem_filter.mp (hpgm m hm).1).2
      rw [isPostgraduate_eq_not_isUndergraduate] at this
      simpa using this
    rw [h2, List.length_nil]
    omega
  · rw [List.filter_append, List.length_append]
    have h1 := (List.filter_sublist (p := isPostgraduate)
      (formTeamsAntiBias (participants.filter isPostgraduate) true).unmatched).length_le
    have h2 : (formTeamsAntiBias (participants.filter isUndergraduate) true).unmatched.filter
        isPostgraduate = [] := by
      rw [List.filter_eq_nil_iff]
      intro m hm
      have := (List.mem_filter.mp (hugm m hm).1).2
      rw [isPostgraduate_eq_not_isUndergraduate, this]
      simp
    rw [h2, List.length_nil]
    omega

/-- Everybody in the result of `matchParticipantsToTeams` is a participant whose
preferred size is 2, 3 or 4. -/
theorem matchParticipantsToTeams_sizes (participants : List Participant) (relaxedMode : Bool) :
    (∀ t ∈ (matchParticipantsToTeams participants relaxedMode).teams, ∀ m ∈ t.members,
      m ∈ participants ∧
      (m.preferredTeamSize = 2 ∨ m.preferredTeamSize = 3 ∨ m.preferredTeamSize = 4)) ∧
    (∀ m ∈ (matchParticipantsToTeams participants relaxedMode).unmatched,
      m ∈ participants ∧
      (m.preferredTeamSize = 2 ∨ m.preferredTeamSize = 3 ∨ m.preferredTeamSize = 4)) := by
  have hug := formTeamsAntiBias_sizes (participants.filter isUndergraduate) relaxedMode
  have hpg := formTeamsAntiBias_sizes (participants.filter isPostgraduate) relaxedMode
  rw [matchParticipantsToTeams_teams, matchParticipantsToTeams_unmatched]
  constructor
  · intro t ht m hm
    rw [List.mem_append] at ht
    rcases ht with ht | ht
    · exact ⟨(List.filter_sublist _).subset (hug.1 t ht m hm).1, (hug.1 t ht m hm).2⟩
    · exact ⟨(List.filter_sublist _).subset (hpg.1 t ht m hm).1, (hpg.1 t ht m hm).2⟩
  · intro m hm
    rw [List.mem_append] at hm
    rcases hm with hm | hm
    · exact ⟨(List.filter_sublist _).subset (hug.2 m hm).1, (hug.2 m hm).2⟩
    · exact ⟨(List.filter_sublist _).subset (hpg.2 m hm).1, (hpg.2 m hm).2⟩

/-- A returned team is never empty. -/
theorem matchParticipantsToTeams_members_ne_nil (participants : List Participant)
    (relaxedMode : Bool) :
    ∀ t ∈ (matchParticipantsToTeams participants relaxedMode).teams, t.members ≠ [] := by
  intro t ht
  rcases (matchParticipantsToTeams_team_origin participants relaxedMode t ht).2 with
    ⟨T, available, hT, hcreate⟩ | ⟨_, members, hm, hlen⟩
  · have hlen := (create_some relaxedMode available T t hcreate).2.1
    intro hnil
    rw [hnil] at hlen
    simp at hlen
    omega
  · subst hm
    rw [createRelaxedTeamObject_members]
    intro hnil
    rw [hnil] at hlen
    simp at hlen

/-- C23. In either mode everybody in a returned team or in the unmatched list prefers
size 2, 3 or 4, so a participant with any other preferred size is in no team and not
unmatched, yet `totalParticipants` counts the whole input and `matchingEfficiency`
counts such a participant as matched: a non-empty input in which nobody prefers 2, 3
or 4 (for example a single participant who prefers 5) gives no team, an empty
unmatched list and `matchingEfficiency` 100. -/
theorem outside_sizes_dropped :
    (∀ (participants : List Participant) (relaxedMode : Bool),
      (∀ t ∈ (matchParticipantsToTeams participants relaxedMode).teams, ∀ m ∈ t.members,
        m.preferredTeamSize = 2 ∨ m.preferredTeamSize = 3 ∨ m.preferredTeamSize = 4) ∧
      (∀ m ∈ (matchParticipantsToTeams participants relaxedMode).unmatched,
        m.preferredTeamSize = 2 ∨ m.preferredTeamSize = 3 ∨ m.preferredTeamSize = 4) ∧
      (matchParticipantsToTeams participants relaxedMode).statistics.totalParticipants =
        participants.length) ∧
    (∀ (participants : List Participant) (relaxedMode : Bool) (p : Participant),
      ¬ (p.preferredTeamSize = 2 ∨ p.preferredTeamSize = 3 ∨ p.preferredTeamSize = 4) →
      (∀ t ∈ (matchParticipantsToTeams participants relaxedMode).teams, p ∉ t.members) ∧
      p ∉ (matchParticipantsToTeams participants relaxedMode).unmatched) ∧
    (∀ (participants : List Participant) (relaxedMode : Bool), participants ≠ [] →
      (∀ p ∈ participants,
        ¬ (p.preferredTeamSize = 2 ∨ p.preferredTeamSize = 3 ∨ p.preferredTeamSize = 4)) →
      (matchParticipantsToTeams participants relaxedMode).teams = [] ∧
      (matchParticipantsToTeams participants relaxedMode).unmatched = [] ∧
      (matchParticipantsToTeams participants relaxedMode).statistics.matchingEfficiency = 100) ∧
    (∀ (p : Participant) (relaxedMode : Bool), p.preferredTeamSize = 5 →
      (matchParticipantsToTeams [p] relaxedMode).teams = [] ∧
      (matchParticipantsToTeams [p] relaxedMode).unmatched = [] ∧
      (matchParticipantsToTeams [p] relaxedMode).statistics.totalParticipants = 1 ∧
      (matchParticipantsToTeams [p] relaxedMode).statistics.matchingEfficiency = 100) := by
  have hall : ∀ (participants : List Participant) (relaxedMode : Bool), participants ≠ [] →
      (∀ p ∈ participants,
        ¬ (p.preferredTeamSize = 2 ∨ p.preferredTeamSize = 3 ∨ p.preferredTeamSize = 4)) →
      (matchParticipantsToTeams participants relaxedMode).teams = [] ∧
      (matchParticipantsToTeams participants relaxedMode).unmatched = [] ∧
      (matchParticipantsToTeams participants relaxedMode).statistics.matchingEfficiency =
        100 := by
    intro participants relaxedMode hne hout
    have hs := matchParticipantsToTeams_sizes participants relaxedMode
    have hteams : (matchParticipantsToTeams participants relaxedMode).teams = [] := by
      rw [List.eq_nil_iff_forall_not_mem]
      intro t ht
      obtain ⟨m, hm⟩ := List.exists_mem_of_ne_nil _
        (matchParticipantsToTeams_members_ne_nil participants relaxedMode t ht)
      exact hout m (hs.1 t ht m hm).1 (hs.1 t ht m hm).2
    have hun : (matchParticipantsToTeams participants relaxedMode).unmatched = [] := by
      rw [List.eq_nil_iff_forall_not_mem]
      intro m hm
      exact hout m (hs.2 m hm).1 (hs.2 m hm).2
    refine ⟨hteams, hun, ?_⟩
    have hpos : participants.length > 0 := List.length_pos.mpr hne
    have hq : (participants.length : ℚ) ≠ 0 := by
      exact_mod_cast (Nat.pos_iff_ne_zero.mp hpos)
    rw [matchParticipantsToTeams_matchingEfficiency, if_pos hpos, hun]
    simp only [List.length_nil, Nat.cast_zero, sub_zero]
    rw [div_self hq]
    norm_num
  refine ⟨?_, ?_, hall, ?_⟩
  · intro participants relaxedMode
    have hs := matchParticipantsToTeams_sizes participants relaxedMode
    exact ⟨fun t ht m hm => (hs.1 t ht m hm).2, fun m hm => (hs.2 m hm).2, rfl⟩
  · intro participants relaxedMode p hp
    have hs := matchParticipantsToTeams_sizes participants relaxedMode
    exact ⟨fun t ht hm => hp (hs.1 t ht p hm).2, fun hm => hp (hs.2 p hm).2⟩
  · intro p relaxedMode hp
    have h := hall [p] relaxedMode (by simp)
      (by
        intro q hq
        rw [List.mem_singleton] at hq
        rw [hq, hp]
        omega)
    exact ⟨h.1, h.2.1, rfl, h.2.2⟩

theorem mem_pairs (l : List Participant) (ij : Participant × Participant)
    (h : ij ∈ pairs l) : ij.1 ∈ l ∧ ij.2 ∈ l := by
  induction l with
  | nil => simp [pairs] at h
  | cons x xs ih =>
    rw [pairs, List.mem_append, List.mem_map] at h
    rcases h with ⟨y, hy, rfl⟩ | h
    · exact ⟨List.mem_cons_self _ _, List.mem_cons_of_mem _ hy⟩
    · exact ⟨List.mem_cons_of_mem _ (ih h).1, List.mem_cons_of_mem _ (ih h).2⟩

/-- A candidate whose bucket is accepted by the single team member scores at least the
availability term. -/
theorem calculateAntiBiasScore_ge_twenty (a b : Participant) (targetSize : Nat)
    (h : isAvailabilityCompatible (getAvailabilityLevel a) (getAvailabilityLevel b) = true) :
    20 ≤ calculateAntiBiasScore [a] b targetSize := by
  have h1 := overlap_le_length ([a].flatMap (fun p => p.coreStrengths)) b.coreStrengths
  have h2 := overlap_le_length ([a].flatMap (fun p => p.preferredRoles)) b.preferredRoles
  have h3 : ([a].map (fun p => p.availability)).any (fun avail =>
      isAvailabilityCompatible (availabilityLevelOf avail) (getAvailabilityLevel b)) = true :=
    (any_availability_iff [a] b).mpr ⟨a, List.mem_singleton.mpr rfl, h⟩
  simp only [calculateAntiBiasScore]
  rw [if_pos h3]
  split_ifs <;> omega

theorem sum_map_ge {α : Type} (f : α → Int) (c : Int) (l : List α)
    (h : ∀ x ∈ l, c ≤ f x) : c * l.length ≤ (l.map f).sum := by
  induction l with
  | nil => simp
  | cons x xs ih =>
    have hx := h x (List.mem_cons_self _ _)
    have hxs := ih (fun y hy => h y (List.mem_cons_of_mem _ hy))
    simp only [List.map_cons, List.sum_cons, List.length_cons, Nat.cast_add, Nat.cast_one]
    linarith

/-- The score of a `createTeamObject` team whose members accept one another. -/
theorem createTeamObject_compatibilityScore_ge (members : List Participant)
    (hlen : 2 ≤ members.length)
    (hc : ∀ a ∈ members, ∀ b ∈ members,
      isAvailabilityCompatible (getAvailabilityLevel a) (getAvailabilityLevel b) = true) :
    20 ≤ (createTeamObject members).compatibilityScore := by
  have hpos := pairs_length_pos members hlen
  have hsum := sum_map_ge (fun ij : Participant × Participant =>
      calculateAntiBiasScore [ij.1] ij.2 members.length) 20 (pairs members)
    (fun ij hij => calculateAntiBiasScore_ge_twenty ij.1 ij.2 members.length
      (hc ij.1 (mem_pairs members ij hij).1 ij.2 (mem_pairs members ij hij).2))
  have hq : (0 : ℚ) < ((pairs members).length : ℚ) := by exact_mod_cast hpos
  have hsumq : (20 : ℚ) * ((pairs members).length : ℚ) ≤
      ((((pairs members).map
        (fun ij => calculateAntiBiasScore [ij.1] ij.2 members.length)).sum : Int) : ℚ) := by
    exact_mod_cast hsum
  rw [createTeamObject_compatibilityScore members hlen]
  have hmean : (20 : ℚ) ≤ ((((pairs members).map
        (fun ij => calculateAntiBiasScore [ij.1] ij.2 members.length)).sum : Int) : ℚ) /
          ((pairs members).length : ℚ) := by
    rw [le_div_iff₀ hq]
    exact hsumq
  exact le_min (by norm_num) (le_max_of_le_right hmean)

/-- C22. In strict mode every returned team has a `compatibilityScore` of at least 20:
for every member pair `i < j` in team order the bucket of member `i` accepts the bucket
of member `j`, so the pairwise `calculateAntiBiasScore` is at least the availability
term 20. -/
theorem strict_score_at_least_twenty (participants : List Participant) :
    ∀ t ∈ (matchParticipantsToTeams participants false).teams,
      20 ≤ t.compatibilityScore ∧
      ∀ ij ∈ pairs t.members,
        isAvailabilityCompatible (getAvailabilityLevel ij.1) (getAvailabilityLevel ij.2) = true ∧
        20 ≤ calculateAntiBiasScore [ij.1] ij.2 t.members.length := by
  intro t ht
  rcases (matchParticipantsToTeams_team_origin participants false t ht).2 with
    ⟨T, available, hT, hcreate⟩ | ⟨hmode, _⟩
  · have hcs := create_some false available T t hcreate
    simp only [Bool.false_eq_true, ↓reduceIte] at hcreate
    have hc := createTeamWithStrictConstraints_compatible available T t hcreate
    have hlen : 2 ≤ t.members.length := by
      rw [hcs.2.1]
      omega
    constructor
    · have h := createTeamObject_compatibilityScore_ge t.members hlen hc
      rw [← hcs.1] at h
      exact h
    · intro ij hij
      have hp := hc ij.1 (mem_pairs t.members ij hij).1 ij.2 (mem_pairs t.members ij hij).2
      exact ⟨hp, calculateAntiBiasScore_ge_twenty ij.1 ij.2 t.members.length hp⟩
  · exact absurd hmode (by decide)

/-- C22 at the team of the sample pool in strict mode, whose score is exactly 20. -/
theorem strict_score_at_least_twenty_witness :
    sampleStrictTeam ∈ (matchParticipantsToTeams samplePool false).teams ∧
    sampleStrictTeam.compatibilityScore = 20 ∧
    20 ≤ sampleStrictTeam.compatibilityScore ∧
    ∀ ij ∈ pairs sampleStrictTeam.members,
      isAvailabilityCompatible (getAvailabilityLevel ij.1) (getAvailabilityLevel ij.2) = true ∧
      20 ≤ calculateAntiBiasScore [ij.1] ij.2 sampleStrictTeam.members.length :=
  ⟨List.mem_singleton.mpr rfl, by decide!,
    strict_score_at_least_twenty samplePool sampleStrictTeam (List.mem_singleton.mpr rfl)⟩

/-- C24 at a bucket of five who prefer pairs and cover every availability label: two
teams of 2 and one participant left. -/
theorem relaxed_bucket_counts_witness :
    (sampleMixedBucket.map (fun p => p.id)).Nodup ∧
    (∀ p ∈ sampleMixedBucket, p.preferredTeamSize = 2) ∧
    sampleMixedBucket.length = 5 ∧
    (formTeamsBySize sampleMixedBucket 2 true).teams.length = sampleMixedBucket.length / 2 ∧
    (formTeamsBySize sampleMixedBucket 2 true).unmatched.length = sampleMixedBucket.length % 2 ∧
    (∀ t ∈ (formTeamsBySize sampleMixedBucket 2 true).teams, t.members.length = 2) ∧
    ((formTeamsBySize sampleMixedBucket 2 true).teams.flatMap (fun t => t.members) ++
      (formTeamsBySize sampleMixedBucket 2 true).unmatched).Perm sampleMixedBucket :=
  ⟨by decide, by decide, rfl,
    relaxed_bucket_counts sampleMixedBucket 2 (Or.inl rfl) (by decide) (by decide)⟩

end Matchmaking
